import Mathlib

/-!
Verification development for the AutoRouting electrical-wiring repository.

The Python backend (src/backend/models.py and src/backend/algorithms.py) is
shallowly embedded below.  Modelling conventions:

* Python floats are modelled as exact rationals (the executable type Q
  below; Mathlib's Rat is avoided only because its arithmetic does not
  reduce under the kernel).  Conduit lengths use an exact rational square
  root (Q.sqrtPS); it agrees with the source's floating-point sqrt on
  every perfect-square input, and all concrete systems evaluated in this
  file use axis-aligned coordinates so that every distance is such an
  input.
* Python dicts are modelled as insertion-ordered association lists
  (PyDict), matching CPython's guaranteed insertion-order iteration and
  its update-in-place behaviour for existing keys.
* Python sets are modelled as insertion-ordered duplicate-free lists.
  CPython set iteration order is hash-dependent and unspecified; the
  embedding fixes a deterministic order, which only affects tie-breaking
  that the source itself leaves unspecified.
* A raised ValueError / NetworkX exception becomes an explicit error
  result (Res.err) that carries the state at the moment of the raise:
  Python mutates objects in place, so changes made before an exception are
  visible to the caller.
* NetworkX shortest-path and minimum-spanning-tree queries are modelled by
  a deterministic Bellman-Ford relaxation and a stable-sorted Kruskal
  fold; they compute weighted shortest paths / spanning forests exactly as
  the library does, up to tie-breaking (which the spec marks unspecified).
-/

namespace AutoRouting

/-! ## Insertion-ordered dictionaries (Python dict) -/

def PyDict (α : Type) : Type := List (String × α)

instance (α : Type) [DecidableEq α] : DecidableEq (PyDict α) := by
  unfold PyDict; infer_instance

def PyDict.find {α : Type} : PyDict α → String → Option α
  | [], _ => none
  | (k, v) :: t, k2 => if k = k2 then some v else PyDict.find t k2

/-- Python `d[k] = v`: replace in place if the key exists, else append. -/
def PyDict.insert {α : Type} : PyDict α → String → α → PyDict α
  | [], k, v => [(k, v)]
  | (k2, v2) :: t, k, v =>
    if k2 = k then (k, v) :: t else (k2, v2) :: PyDict.insert t k v

/-- Python `del d[k]` (no-op here when the key is absent; call sites check). -/
def PyDict.erase {α : Type} : PyDict α → String → PyDict α
  | [], _ => []
  | (k2, v2) :: t, k => if k2 = k then t else (k2, v2) :: PyDict.erase t k

def PyDict.keys {α : Type} (d : PyDict α) : List String := d.map (·.1)

/-- The entry list of a dict (the dict itself, at list type). -/
def PyDict.entries {α : Type} (d : PyDict α) : List (String × α) := d

def PyDict.values {α : Type} (d : PyDict α) : List α := d.map (·.2)

def PyDict.hasKey {α : Type} (d : PyDict α) (k : String) : Bool :=
  d.keys.contains k

/-! ## Insertion-ordered sets (Python set, with a fixed deterministic order) -/

def dedupAux : List String → List String → List String
  | [], _ => []
  | a :: l, seen =>
    if seen.contains a then dedupAux l seen else a :: dedupAux l (a :: seen)

def pyset (l : List String) : List String := dedupAux l []

def pyUnion (a b : List String) : List String := pyset (a ++ b)

/-! ## Exact rationals (model of Python float) -/

/-- An exact rational `num / den`.  Every value built by the operations
below is in lowest terms with a positive denominator. -/
structure Q where
  num : Int
  den : Nat
deriving DecidableEq

def Q.norm (n : Int) (d : Nat) : Q :=
  let g := Nat.gcd n.natAbs d
  if g = 0 then ⟨0, 1⟩ else ⟨n / (g : Int), d / g⟩

def Q.add (a b : Q) : Q := Q.norm (a.num * b.den + b.num * a.den) (a.den * b.den)

def Q.sub (a b : Q) : Q := Q.norm (a.num * b.den - b.num * a.den) (a.den * b.den)

def Q.mul (a b : Q) : Q := Q.norm (a.num * b.num) (a.den * b.den)

def Q.le (a b : Q) : Bool := a.num * (b.den : Int) ≤ b.num * (a.den : Int)

def Q.lt (a b : Q) : Bool := a.num * (b.den : Int) < b.num * (a.den : Int)

def Q.zero : Q := ⟨0, 1⟩

def Q.ofInt (n : Int) : Q := ⟨n, 1⟩

/-- Linear-scan integer square root (structurally recursive so that the
kernel can evaluate it; the inputs in this file are tiny). -/
def natSqrtL (n : Nat) : Nat :=
  (List.range (n + 1)).foldl (fun a k => if k * k ≤ n then k else a) 0

/-- Models `math.sqrt` / `math.hypot`.  Exact whenever the argument is the
square of a rational (numerator and denominator of the reduced form are
then perfect squares); every concrete distance in this file is of that
form. -/
def Q.sqrtPS (q : Q) : Q :=
  if q.le Q.zero then Q.zero else ⟨natSqrtL q.num.toNat, natSqrtL q.den⟩

def euclidDist (x1 y1 x2 y2 : Q) : Q :=
  Q.sqrtPS (((x1.sub x2).mul (x1.sub x2)).add ((y1.sub y2).mul (y1.sub y2)))

/-! ## Stable sort (mirrors Python `sorted`, used by NetworkX Kruskal) -/

def insSorted {α : Type} (le : α → α → Bool) (x : α) : List α → List α
  | [] => [x]
  | y :: ys => if le y x then y :: insSorted le x ys else x :: y :: ys

/-- Stable insertion sort: equal elements keep their original order. -/
def sortBy {α : Type} (le : α → α → Bool) (l : List α) : List α :=
  l.foldl (fun acc x => insSorted le x acc) []

/-! ## Enumerations (models.py NodeType / WireType) -/

inductive NodeType where
  | DISTRIBUTION_BOX
  | SWITCH
  | LIGHT
  | SOCKET
  | JUNCTION_BOX
deriving DecidableEq

inductive WireType where
  | N
  | PE
  | L_UNIT
  | L_CONTROL
  | L_POWER
deriving DecidableEq

/-! ## Errors (Python exceptions, structured) -/

inductive Err where
  /-- models.py line 63: ValueError naming the conduit id, the circuit id
  the conduit is bound to, and the incoming circuit id. -/
  | wireConflict (conduitId : String) (boundCircuit : String) (newCircuit : String)
  /-- models.py lines 198 / 209: node already belongs to another circuit. -/
  | circuitMembership (nodeId : String) (otherCircuit : String)
  /-- models.py rename_node_id errors. -/
  | renameEmpty
  | renameExists (id : String)
  | renameMissing (id : String)
  /-- networkx NodeNotFound (not caught by the NetworkXNoPath handlers). -/
  | nodeNotFound
deriving DecidableEq

/-- A Python call that may raise: on error the state at the moment of the
raise is kept (in-place mutation is visible to the caller). -/
inductive Res (σ : Type) where
  | ok (s : σ)
  | err (e : Err) (s : σ)
deriving DecidableEq

def Res.bind {σ : Type} (r : Res σ) (f : σ → Res σ) : Res σ :=
  match r with
  | .ok s => f s
  | .err e s => .err e s

def Res.state {σ : Type} : Res σ → σ
  | .ok s => s
  | .err _ s => s

def Res.isOk {σ : Type} : Res σ → Bool
  | .ok _ => true
  | .err _ _ => false

def foldRes {σ α : Type} (f : σ → α → Res σ) : List α → σ → Res σ
  | [], s => .ok s
  | a :: l, s =>
    match f s a with
    | .ok s2 => foldRes f l s2
    | .err e s2 => .err e s2

/-! ## Python truthiness for Optional[str] -/

def optTruthy : Option String → Bool
  | none => false
  | some s => s != ""

/-- Python `a or b` on Optional[str]. -/
def orStr (a b : Option String) : Option String :=
  if optTruthy a then a else b

/-! ## Wire (models.py Wire dataclass; `connected_wires` back-references on
Node are never used by the backend and are omitted) -/

structure Wire where
  id : String
  wire_type : WireType
  unit_id : Option String
  circuit_id : Option String
  current : Q
  path : List String
  color : String
deriving DecidableEq

def colorFor : WireType → String
  | .N => "蓝色"
  | .PE => "黄绿"
  | .L_CONTROL => "橙色"
  | .L_POWER => "红色"
  | .L_UNIT => "棕色"

/-! ## Conduit and Conduit.add_wire (models.py lines 34-87) -/

structure Conduit where
  id : String
  start_node_id : String
  end_node_id : String
  length : Q
  wires : List Wire
  circuit_id : Option String
deriving DecidableEq

/-- First argument of `add_wire`: a WireType enum value or a Wire object. -/
inductive WireArg where
  | ofType (wt : WireType)
  | ofWire (w : Wire)
deriving DecidableEq

/-- One appended wire for the WireType branch (models.py lines 64-75).
`n` is `len(self.wires)` at loop iteration `i`. -/
def mkWireOfType (cid : String) (n : Nat) (i : Nat) (wt : WireType)
    (unit_id circuit_id conduit_circuit : Option String) : Wire :=
  ⟨cid ++ "-w-" ++ toString (n + 1 + i), wt, unit_id,
    orStr circuit_id conduit_circuit, Q.zero, [cid], colorFor wt⟩

/-- One appended wire for the Wire-object branch (models.py lines 76-87):
the object's id is discarded, its circuit id / path / color fall back to
the conduit's binding / the conduit id / the type's color when falsy. -/
def mkWireOfWire (cid : String) (n : Nat) (i : Nat) (w : Wire)
    (conduit_circuit : Option String) : Wire :=
  ⟨cid ++ "-w-" ++ toString (n + 1 + i), w.wire_type, w.unit_id,
    orStr w.circuit_id conduit_circuit, w.current,
    (if w.path.isEmpty then [cid] else w.path),
    (if w.color != "" then w.color else colorFor w.wire_type)⟩

/-- The append loop: `len(self.wires)` is re-read on every iteration. -/
def appendWires (cid : String) (mk : Nat → Nat → Option String → Wire) :
    Nat → Nat → List Wire → Option String → List Wire
  | 0, _, ws, _ => ws
  | k + 1, i, ws, cc => appendWires cid mk k (i + 1) (ws ++ [mk ws.length i cc]) cc

/-- models.py Conduit.add_wire.  The circuit-binding check (lines 59-63)
runs only when the `circuit_id` keyword argument is truthy; it binds an
unbound conduit, accepts a matching binding, and raises on a differing
one.  Wire objects carrying their own circuit id bypass the check. -/
def Conduit.add_wire (c : Conduit) (arg : WireArg) (count : Nat)
    (unit_id circuit_id : Option String) : Res Conduit :=
  let step2 : Conduit → Res Conduit := fun c2 =>
    match arg with
    | .ofType wt =>
      let ws := appendWires c2.id
        (fun n i cc => mkWireOfType c2.id n i wt unit_id circuit_id cc)
        count 0 c2.wires c2.circuit_id
      .ok { c2 with wires := ws }
    | .ofWire w =>
      let ws := appendWires c2.id
        (fun n i cc => mkWireOfWire c2.id n i w cc)
        count 0 c2.wires c2.circuit_id
      .ok { c2 with wires := ws }
  if optTruthy circuit_id then
    match c.circuit_id with
    | none => step2 { c with circuit_id := circuit_id }
    | some bound =>
      if some bound = circuit_id then step2 c
      else .err (.wireConflict c.id bound (circuit_id.getD "")) c
  else step2 c

/-! ## Node, Unit, Circuit (models.py lines 90-136) -/

structure Node where
  id : String
  node_type : NodeType
  x : Q
  y : Q
  label : String
  gangs : Option Nat
  power : Option Q
  rated_current : Q
  usage : Option String
  controlled_unit_id : Option String
  uncontrolled_unit_id : Option String
deriving DecidableEq

structure Unit where
  id : String
  name : String
  unit_type : String
  description : String
  member_node_ids : List String
  control_switch_id : Option String
  switch_gang_index : Option Nat
deriving DecidableEq

structure Circuit where
  id : String
  name : String
  distribution_box_id : String
  member_node_ids : List String
deriving DecidableEq

/-! ## CircuitSystem (models.py lines 139-404) -/

structure CircuitSystem where
  nodes : PyDict Node
  conduits : PyDict Conduit
  units : PyDict Unit
  distribution_box_id : Option String
  distribution_box_ids : List String
  circuit_id : String
  circuits : PyDict Circuit
  adj : PyDict (PyDict String)
deriving DecidableEq

def emptySystem : CircuitSystem :=
  ⟨[], [], [], none, [], "回路001", [], []⟩

/-- models.py CircuitSystem.add_node (lines 153-160).  No duplicate-id
check: an existing entry is overwritten in place; a distribution-box id is
appended to distribution_box_ids unconditionally. -/
def CircuitSystem.add_node (s : CircuitSystem) (node : Node) : CircuitSystem :=
  let s := { s with nodes := s.nodes.insert node.id node }
  let s :=
    if node.node_type = NodeType.DISTRIBUTION_BOX then
      { s with
        distribution_box_ids := s.distribution_box_ids ++ [node.id],
        distribution_box_id :=
          match s.distribution_box_id with
          | none => some node.id
          | some d => some d }
    else s
  if s.adj.hasKey node.id then s else { s with adj := s.adj.insert node.id [] }

/-- `self.adj[u][v] = cid` on the nested dicts. -/
def adjInsertPair (adj : PyDict (PyDict String)) (u v cid : String) :
    PyDict (PyDict String) :=
  adj.insert u (((adj.find u).getD []).insert v cid)

/-- models.py CircuitSystem.add_conduit (lines 162-178).  No duplicate
check of any kind: the conduit dict entry and both adjacency cells are
overwritten; the length is recomputed from the endpoint positions when
both endpoint nodes exist. -/
def CircuitSystem.add_conduit (s : CircuitSystem) (conduit : Conduit) : CircuitSystem :=
  let adj := if s.adj.hasKey conduit.start_node_id then s.adj
             else s.adj.insert conduit.start_node_id []
  let adj := if adj.hasKey conduit.end_node_id then adj
             else adj.insert conduit.end_node_id []
  let adj := adjInsertPair adj conduit.start_node_id conduit.end_node_id conduit.id
  let adj := adjInsertPair adj conduit.end_node_id conduit.start_node_id conduit.id
  let conduit :=
    match s.nodes.find conduit.start_node_id, s.nodes.find conduit.end_node_id with
    | some n1, some n2 => { conduit with length := euclidDist n1.x n1.y n2.x n2.y }
    | _, _ => conduit
  { s with conduits := s.conduits.insert conduit.id conduit, adj := adj }

/-- models.py CircuitSystem.add_unit (line 180). -/
def CircuitSystem.add_unit (s : CircuitSystem) (unit : Unit) : CircuitSystem :=
  { s with units := s.units.insert unit.id unit }

/-- The membership-conflict scan of add_circuit: the first member node
that exists, is not a distribution box and already belongs to a different
circuit, paired with that circuit's id. -/
def circuitConflict (s : CircuitSystem) (newId : String) :
    List String → Option (String × String)
  | [] => none
  | nid :: rest =>
    match s.nodes.find nid with
    | none => circuitConflict s newId rest
    | some n =>
      if n.node_type = NodeType.DISTRIBUTION_BOX then circuitConflict s newId rest
      else
        match (s.circuits.values.filter
          (fun c => c.id ≠ newId ∧ c.member_node_ids.contains nid)).head? with
        | some c => some (nid, c.id)
        | none => circuitConflict s newId rest

/-- models.py CircuitSystem.add_circuit (lines 183-199).  The circuit is
inserted (overwriting any entry with the same id) and the distribution-box
bookkeeping is updated BEFORE the membership validation, so a raised
conflict leaves the circuit inserted. -/
def CircuitSystem.add_circuit (s : CircuitSystem) (circuit : Circuit) : Res CircuitSystem :=
  let s := { s with circuits := s.circuits.insert circuit.id circuit }
  let s :=
    if s.distribution_box_ids.contains circuit.distribution_box_id then s
    else
      { s with
        distribution_box_ids := s.distribution_box_ids ++ [circuit.distribution_box_id],
        distribution_box_id :=
          match s.distribution_box_id with
          | none => some circuit.distribution_box_id
          | some d => some d }
  match circuitConflict s circuit.id circuit.member_node_ids with
  | some (nid, cid) => .err (.circuitMembership nid cid) s
  | none => .ok s

/-- models.py CircuitSystem.get_conduit (lines 292-296), keeping the dict
key the conduit was found under: the source returns the stored object and
mutates it in place, which is mutation of the entry at that key. -/
def CircuitSystem.get_conduit_entry (s : CircuitSystem) (u_id v_id : String) :
    Option (String × Conduit) :=
  match ((s.adj.find u_id).getD []).find v_id with
  | some conduit_id => (s.conduits.find conduit_id).map (fun c => (conduit_id, c))
  | none => none

def CircuitSystem.get_conduit (s : CircuitSystem) (u_id v_id : String) : Option Conduit :=
  (s.get_conduit_entry u_id v_id).map (fun p => p.2)

/-- models.py CircuitSystem.clear_wires (lines 298-300). -/
def CircuitSystem.clear_wires (s : CircuitSystem) : CircuitSystem :=
  { s with conduits := s.conduits.map (fun p => (p.1, { p.2 with wires := [] })) }

/-- models.py CircuitSystem.remove_conduit (lines 373-387). -/
def CircuitSystem.remove_conduit (s : CircuitSystem) (conduit_id : String) : CircuitSystem :=
  match s.conduits.find conduit_id with
  | none => s
  | some conduit =>
    let u := conduit.start_node_id
    let v := conduit.end_node_id
    let adj := match s.adj.find u with
      | some m => if m.hasKey v then s.adj.insert u (m.erase v) else s.adj
      | none => s.adj
    let adj := match adj.find v with
      | some m => if m.hasKey u then adj.insert v (m.erase u) else adj
      | none => adj
    { s with conduits := s.conduits.erase conduit_id, adj := adj }

/-- The per-unit cleanup of remove_node (models.py lines 366-371):
`list.remove` erases the first occurrence of the member id; a matching
control switch reference is cleared. -/
def unitCleanup (node_id : String) (u : Unit) : Unit :=
  let u := if u.member_node_ids.contains node_id then
      { u with member_node_ids := u.member_node_ids.erase node_id }
    else u
  if u.control_switch_id = some node_id then { u with control_switch_id := none } else u

/-- models.py CircuitSystem.remove_node (lines 342-371).  Never touches
distribution_box_ids, circuits, or the generic circuit_id tag. -/
def CircuitSystem.remove_node (s : CircuitSystem) (node_id : String) : CircuitSystem :=
  if (s.nodes.find node_id).isNone then s
  else
    let connected_conduits := ((s.adj.find node_id).getD []).values
    let s := connected_conduits.foldl (fun t cid => t.remove_conduit cid) s
    let s := { s with adj := s.adj.erase node_id }
    let s := { s with nodes := s.nodes.erase node_id }
    let s :=
      if s.distribution_box_id = some node_id then
        { s with distribution_box_id := none }
      else s
    { s with units := s.units.map (fun p => (p.1, unitCleanup node_id p.2)) }

/-! ## Weighted undirected graphs (the NetworkX layer used by
algorithms.py).  Shortest paths are computed by deterministic Bellman-Ford
relaxation and spanning trees by a stable-sorted Kruskal fold: both agree
with the library's Dijkstra / Kruskal on all inputs up to tie-breaking,
which the spec itself leaves unspecified. -/

structure Graph where
  gnodes : List String
  gedges : List (String × String × Q)
deriving DecidableEq

def Graph.addNode (g : Graph) (n : String) : Graph :=
  if g.gnodes.contains n then g else ⟨g.gnodes ++ [n], g.gedges⟩

def sameEdge (u v : String) (e : String × String × Q) : Bool :=
  (e.1 == u && e.2.1 == v) || (e.1 == v && e.2.1 == u)

/-- nx `G.add_edge(u, v, weight=w)`: adding an edge that already exists
(as an unordered pair) overwrites its weight in place. -/
def Graph.addEdge (g : Graph) (u v : String) (w : Q) : Graph :=
  let g := (g.addNode u).addNode v
  if g.gedges.any (sameEdge u v) then
    ⟨g.gnodes, g.gedges.map (fun e => if sameEdge u v e then (e.1, e.2.1, w) else e)⟩
  else ⟨g.gnodes, g.gedges ++ [(u, v, w)]⟩

/-- nx `G.subgraph(s)`: the induced subgraph on the graph's nodes that lie
in `s`. -/
def Graph.subgraph (g : Graph) (s : List String) : Graph :=
  ⟨g.gnodes.filter (fun n => s.contains n),
   g.gedges.filter (fun e => s.contains e.1 && s.contains e.2.1)⟩

/-- One Bellman-Ford relaxation sweep over the edge list (both
directions); a strictly smaller tentative distance replaces the stored
one, ties keep the earlier entry. -/
def relaxEdge (d : PyDict (Q × List String)) (u v : String) (w : Q) :
    PyDict (Q × List String) :=
  match d.find u with
  | none => d
  | some (du, pu) =>
    let cand := du.add w
    match d.find v with
    | none => d.insert v (cand, pu ++ [v])
    | some (dv, _) => if cand.lt dv then d.insert v (cand, pu ++ [v]) else d

def relaxSweep (edges : List (String × String × Q))
    (d : PyDict (Q × List String)) : PyDict (Q × List String) :=
  edges.foldl (fun d e => relaxEdge (relaxEdge d e.1 e.2.1 e.2.2) e.2.1 e.1 e.2.2) d

def relaxRounds (edges : List (String × String × Q)) :
    Nat → PyDict (Q × List String) → PyDict (Q × List String)
  | 0, d => d
  | n + 1, d => relaxRounds edges n (relaxSweep edges d)

inductive PRes where
  | found (dist : Q) (path : List String)
  /-- nx NetworkXNoPath (caught by all call sites). -/
  | noPath
  /-- nx NodeNotFound: source or target not in the graph (caught only
  where the source catches it). -/
  | nodeNotFound
deriving DecidableEq

/-- nx `shortest_path` / `shortest_path_length` with `weight='weight'`
(one function returning both). -/
def Graph.shortest_path (g : Graph) (u v : String) : PRes :=
  if g.gnodes.contains u && g.gnodes.contains v then
    match (relaxRounds g.gedges g.gnodes.length
        (PyDict.insert [] u (Q.zero, [u]))).find v with
    | some (d, p) => .found d p
    | none => .noPath
  else .nodeNotFound

/-- Reachability inside a chosen-edge list (used by the Kruskal fold). -/
def expandReach (es : List (String × String)) (seen : List String) : List String :=
  es.foldl (fun s e =>
    let s := if s.contains e.1 && !s.contains e.2 then s ++ [e.2] else s
    if s.contains e.2 && !s.contains e.1 then s ++ [e.1] else s) seen

def reachClosure (es : List (String × String)) : Nat → List String → List String
  | 0, s => s
  | n + 1, s => reachClosure es n (expandReach es s)

def connectedIn (es : List (String × String)) (u v : String) : Bool :=
  (reachClosure es (es.length + 1) [u]).contains v

/-- nx `minimum_spanning_tree` (Kruskal): edges stably sorted by weight,
then greedily accepted when they join two components; the accepted edges
are returned in acceptance order, which for the complete graphs this
repository feeds it coincides with `T.edges()` iteration order. -/
def Graph.mstEdges (g : Graph) : List (String × String) :=
  let sorted := sortBy (fun a b => a.2.2.le b.2.2) g.gedges
  sorted.foldl (fun acc e =>
    if connectedIn acc e.1 e.2.1 then acc else acc ++ [(e.1, e.2.1)]) []

def Graph.edgeCount (g : Graph) : Nat := g.gedges.length

/-! ## WiringCalculator (algorithms.py lines 7-338).

The calculator's auxiliary graph `self.graph` is built once from the
system's nodes and conduits (endpoint ids and lengths only) and is never
rebuilt during `calculate`; since `calculate` only mutates wires, bindings
and rated currents, the graph stays consistent with the system
throughout.  Where the source recomputes an identical `baseG` inside a
loop, the embedding computes it once. -/

def buildGraph (s : CircuitSystem) : Graph :=
  let g := s.nodes.values.foldl (fun g n => g.addNode n.id) (⟨[], []⟩ : Graph)
  s.conduits.values.foldl
    (fun g c => g.addEdge c.start_node_id c.end_node_id c.length) g

def pathPairs : List String → List (String × String)
  | [] => []
  | [_] => []
  | a :: b :: t => (a, b) :: pathPairs (b :: t)

/-- algorithms.py _add_wires_to_path (lines 50-56): the `circuit_id`
keyword is always passed to add_wire as `circuit_id or self.system.circuit_id`,
which is the path on which the structural-conflict check can fire. -/
def addWiresToPath (s : CircuitSystem) (path : List String) (wt : WireType)
    (unit_id circuit_id : Option String) : Res CircuitSystem :=
  foldRes (fun s uv =>
    match s.get_conduit_entry uv.1 uv.2 with
    | none => .ok s
    | some (key, conduit) =>
      match conduit.add_wire (.ofType wt) 1 unit_id (orStr circuit_id (some s.circuit_id)) with
      | .ok c2 => .ok { s with conduits := s.conduits.insert key c2 }
      | .err e _ => .err e s) (pathPairs path) s

/-- algorithms.py _build_wire_graph (lines 58-66). -/
def build_wire_graph (s : CircuitSystem) (wt : WireType) (circuit_id : Option String) : Graph :=
  let g := s.nodes.keys.foldl (fun g n => g.addNode n) (⟨[], []⟩ : Graph)
  s.conduits.values.foldl (fun g c =>
    if c.wires.any (fun w => w.wire_type == wt &&
        (match circuit_id with
         | none => true
         | some cid => w.circuit_id == some cid)) then
      g.addEdge c.start_node_id c.end_node_id c.length
    else g) g

def ijPairsG {α : Type} : List α → List (α × α)
  | [] => []
  | a :: t => (t.map (fun b => (a, b))) ++ ijPairsG t

/-- The complete-graph construction of _lay_mst_wires_via_conduits (lines
79-88): per pair, NetworkXNoPath is caught and skipped, NodeNotFound is
not caught (`none` here) and propagates. -/
def buildK (baseG : Graph) : List (String × String) → Graph → Option Graph
  | [], K => some K
  | (u, v) :: rest, K =>
    match baseG.shortest_path u v with
    | .found d _ => buildK baseG rest (K.addEdge u v d)
    | .noPath => buildK baseG rest K
    | .nodeNotFound => none

/-- algorithms.py _lay_mst_wires_via_conduits (lines 68-98). -/
def lay_mst_wires_via_conduits (g : Graph) (s : CircuitSystem) (node_ids : List String)
    (anchor_id : String) (wt : WireType) (unit_id circuit_id : Option String)
    (allowed : Option (List String)) : Res CircuitSystem :=
  let targets := pyset (node_ids ++ [anchor_id])
  if targets.length < 2 then .ok s
  else
    let baseG := match allowed with
      | none => g
      | some a => g.subgraph a
    match buildK baseG (ijPairsG targets) ⟨[], []⟩ with
    | none => .err .nodeNotFound s
    | some K =>
      if K.edgeCount = 0 then .ok s
      else
        foldRes (fun s uv =>
          match baseG.shortest_path uv.1 uv.2 with
          | .found _ p => addWiresToPath s p wt unit_id circuit_id
          | .noPath => .ok s
          | .nodeNotFound => .err .nodeNotFound s) K.mstEdges s

/-- The `distribution_box_ids or ([distribution_box_id] if distribution_box_id
else [])` idiom (algorithms.py lines 32 and 102). -/
def distBoxes (s : CircuitSystem) : List String :=
  if s.distribution_box_ids.isEmpty then
    if optTruthy s.distribution_box_id then [s.distribution_box_id.getD ""] else []
  else s.distribution_box_ids

inductive NearestRes where
  | found (db : String)
  | noneFound
  | raised
deriving DecidableEq

def nearestLoop (g : Graph) (allowed : Option (List String)) (node_id : String) :
    List String → Option (String × Q) → NearestRes
  | [], best =>
    match best with
    | some (db, _) => .found db
    | none => .noneFound
  | dbid :: rest, best =>
    let baseG := match allowed with
      | none => g
      | some a => g.subgraph (pyUnion a [dbid, node_id])
    match baseG.shortest_path node_id dbid with
    | .found d _ =>
      let better := match best with
        | none => true
        | some (_, bd) => d.lt bd
      nearestLoop g allowed node_id rest (if better then some (dbid, d) else best)
    | .noPath => nearestLoop g allowed node_id rest best
    | .nodeNotFound => .raised

/-- algorithms.py _nearest_db (lines 100-114): strict minimum over the
distribution boxes in list order; NodeNotFound propagates. -/
def nearest_db (g : Graph) (s : CircuitSystem) (node_id : String)
    (allowed : Option (List String)) : NearestRes :=
  nearestLoop g allowed node_id (distBoxes s) none

/-- The N+PE laying loop of _step1_lay_base_circuit (lines 118-127): two
Wire-object add_wire calls per qualifying conduit; the `circuit_id`
keyword argument stays None, so the binding check never runs here and the
loop cannot raise. -/
def step1LayBody (circuit_id : String) (allowed : List String)
    (s : CircuitSystem) (k : String) : CircuitSystem :=
  match s.conduits.find k with
  | none => s
  | some conduit =>
    match s.nodes.find conduit.start_node_id, s.nodes.find conduit.end_node_id with
    | some u, some v =>
      if u.node_type = NodeType.SWITCH ∨ v.node_type = NodeType.SWITCH then s
      else if allowed.contains u.id && allowed.contains v.id then
        let w1 : Wire := ⟨conduit.id ++ "-auto-N", .N, none, some circuit_id, Q.zero, [], ""⟩
        let c1 := (conduit.add_wire (.ofWire w1) 1 none none).state
        let w2 : Wire := ⟨conduit.id ++ "-auto-PE", .PE, none, some circuit_id, Q.zero, [], ""⟩
        let c2 := (c1.add_wire (.ofWire w2) 1 none none).state
        { s with conduits := s.conduits.insert k c2 }
      else s
    | _, _ => s

def step1_lay (s : CircuitSystem) (circuit_id : String) (allowed : List String) : CircuitSystem :=
  (PyDict.keys s.conduits).foldl (step1LayBody circuit_id allowed) s

/-- Current accumulation along a node path (the identical inner loops of
steps 1-4): wires matching `pick` on each conduit of the path get `amt`
added to their current. -/
def accumBody (pick : Wire → Bool) (amt : Q) (s : CircuitSystem) (uv : String × String) :
    CircuitSystem :=
  match s.get_conduit_entry uv.1 uv.2 with
  | none => s
  | some (key, conduit) =>
    let c2 := { conduit with wires := conduit.wires.map (fun w =>
      if pick w then { w with current := w.current.add amt } else w) }
    { s with conduits := s.conduits.insert key c2 }

def accumWires (s : CircuitSystem) (p : List String) (pick : Wire → Bool) (amt : Q) :
    CircuitSystem :=
  (pathPairs p).foldl (accumBody pick amt) s

/-- The per-device accumulation body of _step1_lay_base_circuit (lines
130-147): skip when the nearest distribution box is not this circuit's or
when there is no path; NodeNotFound from _nearest_db or the uncaught
NodeNotFound of line 135 propagates. -/
def step1AccumBody (g : Graph) (dbid circuit_id : String) (allowed : List String)
    (s : CircuitSystem) (dev : Node) : Res CircuitSystem :=
  match nearest_db g s dev.id (some allowed) with
  | .raised => .err .nodeNotFound s
  | .noneFound => .ok s
  | .found db =>
    if db ≠ dbid then .ok s
    else
      match (g.subgraph (pyUnion allowed [dbid])).shortest_path dev.id dbid with
      | .noPath => .ok s
      | .nodeNotFound => .err .nodeNotFound s
      | .found _ p =>
        .ok (accumWires s p
          (fun w => w.wire_type == WireType.N && w.circuit_id == some circuit_id)
          dev.rated_current)

/-- algorithms.py _step1_lay_base_circuit (lines 116-147). -/
def step1_lay_base_circuit (g : Graph) (s0 : CircuitSystem) (dbid circuit_id : String)
    (allowed : List String) : Res CircuitSystem :=
  let s := step1_lay s0 circuit_id allowed
  let devices := s.nodes.values.filter (fun n =>
    n.node_type ≠ NodeType.SWITCH ∧ n.node_type ≠ NodeType.DISTRIBUTION_BOX ∧
      allowed.contains n.id)
  foldRes (step1AccumBody g dbid circuit_id allowed) devices s

/-- algorithms.py _step2_lay_uncontrolled_power (lines 148-192). -/
def step2_lay_uncontrolled_power (g : Graph) (s : CircuitSystem) (dbid circuit_id : String)
    (allowed : List String) : Res CircuitSystem :=
  if dbid = "" then .ok s
  else
    foldRes (fun s unit =>
      if unit.unit_type ≠ "非受控" then .ok s
      else if unit.member_node_ids.isEmpty then .ok s
      else if ¬ unit.member_node_ids.all (fun m => allowed.contains m) then .ok s
      else
        (lay_mst_wires_via_conduits g s unit.member_node_ids dbid .L_POWER
          (some unit.id) (some circuit_id) (some allowed)).bind (fun s =>
          let Gp := build_wire_graph s .L_POWER (some circuit_id)
          foldRes (fun s member_id =>
            match Gp.shortest_path member_id dbid with
            | .found _ p =>
              match s.nodes.find member_id with
              | none => .ok s
              | some member_node =>
                .ok (accumWires s p
                  (fun w => w.wire_type == WireType.L_POWER &&
                    w.unit_id == some unit.id && w.circuit_id == some circuit_id)
                  member_node.rated_current)
            | _ => .ok s) unit.member_node_ids s)) s.units.values s

/-- The switch-aggregation formula of step 3 (lines 230-250): the sum of
the currents of all L_CONTROL wires of this circuit on conduits incident
to the switch via the adjacency index, restricted to the allowed set. -/
def controlSum (s : CircuitSystem) (circuit_id : String) (allowed : List String)
    (switch_id : String) : Q :=
  ((s.adj.find switch_id).getD []).foldl (fun total p =>
    if ¬ (allowed.contains switch_id ∧ allowed.contains p.1) then total
    else
      match s.conduits.find p.2 with
      | none => total
      | some conduit =>
        conduit.wires.foldl (fun t w =>
          if w.wire_type == WireType.L_CONTROL && w.circuit_id == some circuit_id
          then t.add w.current else t) total) Q.zero

def step3AggBody (circuit_id : String) (allowed : List String)
    (s : CircuitSystem) (nid : String) : CircuitSystem :=
  match s.nodes.find nid with
  | none => s
  | some switch =>
    if switch.node_type = NodeType.SWITCH then
      let sw2 := { switch with rated_current := controlSum s circuit_id allowed nid }
      { s with nodes := s.nodes.insert nid sw2 }
    else s

/-- Step 3's final loop: every switch node in the system (allowed or not)
gets its rated_current overwritten with controlSum. -/
def step3_aggregate (s : CircuitSystem) (circuit_id : String) (allowed : List String) :
    CircuitSystem :=
  (PyDict.keys s.nodes).foldl (step3AggBody circuit_id allowed) s

/-- algorithms.py _step3_lay_control_wires (lines 193-250); the dbid
parameter is received but unused, as in the source. -/
def step3_lay_control_wires (g : Graph) (s : CircuitSystem) (_dbid circuit_id : String)
    (allowed : List String) : Res CircuitSystem :=
  (foldRes (fun s unit =>
    if unit.unit_type ≠ "受控" ∨ ¬ optTruthy unit.control_switch_id then .ok s
    else
      let switch_id := unit.control_switch_id.getD ""
      if ¬ allowed.contains switch_id then .ok s
      else if unit.member_node_ids.isEmpty then .ok s
      else if ¬ unit.member_node_ids.all (fun m => allowed.contains m) then .ok s
      else
        (lay_mst_wires_via_conduits g s unit.member_node_ids switch_id .L_CONTROL
          (some unit.id) (some circuit_id) (some allowed)).bind (fun s =>
          let Gc := build_wire_graph s .L_CONTROL (some circuit_id)
          foldRes (fun s member_id =>
            match Gc.shortest_path member_id switch_id with
            | .found _ p =>
              match s.nodes.find member_id with
              | none => .ok s
              | some member_node =>
                .ok (accumWires s p
                  (fun w => w.wire_type == WireType.L_CONTROL &&
                    w.unit_id == some unit.id && w.circuit_id == some circuit_id)
                  member_node.rated_current)
            | _ => .ok s) unit.member_node_ids s)) s.units.values s).bind
    (fun s => .ok (step3_aggregate s circuit_id allowed))

/-- The inner source scan of step 4's while loop (lines 288-298): strict
minimum, NetworkXNoPath skipped, NodeNotFound (`none`) propagates. -/
def step4_inner (baseG : Graph) (sw : String) :
    List String → Option (String × Q × List String) →
      Option (Option (String × Q × List String))
  | [], best => some best
  | src :: rest, best =>
    match baseG.shortest_path sw src with
    | .noPath => step4_inner baseG sw rest best
    | .nodeNotFound => none
    | .found d p =>
      let better := match best with
        | none => true
        | some (_, bd, _) => d.lt bd
      step4_inner baseG sw rest (if better then some (sw, d, p) else best)

inductive BestRes where
  | found (sw : String) (d : Q) (p : List String)
  | noneFound
  | raised
deriving DecidableEq

/-- The outer switch scan (lines 279-298): a switch already in the source
set wins immediately with distance 0 and path [sw]. -/
def step4_scan (baseG : Graph) (sources : List String) :
    List String → Option (String × Q × List String) → BestRes
  | [], best =>
    match best with
    | some (sw, d, p) => .found sw d p
    | none => .noneFound
  | sw :: rest, best =>
    if sources.contains sw then .found sw Q.zero [sw]
    else
      match step4_inner baseG sw sources best with
      | none => .raised
      | some best2 => step4_scan baseG sources rest best2

/-- Step 4's while loop (lines 272-313).  When no remaining switch is
reachable the loop stops and the remaining set is reported as a non-fatal
warning (the returned list; the source prints it).  The fuel argument is
called with enough budget that it never runs out (each iteration removes
one switch). -/
def step4_loop (g : Graph) (circuit_id : String) (allowed : List String) :
    Nat → List String → List String → CircuitSystem → Res (CircuitSystem × List String)
  | 0, _, _, s => .ok (s, [])
  | fuel + 1, sources, unconnected, s =>
    if unconnected.isEmpty then .ok (s, [])
    else
      let baseG := g.subgraph (pyUnion allowed sources)
      match step4_scan baseG sources unconnected none with
      | .raised => .err .nodeNotFound (s, [])
      | .noneFound => .ok (s, unconnected)
      | .found sw d p =>
        match (if Q.zero.lt d then addWiresToPath s p .L_POWER none (some circuit_id)
               else .ok s) with
        | .err e s2 => .err e (s2, [])
        | .ok s2 =>
          step4_loop g circuit_id allowed fuel (pyUnion sources p)
            (unconnected.filter (fun x => x ≠ sw)) s2

/-- algorithms.py _step4_connect_switches_to_power (lines 251-338).  Also
returns the warning list of switches that could not be connected. -/
def step4_connect_switches_to_power (g : Graph) (s : CircuitSystem)
    (dbid circuit_id : String) (allowed : List String) :
    Res (CircuitSystem × List String) :=
  let power_sources := pyset ([dbid] ++
    (s.conduits.values.filter (fun c => c.wires.any (fun w =>
      w.wire_type == WireType.L_POWER && w.circuit_id == some circuit_id))).foldl
      (fun acc c => acc ++ [c.start_node_id, c.end_node_id]) [])
  let switches := s.nodes.values.filter (fun n =>
    n.node_type = NodeType.SWITCH ∧ allowed.contains n.id)
  let unconnected := pyset (switches.map (fun n => n.id))
  match step4_loop g circuit_id allowed (unconnected.length + 1) power_sources unconnected s with
  | .err e p => .err e p
  | .ok (s2, warns) =>
    let Gp := build_wire_graph s2 .L_POWER (some circuit_id)
    .ok ((switches.foldl (fun s3 sw =>
      if sw.rated_current.le Q.zero then s3
      else
        match Gp.shortest_path sw.id dbid with
        | .found _ p =>
          accumWires s3 p
            (fun w => w.wire_type == WireType.L_POWER && w.circuit_id == some circuit_id)
            sw.rated_current
        | _ => s3) s2, warns))

/-- The per-circuit four-step sequence of calculate (lines 36-39 / 45-48). -/
def runCircuitSteps (g : Graph) (s : CircuitSystem) (dbid circuit_id : String)
    (allowed : List String) : Res CircuitSystem :=
  (step1_lay_base_circuit g s dbid circuit_id allowed).bind (fun s =>
  (step2_lay_uncontrolled_power g s dbid circuit_id allowed).bind (fun s =>
  (step3_lay_control_wires g s dbid circuit_id allowed).bind (fun s =>
    match step4_connect_switches_to_power g s dbid circuit_id allowed with
    | .ok (s2, _) => .ok s2
    | .err e (s2, _) => .err e s2)))

/-- algorithms.py WiringCalculator.calculate (lines 27-48), including the
auxiliary graph built at construction (lines 8-25). -/
def calculate (s0 : CircuitSystem) : Res CircuitSystem :=
  let g := buildGraph s0
  let s := s0.clear_wires
  if s.circuits.isEmpty then
    foldRes (fun s dbid =>
      let allowed := pyUnion [dbid] s.nodes.keys
      runCircuitSteps g s dbid (s.circuit_id ++ ":" ++ dbid) allowed) (distBoxes s) s
  else
    foldRes (fun s circuit =>
      runCircuitSteps g s circuit.distribution_box_id circuit.id
        (pyUnion circuit.member_node_ids [circuit.distribution_box_id]))
      s.circuits.values s

/-! ## TopologyGenerator (algorithms.py lines 340-423) -/

/-- The "already connected by a same-circuit conduit" scan (lines
376-382 and 410-416). -/
def connectedSameCircuit (s : CircuitSystem) (cid u v : String) : Bool :=
  s.conduits.values.any (fun c => c.circuit_id == some cid &&
    ((c.start_node_id == u && c.end_node_id == v) ||
     (c.start_node_id == v && c.end_node_id == u)))

/-- The node list a circuit's MST is computed over (lines 354-360):
existing member nodes, plus the distribution box when it exists, minus
switches. -/
def mstNodes (s : CircuitSystem) (circuit : Circuit) : List Node :=
  let allowed := circuit.member_node_ids.filterMap (fun nid => s.nodes.find nid)
  let allowed := match s.nodes.find circuit.distribution_box_id with
    | some db => allowed ++ [db]
    | none => allowed
  allowed.filter (fun n => n.node_type ≠ NodeType.SWITCH)

/-- The Euclidean MST edges for one circuit (lines 363-371): a function
of the system's nodes and the circuit only, independent of the conduits. -/
def genMstEdges (s : CircuitSystem) (circuit : Circuit) : List (String × String) :=
  let ns := mstNodes s circuit
  let G := (ijPairsG ns).foldl
    (fun g uv => g.addEdge uv.1.id uv.2.id (euclidDist uv.1.x uv.1.y uv.2.x uv.2.y))
    (⟨[], []⟩ : Graph)
  G.mstEdges

/-- The controlled-unit connector edge for one unit (lines 390-409): the
member nearest to the controlling switch (strict minimum in member-list
order), provided the unit lies entirely within the circuit.  Also a
function of nodes/units/circuit only. -/
def connectorFor (s : CircuitSystem) (circuit : Circuit) (unit : Unit) :
    Option (String × String) :=
  if unit.unit_type = "受控" ∧ optTruthy unit.control_switch_id ∧
      ¬ unit.member_node_ids.isEmpty then
    let switch_id := unit.control_switch_id.getD ""
    if ¬ circuit.member_node_ids.contains switch_id then none
    else if ¬ unit.member_node_ids.all (fun m => circuit.member_node_ids.contains m) then none
    else
      match s.nodes.find switch_id with
      | none => none
      | some switch =>
        let best := unit.member_node_ids.foldl (fun best mid =>
          match s.nodes.find mid with
          | none => best
          | some m =>
            let d := euclidDist m.x m.y switch.x switch.y
            match best with
            | none => some (m.id, d)
            | some (_, bd) => if d.lt bd then some (m.id, d) else best) none
        match best with
        | some (bm, _) => some (bm, switch_id)
        | none => none
  else none

/-- Materialize one edge (lines 374-387 / 410-421): skip when a
same-circuit conduit already connects the pair, otherwise add a new bound
conduit whose id is built from the live conduit count and the per-circuit
running count. -/
def materializeEdge (cid : String) (p : CircuitSystem × Nat) (uv : String × String) :
    CircuitSystem × Nat :=
  if connectedSameCircuit p.1 cid uv.1 uv.2 then p
  else
    let conduit_id := "c_" ++ cid ++ "_" ++ toString (p.1.conduits.length + 1) ++
      "_" ++ toString p.2
    (p.1.add_conduit ⟨conduit_id, uv.1, uv.2, Q.zero, [], some cid⟩, p.2 + 1)

/-- One circuit's pass of generate_mst_topology (lines 353-422).  Note
the source's `total += count` runs after the MST edges only (line 388);
the connector loop keeps incrementing `count` but contributes `total += 0`
(line 422), so connector conduits are added yet not counted. -/
def genCircuit (p : CircuitSystem × Nat) (circuit : Circuit) : CircuitSystem × Nat :=
  if (mstNodes p.1 circuit).length < 2 then p
  else
    let q := (genMstEdges p.1 circuit).foldl (materializeEdge circuit.id) (p.1, 0)
    let total := p.2 + q.2
    let connectors := p.1.units.values.filterMap (connectorFor p.1 circuit)
    let r := connectors.foldl (materializeEdge circuit.id) q
    (r.1, total)

/-- algorithms.py TopologyGenerator.generate_mst_topology (lines
344-423): returns the final system and the returned total. -/
def generate_mst_topology (s : CircuitSystem) : CircuitSystem × Nat :=
  if s.circuits.isEmpty then (s, 0)
  else s.circuits.values.foldl genCircuit (s, 0)

/-! ## Derived predicates and projections used by the statements -/

/-- Everything of a wire except its accumulated current. -/
def wireShape (w : Wire) :
    String × WireType × Option String × Option String × List String × String :=
  (w.id, w.wire_type, w.unit_id, w.circuit_id, w.path, w.color)

/-- Two systems that agree on every field except the conduit dict. -/
def sameExceptConduits (a b : CircuitSystem) : Prop :=
  a.nodes = b.nodes ∧ a.units = b.units ∧ a.distribution_box_id = b.distribution_box_id ∧
  a.distribution_box_ids = b.distribution_box_ids ∧ a.circuit_id = b.circuit_id ∧
  a.circuits = b.circuits ∧ a.adj = b.adj

/-- Everything of a conduit except the wire currents. -/
def conduitShape (c : Conduit) :
    String × String × String × Q × Option String ×
      List (String × WireType × Option String × Option String × List String × String) :=
  (c.id, c.start_node_id, c.end_node_id, c.length, c.circuit_id, c.wires.map wireShape)

/-- Number of wires of a given type bound to a given circuit on a conduit. -/
def countWires (c : Conduit) (wt : WireType) (cid : String) : Nat :=
  (c.wires.filter (fun w => w.wire_type == wt && w.circuit_id == some cid)).length

/-- Every conduit dict entry stores a conduit whose id field equals its key. -/
def idsConsistent (s : CircuitSystem) : Bool :=
  s.conduits.all (fun p => p.2.id == p.1)

/-- The adjacency index covers every stored conduit in both directions
(the invariant add_conduit establishes when pairs are not duplicated). -/
def adjComplete (s : CircuitSystem) : Bool :=
  s.conduits.all (fun p => p.2.id == p.1 &&
    ((((s.adj.find p.2.start_node_id).getD []).find p.2.end_node_id) == some p.1) &&
    ((((s.adj.find p.2.end_node_id).getD []).find p.2.start_node_id) == some p.1))

/-- The per-conduit effect of step 1's laying loop (used to state claim
C5): N and PE are appended exactly when both endpoints exist, neither is
a switch, and both lie in the allowed set. -/
def step1Transform (nodes : PyDict Node) (circuit_id : String) (allowed : List String)
    (conduit : Conduit) : Conduit :=
  match nodes.find conduit.start_node_id, nodes.find conduit.end_node_id with
  | some u, some v =>
    if u.node_type = NodeType.SWITCH ∨ v.node_type = NodeType.SWITCH then conduit
    else if allowed.contains u.id && allowed.contains v.id then
      let w1 : Wire := ⟨conduit.id ++ "-auto-N", .N, none, some circuit_id, Q.zero, [], ""⟩
      let c1 := (conduit.add_wire (.ofWire w1) 1 none none).state
      let w2 : Wire := ⟨conduit.id ++ "-auto-PE", .PE, none, some circuit_id, Q.zero, [], ""⟩
      (c1.add_wire (.ofWire w2) 1 none none).state
    else conduit
  | _, _ => conduit

/-- The laying condition of step 1, as a predicate on the original
conduit (claim C5). -/
def step1Cond (nodes : PyDict Node) (allowed : List String) (conduit : Conduit) : Bool :=
  match nodes.find conduit.start_node_id, nodes.find conduit.end_node_id with
  | some u, some v =>
    !(u.node_type == NodeType.SWITCH || v.node_type == NodeType.SWITCH) &&
      (allowed.contains u.id && allowed.contains v.id)
  | _, _ => false

/-! ## Instrumented topology generation (for claim C8): identical folds,
additionally recording whether any generated conduit id collided with an
id already present (an overwrite). -/

def materializeEdgeChk (cid : String) (p : CircuitSystem × Nat × Bool)
    (uv : String × String) : CircuitSystem × Nat × Bool :=
  if connectedSameCircuit p.1 cid uv.1 uv.2 then p
  else
    let conduit_id := "c_" ++ cid ++ "_" ++ toString (p.1.conduits.length + 1) ++
      "_" ++ toString p.2.1
    (p.1.add_conduit ⟨conduit_id, uv.1, uv.2, Q.zero, [], some cid⟩, p.2.1 + 1,
      p.2.2 && !(p.1.conduits.hasKey conduit_id))

def genCircuitChk (p : CircuitSystem × Nat × Bool) (circuit : Circuit) :
    CircuitSystem × Nat × Bool :=
  if (mstNodes p.1 circuit).length < 2 then p
  else
    let q := (genMstEdges p.1 circuit).foldl (materializeEdgeChk circuit.id)
      (p.1, 0, p.2.2)
    let total := p.2.1 + q.2.1
    let connectors := p.1.units.values.filterMap (connectorFor p.1 circuit)
    let r := connectors.foldl (materializeEdgeChk circuit.id) q
    (r.1, total, r.2.2)

def generate_chk (s : CircuitSystem) : CircuitSystem × Nat × Bool :=
  if s.circuits.isEmpty then (s, 0, true)
  else s.circuits.values.foldl genCircuitChk (s, 0, true)

/-- The first generation run performs no id-collision overwrite. -/
def genNoClobber (s : CircuitSystem) : Bool := (generate_chk s).2.2

/-- Two systems agreeing on the physical data the generator's edge lists
are computed from: nodes, units and circuits. -/
def samePhys (a b : CircuitSystem) : Prop :=
  a.nodes = b.nodes ∧ a.units = b.units ∧ a.circuits = b.circuits

/-! ## Relations for claim C9: state evolution along a calculate run and
the lockstep between a first run and a re-run. -/

/-- Pointwise relation between two dicts: same keys in the same order,
values related (possibly key-dependently). -/
def dictRel {α β : Type} (R : String → α → β → Prop)
    (d : PyDict α) (d2 : PyDict β) : Prop :=
  List.Forall₂ (fun p q => q.1 = p.1 ∧ R p.1 p.2 q.2) d d2

/-- A conduit binding is only ever created, never changed or removed
during calculate. -/
def bindLe : Option String → Option String → Prop
  | none, _ => True
  | some a, b => b = some a

/-- One conduit's evolution during calculate: identity, endpoints and
length fixed, binding monotone, wires unconstrained. -/
def condLe (c c' : Conduit) : Prop :=
  c'.id = c.id ∧ c'.start_node_id = c.start_node_id ∧
  c'.end_node_id = c.end_node_id ∧ c'.length = c.length ∧
  bindLe c.circuit_id c'.circuit_id

/-- One node's evolution during calculate, which is also the pre-sync
re-run relation: only a switch's rated current can differ (step 3
overwrites it). -/
def nodeSync (a b : Node) : Prop :=
  b = { a with rated_current := b.rated_current } ∧
  (a.node_type ≠ NodeType.SWITCH → b = a)

/-- The full evolution relation along a run of calculate: conduits evolve
by condLe, nodes by nodeSync, every other field is fixed. -/
def evolves (x x' : CircuitSystem) : Prop :=
  dictRel (fun _ => condLe) x.conduits x'.conduits ∧
  dictRel (fun _ => nodeSync) x.nodes x'.nodes ∧
  x'.units = x.units ∧ x'.circuits = x.circuits ∧ x'.adj = x.adj ∧
  x'.distribution_box_id = x.distribution_box_id ∧
  x'.distribution_box_ids = x.distribution_box_ids ∧
  x'.circuit_id = x.circuit_id

/-- The binding a conduit dict assigns to a key. -/
def bindsOf (d : PyDict Conduit) (k : String) : Option String :=
  match d.find k with
  | some c => c.circuit_id
  | none => none

/-- Re-run conduit vs first-run conduit at key k: identical except that
the binding already sits at its final (end of first run) value. -/
def condSyncC (tc : PyDict Conduit) (k : String) (c c' : Conduit) : Prop :=
  c' = { c with circuit_id := bindsOf tc k } ∧ bindLe c.circuit_id (bindsOf tc k)

/-- Re-run node dicts: exactly equal once the first step-3 aggregation
has overwritten every switch (flag true), equal except switch rated
currents before that (flag false). -/
def nodesSynced : Bool → PyDict Node → PyDict Node → Prop
  | true, dn, dn' => dn' = dn
  | false, dn, dn' => dictRel (fun _ => nodeSync) dn dn'

/-- The lockstep relation between corresponding states of the first run
(x) and the re-run (y), relative to the first run's final conduit dict
tc. -/
def CR (tc : PyDict Conduit) (flag : Bool) (x y : CircuitSystem) : Prop :=
  nodesSynced flag x.nodes y.nodes ∧
  dictRel (condSyncC tc) x.conduits y.conduits ∧
  y.units = x.units ∧ y.circuits = x.circuits ∧ y.adj = x.adj ∧
  y.distribution_box_id = x.distribution_box_id ∧
  y.distribution_box_ids = x.distribution_box_ids ∧
  y.circuit_id = x.circuit_id

/-- No unit member resolves to a switch node: the hypothesis under which
re-running calculate is reproducible (step 3 overwrites every switch's
rated current, so a switch used as a unit member would feed a changed
value into the re-run). -/
def noSwitchMembers (s : CircuitSystem) : Prop :=
  ∀ u ∈ PyDict.values s.units, ∀ m ∈ u.member_node_ids,
    ∀ n, s.nodes.find m = some n → n.node_type ≠ NodeType.SWITCH

/-- Executable check for noSwitchMembers. -/
def noSwitchMembersB (s : CircuitSystem) : Bool :=
  (PyDict.values s.units).all (fun u => u.member_node_ids.all (fun m =>
    match s.nodes.find m with
    | some n => decide (n.node_type ≠ NodeType.SWITCH)
    | none => true))

/-- The observable of claim C9: every conduit's list of wire currents. -/
def wireCurrents (s : CircuitSystem) : List (String × List Q) :=
  (PyDict.entries s.conduits).map (fun p => (p.1, p.2.wires.map (fun w => w.current)))

/-- No wire tagged with the given unit id is stored anywhere: the state in
which a unit is first processed by a step (each unit's wires carry its own
id, so units processed earlier in the pass leave no such wires). -/
def noUnitWires (s : CircuitSystem) (uid : String) : Prop :=
  ∀ p ∈ PyDict.entries s.conduits, ∀ w ∈ p.2.wires, w.unit_id ≠ some uid

/-! ## Concrete systems used by counterexamples and witnesses -/

def mkNode (id : String) (t : NodeType) (x y : Q) (rc : Q) : Node :=
  ⟨id, t, x, y, id, none, none, rc, none, none, none⟩

def mkConduit (id u v : String) : Conduit := ⟨id, u, v, Q.zero, [], none⟩

/-- Claim C1: a conduit already bound to circuit A. -/
def c1Conduit : Conduit := ⟨"d1", "n1", "n2", Q.zero, [], some "A"⟩

/-- Claim C1: a Wire object declaring a different circuit B, as Step 1
builds them. -/
def c1Wire : Wire := ⟨"d1-auto-N", .N, none, some "B", Q.zero, [], ""⟩

/-- Claim C3 / C4: two nodes and two conduits over the same pair. -/
def c3sysBase : CircuitSystem :=
  (emptySystem.add_node (mkNode "a" .LIGHT Q.zero Q.zero Q.zero)).add_node
    (mkNode "b" .LIGHT ⟨1, 1⟩ Q.zero Q.zero)

def c3sys : CircuitSystem :=
  (c3sysBase.add_conduit (mkConduit "e1" "a" "b")).add_conduit (mkConduit "e2" "a" "b")

/-- Claim C4: a distribution-box node, then a second node with the same id. -/
def c4nodeA : Node := mkNode "n1" .DISTRIBUTION_BOX Q.zero Q.zero Q.zero
def c4nodeB : Node := mkNode "n1" .DISTRIBUTION_BOX ⟨3, 1⟩ ⟨4, 1⟩ Q.zero
def c4sys : CircuitSystem := emptySystem.add_node c4nodeA

/-- Claim C2: two lights joined to a junction box by long conduits, a
switch hanging off the junction by a short conduit.  The control MST then
takes both member-to-switch edges, so the single switch-incident conduit
carries two control wires and the aggregation double-counts. -/
def c2sys : CircuitSystem :=
  let s := emptySystem
  let s := s.add_node (mkNode "db" .DISTRIBUTION_BOX Q.zero ⟨-1, 1⟩ Q.zero)
  let s := s.add_node (mkNode "j" .JUNCTION_BOX Q.zero Q.zero Q.zero)
  let s := s.add_node (mkNode "m1" .LIGHT ⟨-10, 1⟩ Q.zero ⟨1, 1⟩)
  let s := s.add_node (mkNode "m2" .LIGHT ⟨10, 1⟩ Q.zero ⟨1, 1⟩)
  let s := s.add_node (mkNode "sw" .SWITCH Q.zero ⟨1, 1⟩ Q.zero)
  let s := s.add_conduit (mkConduit "cm1" "j" "m1")
  let s := s.add_conduit (mkConduit "cm2" "j" "m2")
  let s := s.add_conduit (mkConduit "csw" "j" "sw")
  let s := s.add_conduit (mkConduit "cdb" "j" "db")
  let s := s.add_unit ⟨"C-UT1", "受控单元1", "受控", "", ["m1", "m2"], some "sw", some 1⟩
  (s.add_circuit ⟨"C-C1", "回路1", "db", ["j", "m1", "m2", "sw"]⟩).state

/-- The spec's section-8 concrete scenario (one box, one switch, one
light behind the switch, one socket): satisfies every well-formedness
hypothesis used below and calculate succeeds on it. -/
def specScenario : CircuitSystem :=
  let s := emptySystem
  let s := s.add_node (mkNode "DB1" .DISTRIBUTION_BOX Q.zero Q.zero Q.zero)
  let s := s.add_node (mkNode "SW1" .SWITCH Q.zero ⟨5, 1⟩ Q.zero)
  let s := s.add_node (mkNode "LT1" .LIGHT ⟨3, 1⟩ ⟨5, 1⟩ ⟨1, 2⟩)
  let s := s.add_node (mkNode "SK1" .SOCKET ⟨4, 1⟩ Q.zero ⟨2, 1⟩)
  let s := s.add_conduit (mkConduit "c1" "DB1" "SW1")
  let s := s.add_conduit (mkConduit "c2" "SW1" "LT1")
  let s := s.add_conduit (mkConduit "c3" "DB1" "SK1")
  let s := s.add_unit ⟨"C-UT1", "受控单元1", "受控", "", ["LT1"], some "SW1", some 1⟩
  let s := s.add_unit ⟨"U-UT1", "非受控单元1", "非受控", "", ["SK1"], none, none⟩
  (s.add_circuit ⟨"C-C1", "回路1", "DB1", ["SW1", "LT1", "SK1"]⟩).state

/-- Claim C6 witness: a circuit whose single device has no conduit at
all, so no path to the box exists. -/
def c6sys : CircuitSystem :=
  let s := emptySystem
  let s := s.add_node (mkNode "db" .DISTRIBUTION_BOX Q.zero Q.zero Q.zero)
  let s := s.add_node (mkNode "dev" .LIGHT ⟨5, 1⟩ Q.zero ⟨1, 1⟩)
  (s.add_circuit ⟨"C-C1", "回路1", "db", ["dev"]⟩).state

/-- Claim C6 witness material: an uncontrolled unit whose sole member has
no conduit path to the distribution box in c6sys. -/
def c6unit2 : Unit := ⟨"U-UT9", "非受控单元9", "非受控", "", ["dev"], none, none⟩

/-- Claim C6 witness material: a controlled unit anchored at "db" whose
sole member has no conduit path to that anchor in c6sys. -/
def c6unit3 : Unit := ⟨"C-UT9", "受控单元9", "受控", "", ["dev"], some "db", some 1⟩

/-- Claim C7: one circuit with one MST edge (box to light) and one
controlled-unit connector (light to switch): the generator adds two
conduits but returns 1. -/
def c7sys : CircuitSystem :=
  let s := emptySystem
  let s := s.add_node (mkNode "db" .DISTRIBUTION_BOX Q.zero Q.zero Q.zero)
  let s := s.add_node (mkNode "a" .LIGHT ⟨1, 1⟩ Q.zero ⟨1, 1⟩)
  let s := s.add_node (mkNode "sw" .SWITCH ⟨2, 1⟩ Q.zero Q.zero)
  let s := s.add_unit ⟨"C-UT1", "受控单元1", "受控", "", ["a"], some "sw", some 1⟩
  (s.add_circuit ⟨"C-C1", "回路1", "db", ["a", "sw"]⟩).state

/-- Claim C8: three collinear members and a box; the pre-existing bound
conduit's id "c_C1_3_1" is exactly the id the generator constructs for
the third added edge, so the first run clobbers it and disconnects the
pair (a, b) again. -/
def c8sys : CircuitSystem :=
  let s := emptySystem
  let s := s.add_node (mkNode "a" .LIGHT Q.zero Q.zero Q.zero)
  let s := s.add_node (mkNode "b" .LIGHT ⟨1, 1⟩ Q.zero Q.zero)
  let s := s.add_node (mkNode "c" .LIGHT ⟨2, 1⟩ Q.zero Q.zero)
  let s := s.add_node (mkNode "d" .DISTRIBUTION_BOX ⟨3, 1⟩ Q.zero Q.zero)
  let s := s.add_conduit ⟨"c_C1_3_1", "a", "b", Q.zero, [], some "C1"⟩
  (s.add_circuit ⟨"C1", "回路1", "d", ["a", "b", "c"]⟩).state

/-- Claim C9: a switch that is itself the member of an uncontrolled
unit: step 2 reads its rated current, step 3 overwrites it, so a second
calculate sees a different value. -/
def c9sys : CircuitSystem :=
  let s := emptySystem
  let s := s.add_node (mkNode "db" .DISTRIBUTION_BOX Q.zero Q.zero Q.zero)
  let s := s.add_node (mkNode "sw" .SWITCH ⟨1, 1⟩ Q.zero ⟨7, 1⟩)
  let s := s.add_conduit (mkConduit "e" "db" "sw")
  let s := s.add_unit ⟨"U-UT1", "非受控单元1", "非受控", "", ["sw"], none, none⟩
  (s.add_circuit ⟨"C-C1", "回路1", "db", ["sw"]⟩).state

/-- Claim C2 witness material: step 3 run on the spec scenario directly. -/
def c2AL : List String := pyUnion ["SW1", "LT1", "SK1"] ["DB1"]

def step3Run : Res CircuitSystem :=
  step3_lay_control_wires (buildGraph specScenario) specScenario "DB1" "C-C1" c2AL

/-- The SW1 node as it stands after step3Run. -/
def swFinal : Node :=
  ⟨"SW1", .SWITCH, ⟨0, 1⟩, ⟨5, 1⟩, "SW1", none, none, ⟨1, 2⟩, none, none, none⟩

/-- Claim C10: a removable distribution box with an incident conduit, a
unit referencing it, and a second box. -/
def c10sys : CircuitSystem :=
  let s := emptySystem
  let s := s.add_node (mkNode "db1" .DISTRIBUTION_BOX Q.zero Q.zero Q.zero)
  let s := s.add_node (mkNode "db2" .DISTRIBUTION_BOX ⟨5, 1⟩ Q.zero Q.zero)
  let s := s.add_node (mkNode "n" .LIGHT ⟨1, 1⟩ Q.zero ⟨1, 1⟩)
  let s := s.add_conduit (mkConduit "e1" "db1" "n")
  s.add_unit ⟨"C-UT1", "受控单元1", "受控", "", ["n", "db1"], some "db1", some 1⟩

/-! ## Shared dictionary lemmas -/

theorem find_insert_self {α : Type} (d : PyDict α) (k : String) (v : α) :
    (d.insert k v).find k = some v := by
  induction d with
  | nil => simp [PyDict.insert, PyDict.find]
  | cons p t ih =>
    by_cases h : p.1 = k
    · simp [PyDict.insert, PyDict.find, h]
    · simp [PyDict.insert, PyDict.find, h, ih]

theorem find_insert_ne {α : Type} (d : PyDict α) (k k2 : String) (v : α) (h : k2 ≠ k) :
    (d.insert k v).find k2 = d.find k2 := by
  have hne : ¬ (k = k2) := fun hh => h hh.symm
  induction d with
  | nil => simp [PyDict.insert, PyDict.find, hne]
  | cons p t ih =>
    by_cases hp : p.1 = k
    · subst hp
      simp [PyDict.insert, PyDict.find, hne]
    · simp only [PyDict.insert, hp, if_false]
      by_cases hq : p.1 = k2
      · simp [PyDict.find, hq]
      · simp [PyDict.find, hq, ih]

/-! ## Claim C1 -/

/-- Claim C1, counterexample: the conduit c1Conduit is bound to circuit
"A", yet adding a Wire object that declares circuit "B" (exactly the call
shape Step 1 uses, models.py line 126) raises nothing: the call succeeds
and the conduit ends up carrying a circuit-"B" wire while staying bound
to "A".  The claim says this add must raise the structural-conflict
error. -/
theorem c1_counterexample :
    Conduit.add_wire c1Conduit (.ofWire c1Wire) 1 none none =
      .ok ⟨"d1", "n1", "n2", Q.zero,
        [⟨"d1-w-1", .N, none, some "B", Q.zero, ["d1"], "蓝色"⟩], some "A"⟩ ∧
    (Conduit.add_wire c1Conduit (.ofWire c1Wire) 1 none none).isOk = true := by
  constructor
  · rfl
  · rfl

/-- Claim C1 (amended): the binding discipline holds on the keyword-argument
path of add_wire (the path the calculator's MST laying uses): with a
non-empty circuit id argument, the first call binds an unbound conduit, a
call matching the binding succeeds and keeps it, and a call with a
different circuit id fails with the structural-conflict error naming the
conduit id and both circuit ids, leaving the conduit unchanged.  Wires
added as prebuilt Wire objects (as Step 1 does) bypass this check
entirely. -/
theorem c1_amended (c : Conduit) (arg : WireArg) (count : Nat) (uid : Option String)
    (cid : String) (hcid : cid ≠ "") :
    (c.circuit_id = none →
      (c.add_wire arg count uid (some cid)).isOk = true ∧
      (c.add_wire arg count uid (some cid)).state.circuit_id = some cid) ∧
    (c.circuit_id = some cid →
      (c.add_wire arg count uid (some cid)).isOk = true ∧
      (c.add_wire arg count uid (some cid)).state.circuit_id = some cid) ∧
    (∀ d, c.circuit_id = some d → d ≠ cid →
      c.add_wire arg count uid (some cid) = .err (.wireConflict c.id d cid) c) := by
  have htr : optTruthy (some cid) = true := by
    simp only [optTruthy, bne_iff_ne, ne_eq, decide_not]
    simp [hcid]
  refine ⟨fun h0 => ?_, fun h1 => ?_, fun d hd hne => ?_⟩
  · cases arg with
    | ofType wt => simp [Conduit.add_wire, htr, h0, Res.isOk, Res.state]
    | ofWire w => simp [Conduit.add_wire, htr, h0, Res.isOk, Res.state]
  · cases arg with
    | ofType wt => simp [Conduit.add_wire, htr, h1, Res.isOk, Res.state]
    | ofWire w => simp [Conduit.add_wire, htr, h1, Res.isOk, Res.state]
  · have hns : ¬ some d = some cid := by simp [hne]
    simp [Conduit.add_wire, htr, hd, hns]

/-- Claim C1, witness for the amended theorem: binding a fresh conduit
succeeds, and the clash of c1Conduit's binding "A" with the keyword
argument "B" yields exactly the structural-conflict error. -/
theorem c1_witness :
    ((Conduit.add_wire ⟨"d", "a", "b", Q.zero, [], none⟩ (.ofType .N) 1 none
        (some "X")).isOk = true ∧
      (Conduit.add_wire ⟨"d", "a", "b", Q.zero, [], none⟩ (.ofType .N) 1 none
        (some "X")).state.circuit_id = some "X") ∧
    Conduit.add_wire c1Conduit (.ofType .N) 1 none (some "B") =
      .err (.wireConflict "d1" "A" "B") c1Conduit :=
  ⟨(c1_amended ⟨"d", "a", "b", Q.zero, [], none⟩ (.ofType .N) 1 none "X" (by decide)).1 rfl,
   (c1_amended c1Conduit (.ofType .N) 1 none "B" (by decide)).2.2 "A" rfl (by decide)⟩

/-! ## Claims C3 and C4 -/

theorem adjInsertPair_hits (adj : PyDict (PyDict String)) (u v cid : String) :
    (((adjInsertPair adj u v cid).find u).getD []).find v = some cid := by
  simp [adjInsertPair, find_insert_self]

theorem adjInsertPair_other (adj : PyDict (PyDict String)) (u v cid w : String)
    (h : w ≠ u) : (adjInsertPair adj u v cid).find w = adj.find w := by
  simp [adjInsertPair, find_insert_ne _ _ _ _ h]

/-- Claim C3, counterexample: two `add_conduit` calls for the same
unordered pair (a, b) leave two conduits connecting a and b in the
System's conduit collection; the adjacency index holds only the second
one, so index and collection have diverged.  The claim says at most one
conduit may connect the pair after any add_conduit sequence. -/
theorem c3_counterexample :
    (c3sys.conduits.values.filter (fun c =>
      (c.start_node_id == "a" && c.end_node_id == "b") ||
      (c.start_node_id == "b" && c.end_node_id == "a"))).length = 2 ∧
    ((c3sys.adj.find "a").getD []).find "b" = some "e2" ∧
    ((c3sys.conduits.find "e1").map Conduit.start_node_id = some "a" ∧
     (c3sys.conduits.find "e1").map Conduit.end_node_id = some "b") := by
  exact ⟨rfl, rfl, rfl, rfl⟩

/-- Claim C3 (amended): the adjacency index, being a map, holds at most
one conduit id per ordered neighbour pair, and after add_conduit both
directed cells of the new conduit's pair point at it; but add_conduit
never rejects anything: every previously stored conduit with a different
id — including one connecting the same pair — stays in the collection,
so the index and the collection need not remain consistent. -/
theorem c3_amended (s : CircuitSystem) (c : Conduit) :
    ((((s.add_conduit c).adj.find c.start_node_id).getD []).find c.end_node_id
      = some c.id) ∧
    ((((s.add_conduit c).adj.find c.end_node_id).getD []).find c.start_node_id
      = some c.id) ∧
    (∀ k, k ≠ c.id → (s.add_conduit c).conduits.find k = s.conduits.find k) ∧
    (∃ c2, (s.add_conduit c).conduits.find c.id = some c2 ∧ c2.id = c.id ∧
      c2.start_node_id = c.start_node_id ∧ c2.end_node_id = c.end_node_id) := by
  have hadj : (s.add_conduit c).adj =
      adjInsertPair (adjInsertPair
        (let adj := if s.adj.hasKey c.start_node_id then s.adj
                    else s.adj.insert c.start_node_id []
         if adj.hasKey c.end_node_id then adj else adj.insert c.end_node_id [])
        c.start_node_id c.end_node_id c.id) c.end_node_id c.start_node_id c.id := rfl
  refine ⟨?_, ?_, ?_, ?_⟩
  · rw [hadj]
    by_cases he : c.start_node_id = c.end_node_id
    · rw [he, adjInsertPair_hits]
    · rw [adjInsertPair_other _ _ _ _ _ he, adjInsertPair_hits]
  · rw [hadj, adjInsertPair_hits]
  · intro k hk
    simp only [CircuitSystem.add_conduit]
    split
    · exact find_insert_ne _ _ _ _ hk
    · exact find_insert_ne _ _ _ _ hk
  · simp only [CircuitSystem.add_conduit]
    split
    · exact ⟨_, find_insert_self _ _ _, rfl, rfl, rfl⟩
    · exact ⟨_, find_insert_self _ _ _, rfl, rfl, rfl⟩

/-- Claim C3, witness for the amended theorem at the concrete double-add
system: the index points to e2 and e1 is still found unchanged. -/
theorem c3_witness :
    ((((c3sysBase.add_conduit (mkConduit "e1" "a" "b")).add_conduit
        (mkConduit "e2" "a" "b")).adj.find "a").getD []).find "b" = some "e2" ∧
    ((c3sysBase.add_conduit (mkConduit "e1" "a" "b")).add_conduit
        (mkConduit "e2" "a" "b")).conduits.find "e1" =
      (c3sysBase.add_conduit (mkConduit "e1" "a" "b")).conduits.find "e1" :=
  ⟨(c3_amended (c3sysBase.add_conduit (mkConduit "e1" "a" "b"))
      (mkConduit "e2" "a" "b")).1,
   (c3_amended (c3sysBase.add_conduit (mkConduit "e1" "a" "b"))
      (mkConduit "e2" "a" "b")).2.2.1 "e1" (by decide)⟩

/-- Claim C4, counterexample: adding a node whose id "n1" already exists
is not rejected and does mutate: the stored node is replaced by the new
one, and because it is a distribution box its id is appended to
distribution_box_ids a second time.  The claim says the operation must
fail before any mutation. -/
theorem c4_counterexample :
    (c4sys.add_node c4nodeB).nodes.find "n1" = some c4nodeB ∧
    c4nodeB ≠ c4nodeA ∧
    (c4sys.add_node c4nodeB).distribution_box_ids = ["n1", "n1"] := by
  refine ⟨by decide, by decide, by decide⟩

/-- Claim C4 (amended): add_node, add_conduit and add_circuit perform no
duplicate-identifier check at all: the new entity is stored
unconditionally, overwriting any entry with the same id in place (other
entries are untouched), and add_node on a distribution box appends the id
to distribution_box_ids even when already present. -/
theorem c4_amended (s : CircuitSystem) (n : Node) (c : Conduit) (cc : Circuit) :
    ((s.add_node n).nodes.find n.id = some n) ∧
    (∀ k, k ≠ n.id → (s.add_node n).nodes.find k = s.nodes.find k) ∧
    (n.node_type = NodeType.DISTRIBUTION_BOX →
      (s.add_node n).distribution_box_ids = s.distribution_box_ids ++ [n.id]) ∧
    (∃ c2, (s.add_conduit c).conduits.find c.id = some c2 ∧ c2.id = c.id ∧
      c2.start_node_id = c.start_node_id ∧ c2.end_node_id = c.end_node_id ∧
      c2.wires = c.wires ∧ c2.circuit_id = c.circuit_id) ∧
    ((s.add_circuit cc).state.circuits.find cc.id = some cc) := by
  refine ⟨?_, ?_, ?_, ?_, ?_⟩
  · simp only [CircuitSystem.add_node]
    split <;> (try split) <;> exact find_insert_self _ _ _
  · intro k hk
    simp only [CircuitSystem.add_node]
    split <;> (try split) <;> exact find_insert_ne _ _ _ _ hk
  · intro hdb
    simp only [CircuitSystem.add_node, hdb, if_true, reduceIte]
    split <;> rfl
  · simp only [CircuitSystem.add_conduit]
    split
    · exact ⟨_, find_insert_self _ _ _, rfl, rfl, rfl, rfl, rfl⟩
    · exact ⟨_, find_insert_self _ _ _, rfl, rfl, rfl, rfl, rfl⟩
  · simp only [CircuitSystem.add_circuit]
    split <;> simp only [Res.state] <;>
      · split <;> exact find_insert_self _ _ _

/-- Claim C4, witness: re-adding id "n1" overwrites it, and the other
operations store their entities at the concrete system. -/
theorem c4_witness :
    (c4sys.add_node c4nodeB).nodes.find "n1" = some c4nodeB ∧
    (c4sys.add_node c4nodeB).distribution_box_ids =
      c4sys.distribution_box_ids ++ ["n1"] :=
  ⟨(c4_amended c4sys c4nodeB (mkConduit "e" "a" "b") ⟨"C", "C", "n1", []⟩).1,
   (c4_amended c4sys c4nodeB (mkConduit "e" "a" "b") ⟨"C", "C", "n1", []⟩).2.2.1 rfl⟩

/-! ## More dictionary lemmas (erase, values, membership) -/

theorem find_mem_values {α : Type} (d : PyDict α) (k : String) (v : α)
    (h : d.find k = some v) : v ∈ d.values := by
  induction d with
  | nil => simp [PyDict.find] at h
  | cons p t ih =>
    by_cases hp : p.1 = k
    · simp only [PyDict.find, hp, if_true, reduceIte, Option.some.injEq] at h
      simp [PyDict.values, h]
    · simp only [PyDict.find, hp, if_false, reduceIte] at h
      simp [PyDict.values] at ih ⊢
      exact Or.inr (ih h)

theorem find_mem {α : Type} (d : PyDict α) (k : String) (v : α)
    (h : d.find k = some v) : (k, v) ∈ PyDict.entries d := by
  induction d with
  | nil => simp [PyDict.find] at h
  | cons p t ih =>
    by_cases hp : p.1 = k
    · simp only [PyDict.find, hp, if_true, reduceIte, Option.some.injEq] at h
      exact List.mem_cons.mpr (Or.inl (by rw [← hp, ← h]))
    · simp only [PyDict.find, hp, if_false, reduceIte] at h
      exact List.mem_cons.mpr (Or.inr (ih h))

theorem find_none_of_not_mem_keys {α : Type} (d : PyDict α) (k : String)
    (h : ¬ k ∈ PyDict.keys d) : d.find k = none := by
  induction d with
  | nil => rfl
  | cons p t ih =>
    simp only [PyDict.keys, List.map_cons, List.mem_cons, not_or] at h
    simp only [PyDict.find]
    rw [if_neg (fun hh => h.1 hh.symm)]
    exact ih (by simpa [PyDict.keys] using h.2)

theorem erase_keys_sublist {α : Type} (d : PyDict α) (k : String) :
    (PyDict.keys (PyDict.erase d k)).Sublist (PyDict.keys d) := by
  induction d with
  | nil => exact List.Sublist.refl _
  | cons p t ih =>
    by_cases hp : p.1 = k
    · simp only [PyDict.erase, hp, if_true, reduceIte]
      simp only [PyDict.keys, List.map_cons]
      exact List.sublist_cons_self _ _
    · simp only [PyDict.erase, hp, if_false, reduceIte]
      simp only [PyDict.keys, List.map_cons]
      exact (ih).cons₂ p.1

theorem erase_keys_nodup {α : Type} (d : PyDict α) (k : String)
    (h : (PyDict.keys d).Nodup) : (PyDict.keys (PyDict.erase d k)).Nodup :=
  h.sublist (erase_keys_sublist d k)

theorem find_erase_self {α : Type} (d : PyDict α) (k : String)
    (h : (PyDict.keys d).Nodup) : (d.erase k).find k = none := by
  induction d with
  | nil => rfl
  | cons p t ih =>
    simp only [PyDict.keys, List.map_cons, List.nodup_cons] at h
    by_cases hp : p.1 = k
    · simp only [PyDict.erase, hp, if_true, reduceIte]
      apply find_none_of_not_mem_keys
      rw [← hp]
      simpa [PyDict.keys] using h.1
    · simp only [PyDict.erase, hp, if_false, reduceIte, PyDict.find]
      exact ih h.2

theorem find_erase_ne {α : Type} (d : PyDict α) (k k2 : String) (h : k2 ≠ k) :
    (d.erase k).find k2 = d.find k2 := by
  induction d with
  | nil => rfl
  | cons p t ih =>
    by_cases hp : p.1 = k
    · have hcond : PyDict.erase (p :: t) k = t := by
        simp [PyDict.erase, hp]
      rw [hcond]
      have hne2 : ¬ (p.1 = k2) := by rw [hp]; exact fun hh => h hh.symm
      simp only [PyDict.find]
      rw [if_neg hne2]
    · simp only [PyDict.erase, hp, if_false, reduceIte]
      simp only [PyDict.find]
      by_cases hq : p.1 = k2
      · simp [hq]
      · simp [hq, ih]

theorem values_map {α β : Type} (d : PyDict α) (g : α → β) :
    (PyDict.values (d.map (fun p => (p.1, g p.2)))) = (PyDict.values d).map g := by
  induction d with
  | nil => rfl
  | cons p t ih => simp [PyDict.values, ih]

/-! ## Claim C10: remove_node never shrinks distribution_box_ids -/

theorem remove_conduit_frame (s : CircuitSystem) (cid : String) :
    (s.remove_conduit cid).nodes = s.nodes ∧
    (s.remove_conduit cid).units = s.units ∧
    (s.remove_conduit cid).distribution_box_id = s.distribution_box_id ∧
    (s.remove_conduit cid).distribution_box_ids = s.distribution_box_ids := by
  simp only [CircuitSystem.remove_conduit]
  split <;> exact ⟨rfl, rfl, rfl, rfl⟩

theorem remove_conduit_conduits_missing (s : CircuitSystem) (cid : String)
    (h : s.conduits.find cid = none) : (s.remove_conduit cid).conduits = s.conduits := by
  simp only [CircuitSystem.remove_conduit, h]

theorem remove_conduit_conduits_found (s : CircuitSystem) (cid : String) (c : Conduit)
    (h : s.conduits.find cid = some c) :
    (s.remove_conduit cid).conduits = s.conduits.erase cid := by
  simp only [CircuitSystem.remove_conduit, h]

/-- After folding remove_conduit over a list covering every conduit
incident to `nid`, no stored conduit touches `nid` any more. -/
theorem removeLoop_clears (nid : String) : ∀ (L : List String) (s : CircuitSystem),
    s.conduits.keys.Nodup →
    (∀ k c, s.conduits.find k = some c →
      (c.start_node_id = nid ∨ c.end_node_id = nid) → k ∈ L) →
    ∀ k c, ((L.foldl (fun t cid => t.remove_conduit cid) s).conduits.find k = some c) →
      c.start_node_id ≠ nid ∧ c.end_node_id ≠ nid := by
  intro L
  induction L with
  | nil =>
    intro s _ hcover k c hfind
    constructor
    · intro h1
      exact absurd (hcover k c hfind (Or.inl h1)) (List.not_mem_nil k)
    · intro h2
      exact absurd (hcover k c hfind (Or.inr h2)) (List.not_mem_nil k)
  | cons a L ih =>
    intro s hkeys hcover
    simp only [List.foldl_cons]
    cases hfa : s.conduits.find a with
    | none =>
      refine ih (s.remove_conduit a) ?_ ?_
      · rw [remove_conduit_conduits_missing s a hfa]; exact hkeys
      · intro k c hk hinc
        rw [remove_conduit_conduits_missing s a hfa] at hk
        have := hcover k c hk hinc
        rcases List.mem_cons.mp this with h | h
        · exact absurd hk (by rw [h, hfa]; simp)
        · exact h
    | some c0 =>
      refine ih (s.remove_conduit a) ?_ ?_
      · rw [remove_conduit_conduits_found s a c0 hfa]
        exact erase_keys_nodup _ _ hkeys
      · intro k c hk hinc
        rw [remove_conduit_conduits_found s a c0 hfa] at hk
        by_cases hka : k = a
        · rw [hka, find_erase_self _ _ hkeys] at hk
          exact absurd hk (by simp)
        · rw [find_erase_ne _ _ _ hka] at hk
          have := hcover k c hk hinc
          rcases List.mem_cons.mp this with h | h
          · exact absurd h hka
          · exact h

theorem removeLoop_frame : ∀ (L : List String) (s : CircuitSystem),
    (L.foldl (fun t cid => t.remove_conduit cid) s).nodes = s.nodes ∧
    (L.foldl (fun t cid => t.remove_conduit cid) s).units = s.units ∧
    (L.foldl (fun t cid => t.remove_conduit cid) s).distribution_box_id =
      s.distribution_box_id ∧
    (L.foldl (fun t cid => t.remove_conduit cid) s).distribution_box_ids =
      s.distribution_box_ids := by
  intro L
  induction L with
  | nil => exact fun s => ⟨rfl, rfl, rfl, rfl⟩
  | cons a L ih =>
    intro s
    simp only [List.foldl_cons]
    have h1 := remove_conduit_frame s a
    have h2 := ih (s.remove_conduit a)
    exact ⟨h2.1.trans h1.1, h2.2.1.trans h1.2.1, h2.2.2.1.trans h1.2.2.1,
      h2.2.2.2.trans h1.2.2.2⟩

/-- Claim C10: remove_node on a distribution-box node removes the node,
all conduits incident to it, and its unit references, and resets
distribution_box_id when it named that node — but distribution_box_ids
is untouched, so the removed id is still listed there (and hence still
iterated by the fallback calculation and the nearest-box query, which
read exactly this list). -/
theorem remove_node_char (s : CircuitSystem) (nid : String)
    (h : (s.nodes.find nid).isNone = false) :
    (s.remove_node nid).nodes =
      (((s.adj.find nid).getD []).values.foldl
        (fun t cid => t.remove_conduit cid) s).nodes.erase nid ∧
    (s.remove_node nid).conduits =
      (((s.adj.find nid).getD []).values.foldl
        (fun t cid => t.remove_conduit cid) s).conduits ∧
    (s.remove_node nid).units =
      ((((s.adj.find nid).getD []).values.foldl
        (fun t cid => t.remove_conduit cid) s).units).map
          (fun p => (p.1, unitCleanup nid p.2)) ∧
    (s.remove_node nid).distribution_box_ids =
      (((s.adj.find nid).getD []).values.foldl
        (fun t cid => t.remove_conduit cid) s).distribution_box_ids ∧
    (s.remove_node nid).distribution_box_id =
      (if (((s.adj.find nid).getD []).values.foldl
          (fun t cid => t.remove_conduit cid) s).distribution_box_id = some nid
        then none
        else (((s.adj.find nid).getD []).values.foldl
          (fun t cid => t.remove_conduit cid) s).distribution_box_id) := by
  simp only [CircuitSystem.remove_node, h, Bool.false_eq_true, if_false, reduceIte]
  refine ⟨?_, ?_, ?_, ?_, ?_⟩
  · split <;> rfl
  · split <;> rfl
  · split <;> rfl
  · split <;> rfl
  · split <;> rfl

/-- Claim C10: remove_node on a distribution-box node removes the node,
all conduits incident to it, and its unit references, and resets
distribution_box_id when it named that node — but distribution_box_ids
is untouched, so the removed id is still listed there (and hence still
iterated by the fallback calculation and the nearest-box query, which
read exactly this list, as distBoxes shows). -/
theorem c10_theorem (s : CircuitSystem) (nid : String) (n : Node)
    (hn : s.nodes.find nid = some n) (_hdb : n.node_type = NodeType.DISTRIBUTION_BOX)
    (hids : s.distribution_box_ids.contains nid = true)
    (hadj : adjComplete s = true)
    (hckeys : (PyDict.keys s.conduits).Nodup)
    (hnkeys : (PyDict.keys s.nodes).Nodup)
    (hunits : ∀ u ∈ PyDict.values s.units, u.member_node_ids.Nodup) :
    ((s.remove_node nid).nodes.find nid = none) ∧
    (∀ k c, (s.remove_node nid).conduits.find k = some c →
      c.start_node_id ≠ nid ∧ c.end_node_id ≠ nid) ∧
    (∀ u ∈ PyDict.values (s.remove_node nid).units,
      ¬ nid ∈ u.member_node_ids ∧ u.control_switch_id ≠ some nid) ∧
    (s.distribution_box_id = some nid →
      (s.remove_node nid).distribution_box_id = none) ∧
    ((s.remove_node nid).distribution_box_ids = s.distribution_box_ids) ∧
    ((s.remove_node nid).distribution_box_ids.contains nid = true) ∧
    (distBoxes (s.remove_node nid)).contains nid = true := by
  have hnotnone : (s.nodes.find nid).isNone = false := by rw [hn]; rfl
  have hchar := remove_node_char s nid hnotnone
  have hf1 := removeLoop_frame (((s.adj.find nid).getD []).values) s
  have hclear : ∀ k c,
      ((((s.adj.find nid).getD []).values).foldl
        (fun t cid => t.remove_conduit cid) s).conduits.find k = some c →
      c.start_node_id ≠ nid ∧ c.end_node_id ≠ nid := by
    refine removeLoop_clears nid _ s hckeys ?_
    intro k c hk hinc
    have hall := List.all_eq_true.mp hadj
    have hmem := find_mem _ _ _ hk
    have hprops := hall (k, c) hmem
    simp only [Bool.and_eq_true, beq_iff_eq] at hprops
    rcases hinc with h1 | h1
    · have hfound : ((s.adj.find nid).getD []).find c.end_node_id = some k := by
        rw [← h1]; exact hprops.1.2
      exact find_mem_values _ _ _ hfound
    · have hfound : ((s.adj.find nid).getD []).find c.start_node_id = some k := by
        rw [← h1]; exact hprops.2
      exact find_mem_values _ _ _ hfound
  refine ⟨?_, ?_, ?_, ?_, ?_, ?_, ?_⟩
  · rw [hchar.1]
    exact find_erase_self _ _ (by rw [hf1.1]; exact hnkeys)
  · intro k c hk
    rw [hchar.2.1] at hk
    exact hclear k c hk
  · intro u hu
    rw [hchar.2.2.1, values_map] at hu
    rcases List.mem_map.mp hu with ⟨u0, hu0, hequ⟩
    rw [hf1.2.1] at hu0
    have hnd : u0.member_node_ids.Nodup := hunits u0 hu0
    subst hequ
    constructor
    · simp only [unitCleanup]
      by_cases hc : u0.member_node_ids.contains nid = true
      · simp only [hc, if_true, reduceIte]
        intro hmem
        have hm2 : nid ∈ u0.member_node_ids.erase nid := by
          revert hmem
          split <;> exact fun hmem => hmem
        exact ((List.Nodup.mem_erase_iff hnd).mp hm2).1 rfl
      · simp only [hc, Bool.false_eq_true, if_false, reduceIte]
        intro hmem
        have hm2 : nid ∈ u0.member_node_ids := by
          revert hmem
          split <;> exact fun hmem => hmem
        exact hc (List.elem_eq_true_of_mem hm2)
    · simp only [unitCleanup]
      split
      · split
        · simp
        · next hne => exact fun hh => hne hh
      · split
        · simp
        · next hne => exact fun hh => hne hh
  · intro hdbid
    rw [hchar.2.2.2.2, if_pos (by rw [hf1.2.2.1]; exact hdbid)]
  · rw [hchar.2.2.2.1]; exact hf1.2.2.2
  · rw [hchar.2.2.2.1, hf1.2.2.2]; exact hids
  · simp only [distBoxes, hchar.2.2.2.1, hf1.2.2.2]
    have hne : s.distribution_box_ids.isEmpty = false := by
      cases hl : s.distribution_box_ids with
      | nil => rw [hl] at hids; simp [List.contains] at hids
      | cons a t => rfl
    simp only [hne, Bool.false_eq_true, if_false, reduceIte]
    exact hids

/-- Claim C10, witness at the concrete system: the box node db1 is gone,
yet distribution_box_ids still contains "db1" and so does the list the
fallback / nearest-box queries iterate. -/
theorem c10_witness :
    ((c10sys.remove_node "db1").nodes.find "db1" = none) ∧
    ((c10sys.remove_node "db1").distribution_box_ids =
      c10sys.distribution_box_ids) ∧
    ((c10sys.remove_node "db1").distribution_box_ids.contains "db1" = true) ∧
    ((distBoxes (c10sys.remove_node "db1")).contains "db1" = true) :=
  ⟨(c10_theorem c10sys "db1" (mkNode "db1" .DISTRIBUTION_BOX Q.zero Q.zero Q.zero)
      (by decide) (by decide) (by decide) (by decide) (by decide) (by decide)
      (by decide)).1,
   (c10_theorem c10sys "db1" (mkNode "db1" .DISTRIBUTION_BOX Q.zero Q.zero Q.zero)
      (by decide) (by decide) (by decide) (by decide) (by decide) (by decide)
      (by decide)).2.2.2.2.1,
   (c10_theorem c10sys "db1" (mkNode "db1" .DISTRIBUTION_BOX Q.zero Q.zero Q.zero)
      (by decide) (by decide) (by decide) (by decide) (by decide) (by decide)
      (by decide)).2.2.2.2.2.1,
   (c10_theorem c10sys "db1" (mkNode "db1" .DISTRIBUTION_BOX Q.zero Q.zero Q.zero)
      (by decide) (by decide) (by decide) (by decide) (by decide) (by decide)
      (by decide)).2.2.2.2.2.2⟩

/-! ## Claim C5: Step 1 lays exactly one N and one PE per qualifying
conduit -/

theorem sameExceptConduits_refl (a : CircuitSystem) : sameExceptConduits a a :=
  ⟨rfl, rfl, rfl, rfl, rfl, rfl, rfl⟩

theorem sameExceptConduits_trans {a b c : CircuitSystem}
    (h1 : sameExceptConduits a b) (h2 : sameExceptConduits b c) :
    sameExceptConduits a c :=
  ⟨h1.1.trans h2.1, h1.2.1.trans h2.2.1, h1.2.2.1.trans h2.2.2.1,
   h1.2.2.2.1.trans h2.2.2.2.1, h1.2.2.2.2.1.trans h2.2.2.2.2.1,
   h1.2.2.2.2.2.1.trans h2.2.2.2.2.2.1, h1.2.2.2.2.2.2.trans h2.2.2.2.2.2.2⟩

theorem step1LayBody_effect (cid : String) (allowed : List String)
    (t : CircuitSystem) (a : String) :
    sameExceptConduits (step1LayBody cid allowed t a) t ∧
    ((step1LayBody cid allowed t a).conduits.find a =
      (t.conduits.find a).map (step1Transform t.nodes cid allowed)) ∧
    (∀ k, k ≠ a → (step1LayBody cid allowed t a).conduits.find k = t.conduits.find k) := by
  cases hc : t.conduits.find a with
  | none =>
    have hbody : step1LayBody cid allowed t a = t := by
      simp only [step1LayBody, hc]
    rw [hbody, hc]
    exact ⟨sameExceptConduits_refl t, rfl, fun k _ => rfl⟩
  | some conduit =>
    cases hu : t.nodes.find conduit.start_node_id with
    | none =>
      have hbody : step1LayBody cid allowed t a = t := by
        simp only [step1LayBody, hc, hu]
      have htrans : step1Transform t.nodes cid allowed conduit = conduit := by
        simp only [step1Transform, hu]
      rw [hbody, hc]
      exact ⟨sameExceptConduits_refl t, by simp [htrans], fun k _ => rfl⟩
    | some u =>
      cases hv : t.nodes.find conduit.end_node_id with
      | none =>
        have hbody : step1LayBody cid allowed t a = t := by
          simp only [step1LayBody, hc, hu, hv]
        have htrans : step1Transform t.nodes cid allowed conduit = conduit := by
          simp only [step1Transform, hu, hv]
        rw [hbody, hc]
        exact ⟨sameExceptConduits_refl t, by simp [htrans], fun k _ => rfl⟩
      | some v =>
        by_cases hsw : u.node_type = NodeType.SWITCH ∨ v.node_type = NodeType.SWITCH
        · have hbody : step1LayBody cid allowed t a = t := by
            simp only [step1LayBody, hc, hu, hv, hsw, if_true, reduceIte]
          have htrans : step1Transform t.nodes cid allowed conduit = conduit := by
            simp only [step1Transform, hu, hv, hsw, if_true, reduceIte]
          rw [hbody, hc]
          exact ⟨sameExceptConduits_refl t, by simp [htrans], fun k _ => rfl⟩
        · by_cases hal : (allowed.contains u.id && allowed.contains v.id) = true
          · have hbody : step1LayBody cid allowed t a = { t with conduits := t.conduits.insert a (step1Transform t.nodes cid allowed conduit) } := by
              simp only [step1LayBody, step1Transform, hc, hu, hv, hsw, hal,
                if_false, if_true, reduceIte]
            rw [hbody]
            refine ⟨⟨rfl, rfl, rfl, rfl, rfl, rfl, rfl⟩, ?_,
              fun k hk => find_insert_ne _ _ _ _ hk⟩
            exact find_insert_self _ _ _
          · have hbody : step1LayBody cid allowed t a = t := by
              simp only [step1LayBody, hc, hu, hv, hsw, hal, if_false,
                Bool.false_eq_true, reduceIte]
            have htrans : step1Transform t.nodes cid allowed conduit = conduit := by
              simp only [step1Transform, hu, hv, hsw, hal, if_false,
                Bool.false_eq_true, reduceIte]
            rw [hbody, hc]
            exact ⟨sameExceptConduits_refl t, by simp [htrans], fun k _ => rfl⟩

theorem step1_fold_find (cid : String) (allowed : List String) (s0 : CircuitSystem) :
    ∀ (K : List String) (t : CircuitSystem), K.Nodup → t.nodes = s0.nodes →
    (∀ k ∈ K, t.conduits.find k = s0.conduits.find k) →
    sameExceptConduits (K.foldl (step1LayBody cid allowed) t) t ∧
    (∀ k, (K.foldl (step1LayBody cid allowed) t).conduits.find k =
      if k ∈ K then (s0.conduits.find k).map (step1Transform s0.nodes cid allowed)
      else t.conduits.find k) := by
  intro K
  induction K with
  | nil =>
    intro t _ _ _
    exact ⟨sameExceptConduits_refl t, fun k => by simp⟩
  | cons a K ih =>
    intro t hnd hnodes hagree
    have hbody := step1LayBody_effect cid allowed t a
    have hnodes2 : (step1LayBody cid allowed t a).nodes = s0.nodes :=
      hbody.1.1.trans hnodes
    have hnd2 := (List.nodup_cons.mp hnd).2
    have hnotmem := (List.nodup_cons.mp hnd).1
    have hagree2 : ∀ k ∈ K, (step1LayBody cid allowed t a).conduits.find k =
        s0.conduits.find k := by
      intro k hk
      rw [hbody.2.2 k (fun he => hnotmem (he ▸ hk))]
      exact hagree k (List.mem_cons_of_mem a hk)
    have hrec := ih (step1LayBody cid allowed t a) hnd2 hnodes2 hagree2
    simp only [List.foldl_cons]
    refine ⟨sameExceptConduits_trans hrec.1 hbody.1, ?_⟩
    intro k
    rw [hrec.2 k]
    by_cases hkK : k ∈ K
    · simp [hkK]
    · simp only [hkK, if_false, reduceIte]
      by_cases hka : k = a
      · subst hka
        simp only [List.mem_cons, true_or, if_true, reduceIte]
        rw [hbody.2.1, hnodes, hagree k (List.mem_cons_self k K)]
      · have : ¬ k ∈ a :: K := by
          simp [List.mem_cons, hka, hkK]
        simp only [this, if_false, reduceIte]
        exact hbody.2.2 k hka

theorem step1_lay_find (s : CircuitSystem) (cid : String) (allowed : List String)
    (hkeys : (PyDict.keys s.conduits).Nodup) :
    sameExceptConduits (step1_lay s cid allowed) s ∧
    ∀ k, (step1_lay s cid allowed).conduits.find k =
      (s.conduits.find k).map (step1Transform s.nodes cid allowed) := by
  have h := step1_fold_find cid allowed s (PyDict.keys s.conduits) s hkeys rfl
    (fun _ _ => rfl)
  refine ⟨h.1, fun k => ?_⟩
  rw [show step1_lay s cid allowed =
    (PyDict.keys s.conduits).foldl (step1LayBody cid allowed) s from rfl, h.2 k]
  by_cases hk : k ∈ PyDict.keys s.conduits
  · simp [hk]
  · simp only [hk, if_false, reduceIte]
    rw [find_none_of_not_mem_keys _ _ hk]
    rfl

theorem wireShape_update (pick : Wire → Bool) (amt : Q) (ws : List Wire) :
    (ws.map (fun w => if pick w then { w with current := w.current.add amt }
      else w)).map wireShape = ws.map wireShape := by
  induction ws with
  | nil => rfl
  | cons w t ih => by_cases hw : pick w <;> simp [hw, wireShape, ih]

theorem accumBody_shape (pick : Wire → Bool) (amt : Q) (t : CircuitSystem)
    (uv : String × String) :
    sameExceptConduits (accumBody pick amt t uv) t ∧
    ∀ k, ((accumBody pick amt t uv).conduits.find k).map conduitShape =
      (t.conduits.find k).map conduitShape := by
  cases hg : t.get_conduit_entry uv.1 uv.2 with
  | none =>
    have hbody : accumBody pick amt t uv = t := by
      simp only [accumBody, hg]
    rw [hbody]
    exact ⟨sameExceptConduits_refl t, fun k => rfl⟩
  | some p =>
    obtain ⟨key, conduit⟩ := p
    have hfind : t.conduits.find key = some conduit := by
      revert hg
      simp only [CircuitSystem.get_conduit_entry]
      cases hadj : ((t.adj.find uv.1).getD []).find uv.2 with
      | none => exact fun h => Option.noConfusion h
      | some cid2 =>
        intro h
        rcases Option.map_eq_some'.mp h with ⟨c2, hc2, heq⟩
        have hk1 : cid2 = key := congrArg Prod.fst heq
        have hc1 : c2 = conduit := congrArg Prod.snd heq
        rw [← hk1, hc2, hc1]
    simp only [accumBody, hg]
    refine ⟨⟨rfl, rfl, rfl, rfl, rfl, rfl, rfl⟩, fun k => ?_⟩
    by_cases hk : k = key
    · subst hk
      rw [find_insert_self, hfind]
      simp only [Option.map_some', Option.some.injEq, conduitShape, Prod.mk.injEq]
      refine ⟨trivial, trivial, trivial, trivial, trivial, ?_⟩
      exact wireShape_update pick amt conduit.wires
    · rw [find_insert_ne _ _ _ _ hk]

theorem accumWires_shape (pick : Wire → Bool) (amt : Q) :
    ∀ (L : List (String × String)) (t : CircuitSystem),
    sameExceptConduits (L.foldl (accumBody pick amt) t) t ∧
    ∀ k, ((L.foldl (accumBody pick amt) t).conduits.find k).map conduitShape =
      (t.conduits.find k).map conduitShape := by
  intro L
  induction L with
  | nil => exact fun t => ⟨sameExceptConduits_refl t, fun k => rfl⟩
  | cons uv L ih =>
    intro t
    have hbody := accumBody_shape pick amt t uv
    have hrec := ih (accumBody pick amt t uv)
    simp only [List.foldl_cons]
    exact ⟨sameExceptConduits_trans hrec.1 hbody.1,
      fun k => (hrec.2 k).trans (hbody.2 k)⟩

theorem step1AccumBody_shape (g : Graph) (dbid cid : String) (allowed : List String)
    (t : CircuitSystem) (dev : Node) :
    sameExceptConduits (step1AccumBody g dbid cid allowed t dev).state t ∧
    ∀ k, (((step1AccumBody g dbid cid allowed t dev).state).conduits.find k).map
        conduitShape = (t.conduits.find k).map conduitShape := by
  simp only [step1AccumBody]
  cases nearest_db g t dev.id (some allowed) with
  | raised => exact ⟨sameExceptConduits_refl t, fun k => rfl⟩
  | noneFound => exact ⟨sameExceptConduits_refl t, fun k => rfl⟩
  | found db =>
    dsimp only
    by_cases hdb : db ≠ dbid
    · rw [if_pos hdb]
      exact ⟨sameExceptConduits_refl t, fun k => rfl⟩
    · rw [if_neg hdb]
      cases (g.subgraph (pyUnion allowed [dbid])).shortest_path dev.id dbid with
      | noPath => exact ⟨sameExceptConduits_refl t, fun k => rfl⟩
      | nodeNotFound => exact ⟨sameExceptConduits_refl t, fun k => rfl⟩
      | found d p => exact accumWires_shape _ _ (pathPairs p) t

theorem step1Accum_fold_shape (g : Graph) (dbid cid : String) (allowed : List String) :
    ∀ (devs : List Node) (t : CircuitSystem),
    sameExceptConduits ((foldRes (step1AccumBody g dbid cid allowed) devs t).state) t ∧
    ∀ k, ((((foldRes (step1AccumBody g dbid cid allowed) devs t).state).conduits.find
        k).map conduitShape) = (t.conduits.find k).map conduitShape := by
  intro devs
  induction devs with
  | nil => exact fun t => ⟨sameExceptConduits_refl t, fun k => rfl⟩
  | cons dev devs ih =>
    intro t
    have hbody := step1AccumBody_shape g dbid cid allowed t dev
    simp only [foldRes]
    cases hb : step1AccumBody g dbid cid allowed t dev with
    | ok t2 =>
      have hrec := ih t2
      rw [hb] at hbody
      simp only [Res.state] at hbody
      exact ⟨sameExceptConduits_trans hrec.1 hbody.1,
        fun k => (hrec.2 k).trans (hbody.2 k)⟩
    | err e t2 =>
      rw [hb] at hbody
      simp only [Res.state] at hbody ⊢
      exact hbody

theorem count_shape (wt : WireType) (cid : String) : ∀ (ws1 ws2 : List Wire),
    ws1.map wireShape = ws2.map wireShape →
    ((ws1.filter (fun w => w.wire_type == wt && w.circuit_id == some cid)).length =
      (ws2.filter (fun w => w.wire_type == wt && w.circuit_id == some cid)).length) ∧
    ws1.length = ws2.length := by
  intro ws1
  induction ws1 with
  | nil =>
    intro ws2 h
    cases ws2 with
    | nil => exact ⟨rfl, rfl⟩
    | cons b t => simp at h
  | cons a t1 ih =>
    intro ws2 h
    cases ws2 with
    | nil => simp at h
    | cons b t2 =>
      simp only [List.map_cons, List.cons.injEq] at h
      have htype : a.wire_type = b.wire_type := by
        have := h.1
        simp only [wireShape, Prod.mk.injEq] at this
        exact this.2.1
      have hcirc : a.circuit_id = b.circuit_id := by
        have := h.1
        simp only [wireShape, Prod.mk.injEq] at this
        exact this.2.2.2.1
      have hrec := ih t2 h.2
      constructor
      · simp only [List.filter]
        rw [htype, hcirc]
        cases hcond : (b.wire_type == wt && b.circuit_id == some cid) with
        | true => simp [hrec.1]
        | false => simp [hrec.1]
      · simp [hrec.2]

theorem countWires_congr (a b : Conduit) (h : conduitShape a = conduitShape b)
    (wt : WireType) (cid : String) :
    countWires a wt cid = countWires b wt cid ∧ a.wires.length = b.wires.length := by
  have hw : a.wires.map wireShape = b.wires.map wireShape := by
    simp only [conduitShape, Prod.mk.injEq] at h
    exact h.2.2.2.2.2
  exact count_shape wt cid a.wires b.wires hw

theorem add_wire_ofWire_state (c : Conduit) (w : Wire) :
    (c.add_wire (.ofWire w) 1 none none).state =
      { c with wires := c.wires ++ [mkWireOfWire c.id c.wires.length 0 w c.circuit_id] } := by
  simp only [Conduit.add_wire, optTruthy, Bool.false_eq_true, if_false, reduceIte,
    Res.state]
  rfl

theorem step1Transform_counts (nodes : PyDict Node) (cid : String)
    (allowed : List String) (c : Conduit) (hcid : cid ≠ "") :
    countWires (step1Transform nodes cid allowed c) .N cid =
      countWires c .N cid + (if step1Cond nodes allowed c then 1 else 0) ∧
    countWires (step1Transform nodes cid allowed c) .PE cid =
      countWires c .PE cid + (if step1Cond nodes allowed c then 1 else 0) ∧
    (step1Transform nodes cid allowed c).wires.length =
      c.wires.length + (if step1Cond nodes allowed c then 2 else 0) := by
  have htr : optTruthy (some cid) = true := by
    simp only [optTruthy, bne_iff_ne, ne_eq, decide_not]
    simp [hcid]
  cases hfu : nodes.find c.start_node_id with
  | none =>
    have ht : step1Transform nodes cid allowed c = c := by
      simp only [step1Transform, hfu]
    have hcond : step1Cond nodes allowed c = false := by
      simp only [step1Cond, hfu]
    rw [ht, hcond]
    simp
  | some u =>
    cases hfv : nodes.find c.end_node_id with
    | none =>
      have ht : step1Transform nodes cid allowed c = c := by
        simp only [step1Transform, hfu, hfv]
      have hcond : step1Cond nodes allowed c = false := by
        simp only [step1Cond, hfu, hfv]
      rw [ht, hcond]
      simp
    | some v =>
      by_cases hsw : u.node_type = NodeType.SWITCH ∨ v.node_type = NodeType.SWITCH
      · have hswb : (u.node_type == NodeType.SWITCH || v.node_type == NodeType.SWITCH)
            = true := by
          rcases hsw with h | h <;> simp [h]
        have ht : step1Transform nodes cid allowed c = c := by
          simp only [step1Transform, hfu, hfv, hsw, if_true, reduceIte]
        have hcond : step1Cond nodes allowed c = false := by
          simp only [step1Cond, hfu, hfv, hswb]
          rfl
        rw [ht, hcond]
        simp
      · have hswb : (u.node_type == NodeType.SWITCH || v.node_type == NodeType.SWITCH)
            = false := by
          simp only [not_or] at hsw
          simp [hsw.1, hsw.2]
        by_cases hal : (allowed.contains u.id && allowed.contains v.id) = true
        · have ht : step1Transform nodes cid allowed c =
              ((c.add_wire (.ofWire ⟨c.id ++ "-auto-N", .N, none, some cid, Q.zero, [],
                ""⟩) 1 none none).state.add_wire (.ofWire ⟨c.id ++ "-auto-PE", .PE,
                none, some cid, Q.zero, [], ""⟩) 1 none none).state := by
            simp only [step1Transform, hfu, hfv, hal, if_true, reduceIte]
            rw [if_neg hsw]
          have hcond : step1Cond nodes allowed c = true := by
            simp only [step1Cond, hfu, hfv, hswb, hal]
            rfl
          rw [ht, hcond]
          rw [add_wire_ofWire_state]
          rw [add_wire_ofWire_state]
          have e1 : (WireType.PE == WireType.N) = false := rfl
          have e2 : (WireType.N == WireType.PE) = false := rfl
          have e3 : (WireType.N == WireType.N) = true := rfl
          have e4 : (WireType.PE == WireType.PE) = true := rfl
          simp only [countWires, List.filter_append, List.length_append, mkWireOfWire,
            orStr, htr, if_true, reduceIte]
          simp [List.filter, e1, e2, e3, e4]
        · have ht : step1Transform nodes cid allowed c = c := by
            simp only [step1Transform, hfu, hfv, hal]
            rw [if_neg hsw]
            simp
          have hcond : step1Cond nodes allowed c = false := by
            simp only [step1Cond, hfu, hfv, hswb, Bool.not_false, Bool.true_and]
            exact Bool.eq_false_iff.mpr hal
          rw [ht, hcond]
          simp

/-- Claim C5: in Step 1, a conduit whose two endpoints both exist, are
both in the circuit's allowed node set and are neither of them switches
receives exactly one Neutral and one Protective-Earth wire bound to this
circuit (and nothing else); every other conduit — in particular any with
a switch endpoint — receives no wire at all in this step.  step1Cond is
the qualifying condition read off the source; the accumulation phase that
follows the laying only changes currents, never the wire lists. -/
theorem c5_theorem (g : Graph) (s : CircuitSystem) (dbid circuit_id : String)
    (allowed : List String) (hcid : circuit_id ≠ "")
    (hkeys : (PyDict.keys s.conduits).Nodup)
    (k : String) (c : Conduit) (hc : s.conduits.find k = some c) :
    ∃ c2, (step1_lay_base_circuit g s dbid circuit_id allowed).state.conduits.find k
        = some c2 ∧
      countWires c2 .N circuit_id =
        countWires c .N circuit_id +
          (if step1Cond s.nodes allowed c then 1 else 0) ∧
      countWires c2 .PE circuit_id =
        countWires c .PE circuit_id +
          (if step1Cond s.nodes allowed c then 1 else 0) ∧
      c2.wires.length = c.wires.length +
        (if step1Cond s.nodes allowed c then 2 else 0) := by
  have hlay := step1_lay_find s circuit_id allowed hkeys
  have haccum := step1Accum_fold_shape g dbid circuit_id allowed
    ((step1_lay s circuit_id allowed).nodes.values.filter (fun n =>
      n.node_type ≠ NodeType.SWITCH ∧ n.node_type ≠ NodeType.DISTRIBUTION_BOX ∧
        allowed.contains n.id)) (step1_lay s circuit_id allowed)
  have hfind1 : (step1_lay s circuit_id allowed).conduits.find k =
      some (step1Transform s.nodes circuit_id allowed c) := by
    rw [hlay.2 k, hc]
    rfl
  have hshape := haccum.2 k
  rw [hfind1] at hshape
  cases hfin : ((foldRes (step1AccumBody g dbid circuit_id allowed)
      ((step1_lay s circuit_id allowed).nodes.values.filter (fun n =>
        n.node_type ≠ NodeType.SWITCH ∧ n.node_type ≠ NodeType.DISTRIBUTION_BOX ∧
          allowed.contains n.id)) (step1_lay s circuit_id allowed)).state).conduits.find
      k with
  | none =>
    rw [hfin] at hshape
    simp at hshape
  | some c2 =>
    rw [hfin] at hshape
    simp only [Option.map_some', Option.some.injEq] at hshape
    have hcounts := step1Transform_counts s.nodes circuit_id allowed c hcid
    have hcongrN := countWires_congr c2 (step1Transform s.nodes circuit_id allowed c)
      hshape .N circuit_id
    have hcongrPE := countWires_congr c2 (step1Transform s.nodes circuit_id allowed c)
      hshape .PE circuit_id
    refine ⟨c2, ?_, ?_, ?_, ?_⟩
    · rw [show step1_lay_base_circuit g s dbid circuit_id allowed =
        foldRes (step1AccumBody g dbid circuit_id allowed)
          ((step1_lay s circuit_id allowed).nodes.values.filter (fun n =>
            n.node_type ≠ NodeType.SWITCH ∧ n.node_type ≠ NodeType.DISTRIBUTION_BOX ∧
              allowed.contains n.id)) (step1_lay s circuit_id allowed) from rfl]
      exact hfin
    · rw [hcongrN.1, hcounts.1]
    · rw [hcongrPE.1, hcounts.2.1]
    · rw [hcongrN.2, hcounts.2.2]

/-- Claim C5, witness on the spec's concrete scenario: the box-socket
conduit c3 qualifies and gains exactly one N and one PE of circuit C-C1;
the box-switch conduit c1 has a switch endpoint and gains nothing. -/
theorem c5_witness :
    (∃ c2, (step1_lay_base_circuit (buildGraph specScenario) specScenario "DB1"
        "C-C1" (pyUnion ["SW1", "LT1", "SK1"] ["DB1"])).state.conduits.find "c3"
        = some c2 ∧
      countWires c2 .N "C-C1" = 1 ∧ countWires c2 .PE "C-C1" = 1 ∧
      c2.wires.length = 2) ∧
    (∃ c2, (step1_lay_base_circuit (buildGraph specScenario) specScenario "DB1"
        "C-C1" (pyUnion ["SW1", "LT1", "SK1"] ["DB1"])).state.conduits.find "c1"
        = some c2 ∧
      countWires c2 .N "C-C1" = 0 ∧ countWires c2 .PE "C-C1" = 0 ∧
      c2.wires.length = 0) := by
  obtain ⟨c2, hf, hN, hPE, hlen⟩ := c5_theorem (buildGraph specScenario) specScenario
    "DB1" "C-C1" (pyUnion ["SW1", "LT1", "SK1"] ["DB1"]) (by decide) (by decide) "c3"
    ⟨"c3", "DB1", "SK1", ⟨4, 1⟩, [], none⟩ (by decide)
  obtain ⟨d2, hg, hN2, hPE2, hlen2⟩ := c5_theorem (buildGraph specScenario) specScenario
    "DB1" "C-C1" (pyUnion ["SW1", "LT1", "SK1"] ["DB1"]) (by decide) (by decide) "c1"
    ⟨"c1", "DB1", "SW1", ⟨5, 1⟩, [], none⟩ (by decide)
  refine ⟨⟨c2, hf, ?_, ?_, ?_⟩, ⟨d2, hg, ?_, ?_, ?_⟩⟩
  · rw [hN]; decide
  · rw [hPE]; decide
  · rw [hlen]; decide
  · rw [hN2]; decide
  · rw [hPE2]; decide
  · rw [hlen2]; decide

/-! ## Claim C7: the generator's return value drops connector conduits -/

set_option maxRecDepth 40000 in
/-- Claim C7: on c7sys the generator adds two conduits (one MST edge from
the box to the light, one controlled-unit connector from the light to the
switch) but returns 1: the `total += count` of algorithms.py line 388 runs
before the connector loop and line 422 adds `total += 0` although its
comment claims the count was already included.  The other parts of the
claim hold: with no circuits it returns 0 and adds nothing. -/
theorem c7_theorem :
    (generate_mst_topology c7sys).2 = 1 ∧
    (generate_mst_topology c7sys).1.conduits.length = 2 ∧
    c7sys.conduits.length = 0 ∧
    generate_mst_topology emptySystem = (emptySystem, 0) := by
  refine ⟨by decide, by decide, by decide, by decide⟩

/-! ## Claim C2: switch current aggregation -/

set_option maxRecDepth 40000 in
/-- Claim C2, counterexample: in c2sys the two controlled-unit members
each feed their rated current (1 each) into BOTH control wires on the
single switch-incident conduit (the MST takes both member-switch edges
and their conduit routes share that conduit), so after Step 3 the
switch's rated current is 4, not the member sum 2.  The claim's asserted
equality with the member sum is false. -/
theorem c2_counterexample :
    (calculate c2sys).isOk = true ∧
    ((calculate c2sys).state.nodes.find "sw").map Node.rated_current = some ⟨4, 1⟩ ∧
    (c2sys.nodes.find "m1").map Node.rated_current = some ⟨1, 1⟩ ∧
    (c2sys.nodes.find "m2").map Node.rated_current = some ⟨1, 1⟩ ∧
    Q.add ⟨1, 1⟩ ⟨1, 1⟩ = ⟨2, 1⟩ ∧ (⟨4, 1⟩ : Q) ≠ (⟨2, 1⟩ : Q) := by
  refine ⟨by decide, by decide, by decide, by decide, by decide, by decide⟩

theorem mem_keys_of_find {α : Type} (d : PyDict α) (k : String) (v : α)
    (h : d.find k = some v) : k ∈ PyDict.keys d := by
  induction d with
  | nil => simp [PyDict.find] at h
  | cons p t ih =>
    by_cases hp : p.1 = k
    · simp [PyDict.keys, hp]
    · simp only [PyDict.find, hp, if_false, reduceIte] at h
      simp [PyDict.keys] at ih ⊢
      exact Or.inr (ih h)

theorem insert_keys_mem {α : Type} (d : PyDict α) (k : String) (v v2 : α)
    (h : d.find k = some v) : PyDict.keys (d.insert k v2) = PyDict.keys d := by
  induction d with
  | nil => simp [PyDict.find] at h
  | cons p t ih =>
    by_cases hp : p.1 = k
    · simp [PyDict.insert, PyDict.keys, hp]
    · simp only [PyDict.find, hp, if_false, reduceIte] at h
      simp only [PyDict.insert, hp, if_false, reduceIte]
      simp [PyDict.keys] at ih ⊢
      exact ih h

theorem controlSum_congr (a b : CircuitSystem) (h1 : a.conduits = b.conduits)
    (h2 : a.adj = b.adj) (cid : String) (allowed : List String) (k : String) :
    controlSum a cid allowed k = controlSum b cid allowed k := by
  simp [controlSum, h1, h2]

theorem step3AggBody_effect (cid : String) (allowed : List String)
    (t : CircuitSystem) (nid : String) :
    ((step3AggBody cid allowed t nid).conduits = t.conduits) ∧
    ((step3AggBody cid allowed t nid).adj = t.adj) ∧
    (PyDict.keys (step3AggBody cid allowed t nid).nodes = PyDict.keys t.nodes) ∧
    (∀ k, k ≠ nid → (step3AggBody cid allowed t nid).nodes.find k = t.nodes.find k) ∧
    ((step3AggBody cid allowed t nid).nodes.find nid = (t.nodes.find nid).map
      (fun n => if n.node_type = NodeType.SWITCH then
        { n with rated_current := controlSum t cid allowed nid } else n)) := by
  cases hf : t.nodes.find nid with
  | none =>
    have hbody : step3AggBody cid allowed t nid = t := by
      simp only [step3AggBody, hf]
    rw [hbody, hf]
    exact ⟨rfl, rfl, rfl, fun _ _ => rfl, rfl⟩
  | some switch =>
    by_cases hsw : switch.node_type = NodeType.SWITCH
    · have hbody : step3AggBody cid allowed t nid = { t with nodes := t.nodes.insert nid { switch with rated_current := controlSum t cid allowed nid } } := by
        simp only [step3AggBody, hf, hsw, if_true, reduceIte]
      rw [hbody]
      refine ⟨rfl, rfl, insert_keys_mem _ _ _ _ hf,
        fun k hk => find_insert_ne _ _ _ _ hk, ?_⟩
      rw [show ({ t with nodes := t.nodes.insert nid { switch with rated_current := controlSum t cid allowed nid } } : CircuitSystem).nodes = t.nodes.insert nid { switch with rated_current := controlSum t cid allowed nid } from rfl]
      rw [find_insert_self]
      simp [hsw]
    · have hbody : step3AggBody cid allowed t nid = t := by
        simp only [step3AggBody, hf, hsw, if_false, reduceIte]
      rw [hbody, hf]
      refine ⟨rfl, rfl, rfl, fun _ _ => rfl, ?_⟩
      simp [hsw]

theorem aggFold_spec (cid : String) (allowed : List String) :
    ∀ (K : List String) (t : CircuitSystem),
    ((K.foldl (step3AggBody cid allowed) t).conduits = t.conduits) ∧
    ((K.foldl (step3AggBody cid allowed) t).adj = t.adj) ∧
    (PyDict.keys (K.foldl (step3AggBody cid allowed) t).nodes =
      PyDict.keys t.nodes) ∧
    (∀ k, k ∉ K → (K.foldl (step3AggBody cid allowed) t).nodes.find k =
      t.nodes.find k) ∧
    (∀ k, k ∈ K → ∀ n, (K.foldl (step3AggBody cid allowed) t).nodes.find k = some n →
      n.node_type = NodeType.SWITCH → n.rated_current = controlSum t cid allowed k) := by
  intro K
  induction K with
  | nil =>
    intro t
    exact ⟨rfl, rfl, rfl, fun _ _ => rfl, fun k hk => absurd hk (List.not_mem_nil k)⟩
  | cons a K ih =>
    intro t
    have hbody := step3AggBody_effect cid allowed t a
    have hrec := ih (step3AggBody cid allowed t a)
    simp only [List.foldl_cons]
    have hsum : ∀ k, controlSum (step3AggBody cid allowed t a) cid allowed k =
        controlSum t cid allowed k :=
      fun k => controlSum_congr _ _ hbody.1 hbody.2.1 cid allowed k
    refine ⟨hrec.1.trans hbody.1, hrec.2.1.trans hbody.2.1,
      hrec.2.2.1.trans hbody.2.2.1, ?_, ?_⟩
    · intro k hk
      have hka : k ≠ a := fun he => hk (he ▸ List.mem_cons_self a K)
      have hkK : k ∉ K := fun he => hk (List.mem_cons_of_mem a he)
      rw [hrec.2.2.2.1 k hkK]
      exact hbody.2.2.2.1 k hka
    · intro k hk n hfind hswn
      rcases List.mem_cons.mp hk with hka | hkK
      · by_cases hKmem : k ∈ K
        · rw [hrec.2.2.2.2 k hKmem n hfind hswn]
          exact hsum k
        · subst hka
          rw [hrec.2.2.2.1 k hKmem, hbody.2.2.2.2] at hfind
          cases hf0 : t.nodes.find k with
          | none => rw [hf0] at hfind; cases hfind
          | some n0 =>
            rw [hf0] at hfind
            simp only [Option.map_some', Option.some.injEq] at hfind
            by_cases hsw0 : n0.node_type = NodeType.SWITCH
            · rw [if_pos hsw0] at hfind
              rw [← hfind]
            · rw [if_neg hsw0] at hfind
              exact absurd (hfind ▸ hswn) hsw0
      · by_cases hKmem : k ∈ K
        · rw [hrec.2.2.2.2 k hKmem n hfind hswn]
          exact hsum k
        · exact absurd hkK hKmem

/-- Claim C2 (amended): after Step 3 of a circuit's pass, every switch
node's rated current equals the sum of the currents of all Control wires
of this circuit on conduits incident to the switch (through the adjacency
index, both endpoints restricted to the allowed set) — the controlSum
formula.  This is the claim's second formulation; the "equivalently, the
sum of the controlled members' rated currents" part is what the
counterexample refutes: a member's current is counted once per control
wire of its unit on the switch-incident conduit, so shared conduits
double-count. -/
theorem c2_amended (g : Graph) (s : CircuitSystem) (dbid cid : String)
    (allowed : List String) (s2 : CircuitSystem)
    (hok : step3_lay_control_wires g s dbid cid allowed = .ok s2) :
    ∀ k n, s2.nodes.find k = some n → n.node_type = NodeType.SWITCH →
      n.rated_current = controlSum s2 cid allowed k := by
  have hbind : ∃ s1, s2 = step3_aggregate s1 cid allowed := by
    revert hok
    simp only [step3_lay_control_wires]
    cases h1 : foldRes _ s.units.values s with
    | ok s1 =>
      simp only [Res.bind]
      intro h
      cases h
      exact ⟨s1, rfl⟩
    | err e s1 =>
      simp only [Res.bind]
      intro h
      cases h
  obtain ⟨s1, hs2⟩ := hbind
  subst hs2
  intro k n hfind hsw
  have hspec := aggFold_spec cid allowed (PyDict.keys s1.nodes) s1
  have hmem : k ∈ PyDict.keys s1.nodes := by
    have := mem_keys_of_find _ _ _ hfind
    rw [show (step3_aggregate s1 cid allowed).nodes =
      ((PyDict.keys s1.nodes).foldl (step3AggBody cid allowed) s1).nodes from rfl]
      at this
    rw [hspec.2.2.1] at this
    exact this
  have := hspec.2.2.2.2 k hmem n hfind hsw
  rw [this]
  exact (controlSum_congr _ _ hspec.1 hspec.2.1 cid allowed k).symm

set_option maxRecDepth 100000 in
/-- Claim C2, witness: on the spec scenario's Step 3, SW1 ends with rated
current equal to the controlSum formula (value 1/2). -/
theorem c2_witness :
    swFinal.rated_current = controlSum step3Run.state "C-C1" c2AL "SW1" ∧
    swFinal.rated_current = ⟨1, 2⟩ :=
  ⟨c2_amended (buildGraph specScenario) specScenario "DB1" "C-C1" c2AL step3Run.state
      (by decide) "SW1" swFinal (by decide) (by decide),
   by decide⟩

/-! ## Claim C6: missing paths are skipped silently -/

theorem distBoxes_congr (a b : CircuitSystem)
    (h1 : a.distribution_box_ids = b.distribution_box_ids)
    (h2 : a.distribution_box_id = b.distribution_box_id) :
    distBoxes a = distBoxes b := by
  simp [distBoxes, h1, h2]

theorem nearest_db_congr (g : Graph) (a b : CircuitSystem) (n : String)
    (al : Option (List String))
    (h1 : a.distribution_box_ids = b.distribution_box_ids)
    (h2 : a.distribution_box_id = b.distribution_box_id) :
    nearest_db g a n al = nearest_db g b n al := by
  simp only [nearest_db]
  rw [distBoxes_congr a b h1 h2]

/-! ## Claim C8: idempotence of topology generation -/

set_option maxRecDepth 40000 in
/-- Claim C8, counterexample: in c8sys the pre-existing bound conduit is
named "c_C1_3_1", exactly the id the generator constructs for its third
added edge, so the first run clobbers it and the pair (a, b) loses its
conduit; the second run then adds a new conduit for that pair — the
conduit set after two runs differs from the set after one. -/
theorem c8_counterexample :
    (generate_mst_topology (generate_mst_topology c8sys).1).1.conduits ≠
      (generate_mst_topology c8sys).1.conduits ∧
    (generate_mst_topology c8sys).1.conduits.length = 2 ∧
    (generate_mst_topology (generate_mst_topology c8sys).1).1.conduits.length = 3 ∧
    genNoClobber c8sys = false := by
  refine ⟨by decide, by decide, by decide, by decide⟩

theorem not_mem_of_contains_false {l : List String} {a : String}
    (h : l.contains a = false) : ¬ a ∈ l := by
  intro hm
  have h2 : List.elem a l = false := h
  rw [List.elem_eq_true_of_mem hm] at h2
  exact Bool.noConfusion h2

theorem find_none_of_hasKey_false {α : Type} (d : PyDict α) (k : String)
    (h : d.hasKey k = false) : d.find k = none :=
  find_none_of_not_mem_keys d k (not_mem_of_contains_false h)

theorem insert_of_find_none {α : Type} (d : PyDict α) (k : String) (v : α)
    (h : d.find k = none) : d.insert k v = PyDict.entries d ++ [(k, v)] := by
  induction d with
  | nil => rfl
  | cons p t ih =>
    by_cases hp : p.1 = k
    · simp [PyDict.find, hp] at h
    · simp only [PyDict.find, hp, if_false, reduceIte] at h
      simp [PyDict.insert, PyDict.entries, hp, ih h]

theorem add_conduit_frame (s : CircuitSystem) (c : Conduit) :
    (s.add_conduit c).nodes = s.nodes ∧ (s.add_conduit c).units = s.units ∧
    (s.add_conduit c).circuits = s.circuits :=
  ⟨rfl, rfl, rfl⟩

theorem add_conduit_conduits_fresh (s : CircuitSystem) (c : Conduit)
    (h : s.conduits.hasKey c.id = false) :
    ∃ c2 : Conduit, (s.add_conduit c).conduits =
        PyDict.entries s.conduits ++ [(c.id, c2)] ∧
      c2.id = c.id ∧ c2.start_node_id = c.start_node_id ∧
      c2.end_node_id = c.end_node_id ∧ c2.circuit_id = c.circuit_id := by
  have hf := find_none_of_hasKey_false _ _ h
  cases h1 : s.nodes.find c.start_node_id with
  | none =>
    cases h2 : s.nodes.find c.end_node_id with
    | none =>
      have hb : (s.add_conduit c).conduits = s.conduits.insert c.id c := by
        simp only [CircuitSystem.add_conduit, h1, h2]
      exact ⟨c, hb.trans (insert_of_find_none _ _ _ hf), rfl, rfl, rfl, rfl⟩
    | some n2 =>
      have hb : (s.add_conduit c).conduits = s.conduits.insert c.id c := by
        simp only [CircuitSystem.add_conduit, h1, h2]
      exact ⟨c, hb.trans (insert_of_find_none _ _ _ hf), rfl, rfl, rfl, rfl⟩
  | some n1 =>
    cases h2 : s.nodes.find c.end_node_id with
    | none =>
      have hb : (s.add_conduit c).conduits = s.conduits.insert c.id c := by
        simp only [CircuitSystem.add_conduit, h1, h2]
      exact ⟨c, hb.trans (insert_of_find_none _ _ _ hf), rfl, rfl, rfl, rfl⟩
    | some n2 =>
      have hb : (s.add_conduit c).conduits = s.conduits.insert c.id
          { c with length := euclidDist n1.x n1.y n2.x n2.y } := by
        simp only [CircuitSystem.add_conduit, h1, h2]
      exact ⟨_, hb.trans (insert_of_find_none _ _ _ hf), rfl, rfl, rfl, rfl⟩

theorem connected_mono (s : CircuitSystem) (c : Conduit) (cid0 u v : String)
    (hfresh : s.conduits.hasKey c.id = false)
    (h : connectedSameCircuit s cid0 u v = true) :
    connectedSameCircuit (s.add_conduit c) cid0 u v = true := by
  obtain ⟨c2, hconds, _, _, _, _⟩ := add_conduit_conduits_fresh s c hfresh
  simp only [connectedSameCircuit] at h ⊢
  rw [hconds]
  obtain ⟨x, hx, hpx⟩ := List.any_eq_true.mp h
  refine List.any_eq_true.mpr ⟨x, ?_, hpx⟩
  have hv : PyDict.values (PyDict.entries s.conduits ++ [(c.id, c2)]) =
      PyDict.values s.conduits ++ [c2] := by
    simp [PyDict.values, PyDict.entries]
  rw [hv]
  exact List.mem_append_left _ hx

theorem connected_new (s : CircuitSystem) (c : Conduit) (cid0 : String)
    (hfresh : s.conduits.hasKey c.id = false) (hcid : c.circuit_id = some cid0) :
    connectedSameCircuit (s.add_conduit c) cid0 c.start_node_id c.end_node_id
      = true := by
  obtain ⟨c2, hconds, _, hs, he, hc⟩ := add_conduit_conduits_fresh s c hfresh
  simp only [connectedSameCircuit]
  rw [hconds]
  have hmem : c2 ∈ PyDict.values
      (PyDict.entries s.conduits ++ [(c.id, c2)]) := by
    simp [PyDict.values, PyDict.entries]
  refine List.any_eq_true.mpr ⟨c2, hmem, ?_⟩
  show (c2.circuit_id == some cid0 &&
      ((c2.start_node_id == c.start_node_id && c2.end_node_id == c.end_node_id) ||
       (c2.start_node_id == c.end_node_id && c2.end_node_id == c.start_node_id)))
      = true
  rw [hs, he, hc, hcid]
  simp

theorem matFold_bool (cid : String) : ∀ (E : List (String × String))
    (p : CircuitSystem × Nat × Bool),
    (E.foldl (materializeEdgeChk cid) p).2.2 = true → p.2.2 = true := by
  intro E
  induction E with
  | nil => exact fun p h => h
  | cons uv E ih =>
    intro p h
    simp only [List.foldl_cons] at h
    have hstep := ih _ h
    revert hstep
    by_cases hcn : connectedSameCircuit p.1 cid uv.1 uv.2 = true
    · simp only [materializeEdgeChk, if_pos hcn]
      exact fun h2 => h2
    · simp only [materializeEdgeChk, if_neg hcn]
      intro h2
      have h2' : (p.2.2 && !(p.1.conduits.hasKey ("c_" ++ cid ++ "_" ++
          toString (p.1.conduits.length + 1) ++ "_" ++ toString p.2.1))) = true := h2
      cases hcc : p.2.2
      · rw [hcc] at h2'
        simp at h2'
      · rfl

theorem matFold_persist (cid : String) : ∀ (E : List (String × String))
    (p : CircuitSystem × Nat × Bool) (cid0 u v : String),
    (E.foldl (materializeEdgeChk cid) p).2.2 = true →
    connectedSameCircuit p.1 cid0 u v = true →
    connectedSameCircuit (E.foldl (materializeEdgeChk cid) p).1 cid0 u v = true := by
  intro E
  induction E with
  | nil => exact fun p cid0 u v _ h => h
  | cons uv E ih =>
    intro p cid0 u v hb h
    simp only [List.foldl_cons] at hb ⊢
    have hstepb : (materializeEdgeChk cid p uv).2.2 = true := matFold_bool cid E _ hb
    refine ih _ cid0 u v hb ?_
    revert hstepb
    by_cases hcn : connectedSameCircuit p.1 cid uv.1 uv.2 = true
    · simp only [materializeEdgeChk, if_pos hcn]
      exact fun _ => h
    · simp only [materializeEdgeChk, if_neg hcn]
      intro h2
      have h2' : (p.2.2 && !(p.1.conduits.hasKey ("c_" ++ cid ++ "_" ++
          toString (p.1.conduits.length + 1) ++ "_" ++ toString p.2.1))) = true := h2
      have hfresh : p.1.conduits.hasKey ("c_" ++ cid ++ "_" ++
          toString (p.1.conduits.length + 1) ++ "_" ++ toString p.2.1) = false := by
        cases hk : p.1.conduits.hasKey ("c_" ++ cid ++ "_" ++
            toString (p.1.conduits.length + 1) ++ "_" ++ toString p.2.1)
        · rfl
        · rw [hk] at h2'
          simp at h2'
      exact connected_mono p.1 ⟨"c_" ++ cid ++ "_" ++
        toString (p.1.conduits.length + 1) ++ "_" ++ toString p.2.1,
        uv.1, uv.2, Q.zero, [], some cid⟩ cid0 u v hfresh h

theorem matFold_covers (cid : String) : ∀ (E : List (String × String))
    (p : CircuitSystem × Nat × Bool),
    (E.foldl (materializeEdgeChk cid) p).2.2 = true →
    ∀ uv ∈ E, connectedSameCircuit (E.foldl (materializeEdgeChk cid) p).1 cid
      uv.1 uv.2 = true := by
  intro E
  induction E with
  | nil => exact fun p _ uv hm => absurd hm (List.not_mem_nil uv)
  | cons uv0 E ih =>
    intro p hb uv hm
    simp only [List.foldl_cons] at hb ⊢
    rcases List.mem_cons.mp hm with he | hm2
    · subst he
      refine matFold_persist cid E _ cid uv.1 uv.2 hb ?_
      have hstepb : (materializeEdgeChk cid p uv).2.2 = true := matFold_bool cid E _ hb
      revert hstepb
      by_cases hcn : connectedSameCircuit p.1 cid uv.1 uv.2 = true
      · simp only [materializeEdgeChk, if_pos hcn]
        exact fun _ => hcn
      · simp only [materializeEdgeChk, if_neg hcn]
        intro h2
        have h2' : (p.2.2 && !(p.1.conduits.hasKey ("c_" ++ cid ++ "_" ++
            toString (p.1.conduits.length + 1) ++ "_" ++ toString p.2.1))) = true := h2
        have hfresh : p.1.conduits.hasKey ("c_" ++ cid ++ "_" ++
            toString (p.1.conduits.length + 1) ++ "_" ++ toString p.2.1) = false := by
          cases hk : p.1.conduits.hasKey ("c_" ++ cid ++ "_" ++
              toString (p.1.conduits.length + 1) ++ "_" ++ toString p.2.1)
          · rfl
          · rw [hk] at h2'
            simp at h2'
        exact connected_new p.1 ⟨"c_" ++ cid ++ "_" ++
          toString (p.1.conduits.length + 1) ++ "_" ++ toString p.2.1,
          uv.1, uv.2, Q.zero, [], some cid⟩ cid hfresh rfl
    · exact ih _ hb uv hm2

theorem samePhys_refl (a : CircuitSystem) : samePhys a a := ⟨rfl, rfl, rfl⟩

theorem samePhys_trans {a b c : CircuitSystem} (h1 : samePhys a b)
    (h2 : samePhys b c) : samePhys a c :=
  ⟨h1.1.trans h2.1, h1.2.1.trans h2.2.1, h1.2.2.trans h2.2.2⟩

theorem matFold_phys (cid : String) : ∀ (E : List (String × String))
    (p : CircuitSystem × Nat × Bool),
    samePhys (E.foldl (materializeEdgeChk cid) p).1 p.1 := by
  intro E
  induction E with
  | nil => exact fun p => samePhys_refl p.1
  | cons uv E ih =>
    intro p
    simp only [List.foldl_cons]
    refine samePhys_trans (ih _) ?_
    by_cases hcn : connectedSameCircuit p.1 cid uv.1 uv.2 = true
    · simp only [materializeEdgeChk, if_pos hcn]
      exact samePhys_refl p.1
    · simp only [materializeEdgeChk, if_neg hcn]
      exact add_conduit_frame p.1 _

theorem mstNodes_congr (a b : CircuitSystem) (h : a.nodes = b.nodes) (c : Circuit) :
    mstNodes a c = mstNodes b c := by
  simp only [mstNodes, h]

theorem genMstEdges_congr (a b : CircuitSystem) (h : a.nodes = b.nodes)
    (c : Circuit) : genMstEdges a c = genMstEdges b c := by
  simp only [genMstEdges, mstNodes_congr a b h]

theorem connectors_congr (a b : CircuitSystem) (hn : a.nodes = b.nodes)
    (hu : a.units = b.units) (c : Circuit) :
    (PyDict.values a.units |>.filterMap (connectorFor a c)) =
      (PyDict.values b.units |>.filterMap (connectorFor b c)) := by
  rw [hu]
  apply List.filterMap_congr
  intro u _
  simp only [connectorFor, hn]

theorem genCircuitChk_bool (p : CircuitSystem × Nat × Bool) (c : Circuit)
    (h : (genCircuitChk p c).2.2 = true) : p.2.2 = true := by
  revert h
  by_cases hlen : (mstNodes p.1 c).length < 2
  · simp only [genCircuitChk, if_pos hlen]
    exact fun h => h
  · simp only [genCircuitChk, if_neg hlen]
    intro h
    have h' : (((PyDict.values p.1.units).filterMap (connectorFor p.1 c)).foldl
        (materializeEdgeChk c.id)
        ((genMstEdges p.1 c).foldl (materializeEdgeChk c.id) (p.1, 0, p.2.2))).2.2
        = true := h
    exact matFold_bool c.id (genMstEdges p.1 c) (p.1, 0, p.2.2)
      (matFold_bool c.id ((PyDict.values p.1.units).filterMap (connectorFor p.1 c))
        ((genMstEdges p.1 c).foldl (materializeEdgeChk c.id) (p.1, 0, p.2.2)) h')

theorem genCircuitChk_phys (p : CircuitSystem × Nat × Bool) (c : Circuit) :
    samePhys (genCircuitChk p c).1 p.1 := by
  by_cases hlen : (mstNodes p.1 c).length < 2
  · simp only [genCircuitChk, if_pos hlen]
    exact samePhys_refl p.1
  · simp only [genCircuitChk, if_neg hlen]
    exact samePhys_trans
      (matFold_phys c.id ((PyDict.values p.1.units).filterMap (connectorFor p.1 c))
        ((genMstEdges p.1 c).foldl (materializeEdgeChk c.id) (p.1, 0, p.2.2)))
      (matFold_phys c.id (genMstEdges p.1 c) (p.1, 0, p.2.2))

theorem genCircuitChk_persist (p : CircuitSystem × Nat × Bool) (c : Circuit)
    (cid0 u v : String) (hb : (genCircuitChk p c).2.2 = true)
    (h : connectedSameCircuit p.1 cid0 u v = true) :
    connectedSameCircuit (genCircuitChk p c).1 cid0 u v = true := by
  revert hb
  by_cases hlen : (mstNodes p.1 c).length < 2
  · simp only [genCircuitChk, if_pos hlen]
    exact fun _ => h
  · simp only [genCircuitChk, if_neg hlen]
    intro hb
    have hb' : (((PyDict.values p.1.units).filterMap (connectorFor p.1 c)).foldl
        (materializeEdgeChk c.id)
        ((genMstEdges p.1 c).foldl (materializeEdgeChk c.id) (p.1, 0, p.2.2))).2.2
        = true := hb
    have hqb := matFold_bool c.id
      ((PyDict.values p.1.units).filterMap (connectorFor p.1 c))
      ((genMstEdges p.1 c).foldl (materializeEdgeChk c.id) (p.1, 0, p.2.2)) hb'
    have hq := matFold_persist c.id (genMstEdges p.1 c) (p.1, 0, p.2.2) cid0 u v hqb h
    exact matFold_persist c.id
      ((PyDict.values p.1.units).filterMap (connectorFor p.1 c))
      ((genMstEdges p.1 c).foldl (materializeEdgeChk c.id) (p.1, 0, p.2.2))
      cid0 u v hb' hq

theorem genCircuitChk_covers (p : CircuitSystem × Nat × Bool) (c : Circuit)
    (hb : (genCircuitChk p c).2.2 = true)
    (hlen : ¬ (mstNodes p.1 c).length < 2) :
    ∀ uv ∈ genMstEdges p.1 c ++
      (PyDict.values p.1.units |>.filterMap (connectorFor p.1 c)),
      connectedSameCircuit (genCircuitChk p c).1 c.id uv.1 uv.2 = true := by
  revert hb
  simp only [genCircuitChk, if_neg hlen]
  intro hb uv hm
  have hb' : (((PyDict.values p.1.units).filterMap (connectorFor p.1 c)).foldl
      (materializeEdgeChk c.id)
      ((genMstEdges p.1 c).foldl (materializeEdgeChk c.id) (p.1, 0, p.2.2))).2.2
      = true := hb
  rcases List.mem_append.mp hm with hmst | hconn
  · have hqb := matFold_bool c.id
      ((PyDict.values p.1.units).filterMap (connectorFor p.1 c))
      ((genMstEdges p.1 c).foldl (materializeEdgeChk c.id) (p.1, 0, p.2.2)) hb'
    have hq := matFold_covers c.id (genMstEdges p.1 c) (p.1, 0, p.2.2) hqb uv hmst
    exact matFold_persist c.id
      ((PyDict.values p.1.units).filterMap (connectorFor p.1 c))
      ((genMstEdges p.1 c).foldl (materializeEdgeChk c.id) (p.1, 0, p.2.2))
      c.id uv.1 uv.2 hb' hq
  · exact matFold_covers c.id
      ((PyDict.values p.1.units).filterMap (connectorFor p.1 c))
      ((genMstEdges p.1 c).foldl (materializeEdgeChk c.id) (p.1, 0, p.2.2))
      hb' uv hconn

theorem genFoldChk_bool : ∀ (C : List Circuit) (p : CircuitSystem × Nat × Bool),
    (C.foldl genCircuitChk p).2.2 = true → p.2.2 = true := by
  intro C
  induction C with
  | nil => exact fun p h => h
  | cons c C ih =>
    intro p h
    simp only [List.foldl_cons] at h
    exact genCircuitChk_bool p c (ih _ h)

theorem genFoldChk_phys : ∀ (C : List Circuit) (p : CircuitSystem × Nat × Bool),
    samePhys (C.foldl genCircuitChk p).1 p.1 := by
  intro C
  induction C with
  | nil => exact fun p => samePhys_refl p.1
  | cons c C ih =>
    intro p
    simp only [List.foldl_cons]
    exact samePhys_trans (ih _) (genCircuitChk_phys p c)

theorem genFoldChk_persist : ∀ (C : List Circuit) (p : CircuitSystem × Nat × Bool)
    (cid0 u v : String), (C.foldl genCircuitChk p).2.2 = true →
    connectedSameCircuit p.1 cid0 u v = true →
    connectedSameCircuit (C.foldl genCircuitChk p).1 cid0 u v = true := by
  intro C
  induction C with
  | nil => exact fun p cid0 u v _ h => h
  | cons c C ih =>
    intro p cid0 u v hb h
    simp only [List.foldl_cons] at hb ⊢
    exact ih _ cid0 u v hb
      (genCircuitChk_persist p c cid0 u v (genFoldChk_bool C _ hb) h)

theorem genFoldChk_covers : ∀ (C : List Circuit) (p : CircuitSystem × Nat × Bool),
    (C.foldl genCircuitChk p).2.2 = true →
    ∀ c ∈ C, ¬ (mstNodes p.1 c).length < 2 →
    ∀ uv ∈ genMstEdges p.1 c ++
      (PyDict.values p.1.units |>.filterMap (connectorFor p.1 c)),
      connectedSameCircuit (C.foldl genCircuitChk p).1 c.id uv.1 uv.2 = true := by
  intro C
  induction C with
  | nil => exact fun p _ c hc => absurd hc (List.not_mem_nil c)
  | cons c0 C ih =>
    intro p hb c hc hlen uv hm
    simp only [List.foldl_cons] at hb ⊢
    rcases List.mem_cons.mp hc with he | hc2
    · subst he
      have hcov := genCircuitChk_covers p c (genFoldChk_bool C _ hb) hlen uv hm
      exact genFoldChk_persist C _ c.id uv.1 uv.2 hb hcov
    · have hphys := genCircuitChk_phys p c0
      refine ih (genCircuitChk p c0) hb c hc2 ?_ uv ?_
      · rw [mstNodes_congr _ p.1 hphys.1 c]
        exact hlen
      · rw [genMstEdges_congr _ p.1 hphys.1 c,
          connectors_congr _ p.1 hphys.1 hphys.2.1 c]
        exact hm

theorem matFold_id (cid : String) : ∀ (E : List (String × String))
    (p : CircuitSystem × Nat),
    (∀ uv ∈ E, connectedSameCircuit p.1 cid uv.1 uv.2 = true) →
    E.foldl (materializeEdge cid) p = p := by
  intro E
  induction E with
  | nil => exact fun p _ => rfl
  | cons uv E ih =>
    intro p h
    simp only [List.foldl_cons]
    have hskip : materializeEdge cid p uv = p := by
      simp only [materializeEdge, if_pos (h uv (List.mem_cons_self uv E))]
    rw [hskip]
    exact ih p (fun x hx => h x (List.mem_cons_of_mem uv hx))

theorem genCircuit_id (p : CircuitSystem × Nat) (c : Circuit)
    (h : ¬ (mstNodes p.1 c).length < 2 →
      ∀ uv ∈ genMstEdges p.1 c ++
        (PyDict.values p.1.units |>.filterMap (connectorFor p.1 c)),
        connectedSameCircuit p.1 c.id uv.1 uv.2 = true) :
    genCircuit p c = p := by
  by_cases hlen : (mstNodes p.1 c).length < 2
  · simp only [genCircuit, if_pos hlen]
  · simp only [genCircuit, if_neg hlen]
    have hall := h hlen
    have hq : (genMstEdges p.1 c).foldl (materializeEdge c.id) (p.1, 0) = (p.1, 0) :=
      matFold_id c.id _ (p.1, 0)
        (fun uv hm => hall uv (List.mem_append.mpr (Or.inl hm)))
    rw [hq]
    have hr : ((PyDict.values p.1.units).filterMap (connectorFor p.1 c)).foldl
        (materializeEdge c.id) (p.1, 0) = (p.1, 0) :=
      matFold_id c.id _ (p.1, 0)
        (fun uv hm => hall uv (List.mem_append.mpr (Or.inr hm)))
    rw [hr]
    rfl

theorem genFold_id (s1 : CircuitSystem) : ∀ (C : List Circuit) (k : Nat),
    (∀ c ∈ C, ¬ (mstNodes s1 c).length < 2 →
      ∀ uv ∈ genMstEdges s1 c ++
        (PyDict.values s1.units |>.filterMap (connectorFor s1 c)),
        connectedSameCircuit s1 c.id uv.1 uv.2 = true) →
    C.foldl genCircuit (s1, k) = (s1, k) := by
  intro C
  induction C with
  | nil => exact fun _ _ => rfl
  | cons c C ih =>
    intro k h
    simp only [List.foldl_cons]
    rw [genCircuit_id (s1, k) c (h c (List.mem_cons_self c C))]
    exact ih k (fun c2 hc2 => h c2 (List.mem_cons_of_mem c hc2))

theorem materializeEdgeChk_proj (cid : String) (s : CircuitSystem) (k : Nat)
    (b : Bool) (uv : String × String) :
    ((materializeEdgeChk cid (s, k, b) uv).1,
      (materializeEdgeChk cid (s, k, b) uv).2.1)
      = materializeEdge cid (s, k) uv := by
  by_cases hcn : connectedSameCircuit s cid uv.1 uv.2 = true
  · simp only [materializeEdgeChk, materializeEdge, if_pos hcn]
  · simp only [materializeEdgeChk, materializeEdge, if_neg hcn]

theorem matFold_proj (cid : String) : ∀ (E : List (String × String))
    (s : CircuitSystem) (k : Nat) (b : Bool),
    ((E.foldl (materializeEdgeChk cid) (s, k, b)).1,
      (E.foldl (materializeEdgeChk cid) (s, k, b)).2.1)
      = E.foldl (materializeEdge cid) (s, k) := by
  intro E
  induction E with
  | nil => exact fun s k b => rfl
  | cons uv E ih =>
    intro s k b
    simp only [List.foldl_cons]
    rw [← materializeEdgeChk_proj cid s k b uv]
    have h2 := ih (materializeEdgeChk cid (s, k, b) uv).1
      (materializeEdgeChk cid (s, k, b) uv).2.1
      (materializeEdgeChk cid (s, k, b) uv).2.2
    exact h2

theorem genCircuitChk_proj (s : CircuitSystem) (k : Nat) (b : Bool) (c : Circuit) :
    ((genCircuitChk (s, k, b) c).1, (genCircuitChk (s, k, b) c).2.1)
      = genCircuit (s, k) c := by
  by_cases hlen : (mstNodes s c).length < 2
  · simp only [genCircuitChk, genCircuit, if_pos hlen]
  · simp only [genCircuitChk, genCircuit, if_neg hlen]
    have hq := matFold_proj c.id (genMstEdges s c) s 0 b
    rw [← hq]
    have hr := matFold_proj c.id
      ((PyDict.values s.units).filterMap (connectorFor s c))
      ((genMstEdges s c).foldl (materializeEdgeChk c.id) (s, 0, b)).1
      ((genMstEdges s c).foldl (materializeEdgeChk c.id) (s, 0, b)).2.1
      ((genMstEdges s c).foldl (materializeEdgeChk c.id) (s, 0, b)).2.2
    rw [← hr]

theorem genFold_proj : ∀ (C : List Circuit) (s : CircuitSystem) (k : Nat) (b : Bool),
    ((C.foldl genCircuitChk (s, k, b)).1, (C.foldl genCircuitChk (s, k, b)).2.1)
      = C.foldl genCircuit (s, k) := by
  intro C
  induction C with
  | nil => exact fun s k b => rfl
  | cons c C ih =>
    intro s k b
    simp only [List.foldl_cons]
    rw [← genCircuitChk_proj s k b c]
    exact ih (genCircuitChk (s, k, b) c).1 (genCircuitChk (s, k, b) c).2.1
      (genCircuitChk (s, k, b) c).2.2

theorem generate_chk_proj (s : CircuitSystem) :
    ((generate_chk s).1, (generate_chk s).2.1) = generate_mst_topology s := by
  by_cases hc : s.circuits.isEmpty = true
  · simp only [generate_chk, generate_mst_topology, if_pos hc]
  · simp only [generate_chk, generate_mst_topology, if_neg hc]
    exact genFold_proj _ s 0 true

theorem generate_of_covers (t : CircuitSystem)
    (hallconn : ∀ c ∈ PyDict.values t.circuits, ¬ (mstNodes t c).length < 2 →
      ∀ uv ∈ genMstEdges t c ++
        (PyDict.values t.units |>.filterMap (connectorFor t c)),
        connectedSameCircuit t c.id uv.1 uv.2 = true) :
    generate_mst_topology t = (t, 0) := by
  by_cases hc : t.circuits.isEmpty = true
  · simp only [generate_mst_topology, if_pos hc]
  · simp only [generate_mst_topology, if_neg hc]
    exact genFold_id t _ 0 hallconn

/-- Claim C8 (amended): provided the first generation run never
constructs a conduit id colliding with an existing one (genNoClobber —
a collision overwrites the stored conduit and can disconnect a
previously-connected pair), topology generation is idempotent: every
pair the first run connected is still connected afterwards, so the
second run finds every MST edge and connector edge already covered, adds
nothing, returns total 0 and leaves the system exactly as the first run
left it. -/
theorem c8_amended (s : CircuitSystem) (h : genNoClobber s = true) :
    generate_mst_topology ((generate_mst_topology s).1) =
      ((generate_mst_topology s).1, 0) := by
  by_cases hc : s.circuits.isEmpty = true
  · have h1 : generate_mst_topology s = (s, 0) := by
      simp only [generate_mst_topology, if_pos hc]
    rw [h1]
    exact h1
  · have hs1 : (generate_chk s).1 = (generate_mst_topology s).1 := by
      rw [← generate_chk_proj s]
    have hchk : generate_chk s = (PyDict.values s.circuits).foldl genCircuitChk
        (s, 0, true) := by
      simp only [generate_chk, if_neg hc]
    have hb : ((PyDict.values s.circuits).foldl genCircuitChk (s, 0, true)).2.2
        = true := by
      rw [← hchk]
      exact h
    have hphys : samePhys (generate_chk s).1 s := by
      rw [hchk]
      exact genFoldChk_phys _ _
    apply generate_of_covers
    intro c hcmem hlen uv hm
    rw [← hs1] at hcmem hlen hm ⊢
    have hcmem2 : c ∈ PyDict.values s.circuits := by
      rw [← hphys.2.2]
      exact hcmem
    have hlen2 : ¬ (mstNodes s c).length < 2 := by
      rw [← mstNodes_congr (generate_chk s).1 s hphys.1 c]
      exact hlen
    have hm2 : uv ∈ genMstEdges s c ++
        (PyDict.values s.units |>.filterMap (connectorFor s c)) := by
      rw [← genMstEdges_congr (generate_chk s).1 s hphys.1 c,
        ← connectors_congr (generate_chk s).1 s hphys.1 hphys.2.1 c]
      exact hm
    have hfin := genFoldChk_covers (PyDict.values s.circuits) (s, 0, true) hb
      c hcmem2 hlen2 uv hm2
    rw [hchk]
    exact hfin

set_option maxRecDepth 40000 in
/-- Claim C8, witness: on c7sys (whose first run performs no id
collision) the second generation run returns the first run's state
unchanged with total 0. -/
theorem c8_witness :
    generate_mst_topology ((generate_mst_topology c7sys).1) =
      ((generate_mst_topology c7sys).1, 0) :=
  c8_amended c7sys (by decide)

/-! ## Claim C9: generic dict-relation machinery -/

theorem dictRel_keys {α β : Type} {R : String → α → β → Prop}
    {d : PyDict α} {d2 : PyDict β} (h : dictRel R d d2) :
    PyDict.keys d2 = PyDict.keys d := by
  induction h with
  | nil => rfl
  | cons hpq htail ih =>
    simp only [PyDict.keys, List.map_cons] at ih ⊢
    rw [hpq.1, ih]

theorem dictRel_find {α β : Type} {R : String → α → β → Prop}
    {d : PyDict α} {d2 : PyDict β} (h : dictRel R d d2) (k : String) :
    (d.find k = none ∧ d2.find k = none) ∨
    (∃ a b, d.find k = some a ∧ d2.find k = some b ∧ R k a b) := by
  induction h with
  | nil => exact Or.inl ⟨rfl, rfl⟩
  | cons hpq htail ih =>
    rename_i p q l1 l2
    by_cases hk : p.1 = k
    · right
      refine ⟨p.2, q.2, ?_, ?_, ?_⟩
      · simp [PyDict.find, hk]
      · simp [PyDict.find, hpq.1, hk]
      · rw [← hk]
        exact hpq.2
    · have hq : ¬ q.1 = k := by rw [hpq.1]; exact hk
      rcases ih with ⟨h1, h2⟩ | ⟨a, b, h1, h2, hR⟩
      · left
        constructor
        · simp [PyDict.find, hk, h1]
        · simp [PyDict.find, hq, h2]
      · right
        exact ⟨a, b, by simp [PyDict.find, hk, h1], by simp [PyDict.find, hq, h2], hR⟩

theorem dictRel_insert {α β : Type} {R : String → α → β → Prop}
    {d : PyDict α} {d2 : PyDict β} (h : dictRel R d d2) (k : String)
    {v : α} {w : β} (hvw : R k v w) :
    dictRel R (d.insert k v) (d2.insert k w) := by
  induction h with
  | nil => exact List.Forall₂.cons ⟨rfl, hvw⟩ List.Forall₂.nil
  | cons hpq htail ih =>
    rename_i p q l1 l2
    by_cases hk : p.1 = k
    · have hq : q.1 = k := hpq.1.trans hk
      have h1 : PyDict.insert (p :: l1) k v = (k, v) :: l1 := by
        simp [PyDict.insert, hk]
      have h2 : PyDict.insert (q :: l2) k w = (k, w) :: l2 := by
        simp [PyDict.insert, hq]
      rw [h1, h2]
      exact List.Forall₂.cons ⟨rfl, hvw⟩ htail
    · have hq : ¬ q.1 = k := by rw [hpq.1]; exact hk
      have h1 : PyDict.insert (p :: l1) k v = p :: PyDict.insert l1 k v := by
        simp [PyDict.insert, hk]
      have h2 : PyDict.insert (q :: l2) k w = q :: PyDict.insert l2 k w := by
        simp [PyDict.insert, hq]
      rw [h1, h2]
      exact List.Forall₂.cons hpq ih

theorem dictRel_refl {α : Type} {R : String → α → α → Prop}
    (hr : ∀ k a, R k a a) : ∀ (d : PyDict α), dictRel R d d := by
  intro d
  induction d with
  | nil => exact List.Forall₂.nil
  | cons p t ih => exact List.Forall₂.cons ⟨rfl, hr p.1 p.2⟩ ih

theorem dictRel_comp {α β γ : Type} {R1 : String → α → β → Prop}
    {R2 : String → β → γ → Prop} {R3 : String → α → γ → Prop}
    (hc : ∀ k a b c, R1 k a b → R2 k b c → R3 k a c) :
    ∀ {d : PyDict α} {d2 : PyDict β} {d3 : PyDict γ},
      dictRel R1 d d2 → dictRel R2 d2 d3 → dictRel R3 d d3 := by
  intro d d2 d3 h1 h2
  induction h1 generalizing d3 with
  | nil =>
    cases h2
    exact List.Forall₂.nil
  | cons hpq htail ih =>
    cases h2 with
    | cons hqr htl2 =>
      refine List.Forall₂.cons ⟨hqr.1.trans hpq.1, ?_⟩ (ih htl2)
      exact hc _ _ _ _ hpq.2 (hpq.1 ▸ hqr.2)

theorem dictRel_mono {α β : Type} {R R2 : String → α → β → Prop}
    (himp : ∀ k a b, R k a b → R2 k a b) :
    ∀ {d : PyDict α} {d2 : PyDict β}, dictRel R d d2 → dictRel R2 d d2 := by
  intro d d2 h
  induction h with
  | nil => exact List.Forall₂.nil
  | cons hpq htail ih =>
    exact List.Forall₂.cons ⟨hpq.1, himp _ _ _ hpq.2⟩ ih

theorem dictRel_values {α β : Type} {R : String → α → β → Prop}
    {d : PyDict α} {d2 : PyDict β} (h : dictRel R d d2) :
    List.Forall₂ (fun a b => ∃ k, R k a b) (PyDict.values d) (PyDict.values d2) := by
  induction h with
  | nil => exact List.Forall₂.nil
  | cons hpq htail ih => exact List.Forall₂.cons ⟨_, hpq.2⟩ ih

theorem dictRel_insert_found {α : Type} {R : String → α → α → Prop}
    (hrefl : ∀ k a, R k a a) {d : PyDict α} {k : String} {c : α}
    (hf : d.find k = some c) {c2 : α} (hc : R k c c2) :
    dictRel R d (d.insert k c2) := by
  induction d with
  | nil => exact Option.noConfusion hf
  | cons p t ih =>
    by_cases hk : p.1 = k
    · have h1 : PyDict.insert (p :: t) k c2 = (k, c2) :: t := by
        simp [PyDict.insert, hk]
      rw [h1]
      have hpc : p.2 = c := by
        have h2 : PyDict.find (p :: t) k = some p.2 := by simp [PyDict.find, hk]
        rw [h2] at hf
        exact Option.some.inj hf
      refine List.Forall₂.cons ⟨hk.symm, ?_⟩ (dictRel_refl hrefl t)
      rw [hk, hpc]
      exact hc
    · have h1 : PyDict.insert (p :: t) k c2 = p :: PyDict.insert t k c2 := by
        simp [PyDict.insert, hk]
      rw [h1]
      have hf2 : PyDict.find t k = some c := by
        have h2 : PyDict.find (p :: t) k = PyDict.find t k := by
          simp [PyDict.find, hk]
        rw [h2] at hf
        exact hf
      exact List.Forall₂.cons ⟨rfl, hrefl p.1 p.2⟩ (ih hf2)

theorem foldl_forall2 {α β γ : Type} {R : α → β → Prop} {f : γ → α → γ}
    {f2 : γ → β → γ} (hfa : ∀ g a b, R a b → f2 g b = f g a) :
    ∀ {l : List α} {l2 : List β}, List.Forall₂ R l l2 →
      ∀ g, l2.foldl f2 g = l.foldl f g := by
  intro l l2 h
  induction h with
  | nil => exact fun g => rfl
  | cons hab htail ih =>
    intro g
    simp only [List.foldl_cons]
    rw [hfa g _ _ hab]
    exact ih _

theorem find_of_mem_nodup {α : Type} {d : PyDict α} {k : String} {v : α}
    (hmem : (k, v) ∈ PyDict.entries d) (hnd : (PyDict.keys d).Nodup) :
    d.find k = some v := by
  induction d with
  | nil => cases hmem
  | cons p t ih =>
    rcases List.mem_cons.mp hmem with he | hm
    · rw [← he]
      simp [PyDict.find]
    · have hkeys := List.nodup_cons.mp hnd
      have hk : ¬ p.1 = k := by
        intro hpk
        apply hkeys.1
        show p.1 ∈ List.map (fun x => x.1) t
        rw [hpk]
        exact List.mem_map_of_mem _ hm
      simp only [PyDict.find, hk, if_false, reduceIte]
      exact ih hm hkeys.2

/-! ## Claim C9: basic facts about the evolution relations -/

theorem bindLe_refl (a : Option String) : bindLe a a := by
  cases a
  · exact trivial
  · exact rfl

theorem bindLe_trans {a b c : Option String} (h1 : bindLe a b) (h2 : bindLe b c) :
    bindLe a c := by
  cases a
  · exact trivial
  · rw [h1] at h2
    exact h2

theorem condLe_refl (c : Conduit) : condLe c c :=
  ⟨rfl, rfl, rfl, rfl, bindLe_refl _⟩

theorem condLe_trans {a b c : Conduit} (h1 : condLe a b) (h2 : condLe b c) :
    condLe a c :=
  ⟨h2.1.trans h1.1, h2.2.1.trans h1.2.1, h2.2.2.1.trans h1.2.2.1,
   h2.2.2.2.1.trans h1.2.2.2.1, bindLe_trans h1.2.2.2.2 h2.2.2.2.2⟩

theorem nodeSync_refl (a : Node) : nodeSync a a := ⟨rfl, fun _ => rfl⟩

theorem nodeSync_trans {a b c : Node} (h1 : nodeSync a b) (h2 : nodeSync b c) :
    nodeSync a c := by
  refine ⟨?_, ?_⟩
  · calc c = { b with rated_current := c.rated_current } := h2.1
      _ = { a with rated_current := c.rated_current } := by rw [h1.1]
  · intro ht
    have hb : b = a := h1.2 ht
    have hc : c = b := h2.2 (by rw [hb]; exact ht)
    rw [hc, hb]

theorem evolves_refl (x : CircuitSystem) : evolves x x :=
  ⟨dictRel_refl (fun _ a => condLe_refl a) _,
   dictRel_refl (fun _ a => nodeSync_refl a) _, rfl, rfl, rfl, rfl, rfl, rfl⟩

theorem evolves_trans {x y z : CircuitSystem} (h1 : evolves x y) (h2 : evolves y z) :
    evolves x z := by
  refine ⟨?_, ?_, h2.2.2.1.trans h1.2.2.1, h2.2.2.2.1.trans h1.2.2.2.1,
    h2.2.2.2.2.1.trans h1.2.2.2.2.1, h2.2.2.2.2.2.1.trans h1.2.2.2.2.2.1,
    h2.2.2.2.2.2.2.1.trans h1.2.2.2.2.2.2.1, h2.2.2.2.2.2.2.2.trans h1.2.2.2.2.2.2.2⟩
  · exact dictRel_comp
      (fun _ (a b c : Conduit) (ha : condLe a b) (hb : condLe b c) =>
        condLe_trans ha hb) h1.1 h2.1
  · exact dictRel_comp
      (fun _ (a b c : Node) (ha : nodeSync a b) (hb : nodeSync b c) =>
        nodeSync_trans ha hb) h1.2.1 h2.2.1

/-! ## Claim C9: every calculate component evolves the state (conduit
bindings monotone, nodes changed only at switch rated currents, all
other fields fixed) -/

theorem ok_inj {σ : Type} {a b : σ} (h : (Res.ok a : Res σ) = .ok b) : a = b := by
  injection h

theorem evolves_of_ok_eq {x x' : CircuitSystem}
    (h : (Res.ok x : Res CircuitSystem) = .ok x') : evolves x x' := by
  rw [← ok_inj h]
  exact evolves_refl x

theorem evolves_insert_conduit {x : CircuitSystem} {k : String} {c c2 : Conduit}
    (hf : x.conduits.find k = some c) (hc : condLe c c2) :
    evolves x { x with conduits := x.conduits.insert k c2 } :=
  ⟨dictRel_insert_found (fun _ a => condLe_refl a) hf hc,
   dictRel_refl (fun _ a => nodeSync_refl a) _, rfl, rfl, rfl, rfl, rfl, rfl⟩

theorem evolves_insert_node {x : CircuitSystem} {k : String} {n n2 : Node}
    (hf : x.nodes.find k = some n) (hn : nodeSync n n2) :
    evolves x { x with nodes := x.nodes.insert k n2 } :=
  ⟨dictRel_refl (fun _ a => condLe_refl a) _,
   dictRel_insert_found (fun _ a => nodeSync_refl a) hf hn, rfl, rfl, rfl, rfl, rfl, rfl⟩

theorem get_conduit_entry_find {s : CircuitSystem} {u v key : String}
    {conduit : Conduit} (h : s.get_conduit_entry u v = some (key, conduit)) :
    s.conduits.find key = some conduit := by
  simp only [CircuitSystem.get_conduit_entry] at h
  cases hadj : PyDict.find ((s.adj.find u).getD []) v with
  | none =>
    simp only [hadj] at h
    exact Option.noConfusion h
  | some cid0 =>
    simp only [hadj] at h
    cases hc : s.conduits.find cid0 with
    | none =>
      simp only [hc, Option.map_none'] at h
      exact Option.noConfusion h
    | some c =>
      simp only [hc, Option.map_some'] at h
      injection h with h2
      injection h2 with h3 h4
      rw [← h3, ← h4]
      exact hc

theorem add_wire_condLe {c : Conduit} {arg : WireArg} {count : Nat}
    {uid cidArg : Option String} {c' : Conduit}
    (h : Conduit.add_wire c arg count uid cidArg = .ok c') : condLe c c' := by
  revert h
  simp only [Conduit.add_wire]
  split
  · split
    · next hb =>
      cases arg with
      | ofType wt =>
        intro h
        injection h with h2
        subst h2
        refine ⟨rfl, rfl, rfl, rfl, ?_⟩
        rw [hb]
        exact trivial
      | ofWire w =>
        intro h
        injection h with h2
        subst h2
        refine ⟨rfl, rfl, rfl, rfl, ?_⟩
        rw [hb]
        exact trivial
    · next bound hb =>
      split
      · cases arg with
        | ofType wt =>
          intro h
          injection h with h2
          subst h2
          exact ⟨rfl, rfl, rfl, rfl, bindLe_refl _⟩
        | ofWire w =>
          intro h
          injection h with h2
          subst h2
          exact ⟨rfl, rfl, rfl, rfl, bindLe_refl _⟩
      · intro h
        exact Res.noConfusion h
  · cases arg with
    | ofType wt =>
      intro h
      injection h with h2
      subst h2
      exact ⟨rfl, rfl, rfl, rfl, bindLe_refl _⟩
    | ofWire w =>
      intro h
      injection h with h2
      subst h2
      exact ⟨rfl, rfl, rfl, rfl, bindLe_refl _⟩

theorem foldRes_evolves {α : Type} {body : CircuitSystem → α → Res CircuitSystem}
    (hbody : ∀ x a x', body x a = .ok x' → evolves x x') :
    ∀ (l : List α) (x x' : CircuitSystem),
      foldRes body l x = .ok x' → evolves x x' := by
  intro l
  induction l with
  | nil =>
    intro x x' h
    exact evolves_of_ok_eq h
  | cons a l ih =>
    intro x x' h
    simp only [foldRes] at h
    cases hb : body x a with
    | ok x1 =>
      rw [hb] at h
      exact evolves_trans (hbody x a x1 hb) (ih x1 x' h)
    | err e x1 =>
      rw [hb] at h
      exact Res.noConfusion h

theorem foldl_evolves {α : Type} {body : CircuitSystem → α → CircuitSystem}
    (hbody : ∀ x a, evolves x (body x a)) :
    ∀ (l : List α) (x : CircuitSystem), evolves x (l.foldl body x) := by
  intro l
  induction l with
  | nil => exact fun x => evolves_refl x
  | cons a l ih =>
    intro x
    exact evolves_trans (hbody x a) (ih (body x a))

theorem addWiresToPath_evolves {s : CircuitSystem} {path : List String}
    {wt : WireType} {uid cid : Option String} {s' : CircuitSystem}
    (h : addWiresToPath s path wt uid cid = .ok s') : evolves s s' := by
  refine foldRes_evolves ?_ (pathPairs path) s s' h
  intro x a x' hb
  cases hg : x.get_conduit_entry a.1 a.2 with
  | none =>
    simp only [hg] at hb
    exact evolves_of_ok_eq hb
  | some kc =>
    obtain ⟨key, conduit⟩ := kc
    simp only [hg] at hb
    cases ha : conduit.add_wire (.ofType wt) 1 uid (orStr cid (some x.circuit_id)) with
    | ok c2 =>
      simp only [ha] at hb
      rw [← ok_inj hb]
      exact evolves_insert_conduit (get_conduit_entry_find hg) (add_wire_condLe ha)
    | err e c2 =>
      simp only [ha] at hb
      exact Res.noConfusion hb

theorem accumBody_evolves (pick : Wire → Bool) (amt : Q) (x : CircuitSystem)
    (uv : String × String) : evolves x (accumBody pick amt x uv) := by
  cases hg : x.get_conduit_entry uv.1 uv.2 with
  | none =>
    have h : accumBody pick amt x uv = x := by
      simp only [accumBody, hg]
    rw [h]
    exact evolves_refl x
  | some kc =>
    obtain ⟨key, conduit⟩ := kc
    have h : accumBody pick amt x uv = { x with conduits := x.conduits.insert key { conduit with wires := conduit.wires.map (fun w => if pick w then { w with current := w.current.add amt } else w) } } := by
      simp only [accumBody, hg]
    rw [h]
    exact evolves_insert_conduit (get_conduit_entry_find hg)
      ⟨rfl, rfl, rfl, rfl, bindLe_refl _⟩

theorem accumWires_evolves (x : CircuitSystem) (p : List String)
    (pick : Wire → Bool) (amt : Q) : evolves x (accumWires x p pick amt) :=
  foldl_evolves (fun x uv => accumBody_evolves pick amt x uv) (pathPairs p) x

theorem add_wire_ofWire_none_state (c : Conduit) (w : Wire) :
    condLe c ((c.add_wire (.ofWire w) 1 none none).state) := by
  have h : c.add_wire (.ofWire w) 1 none none = .ok { c with wires := appendWires c.id (fun n i cc => mkWireOfWire c.id n i w cc) 1 0 c.wires c.circuit_id } := rfl
  rw [h]
  exact ⟨rfl, rfl, rfl, rfl, bindLe_refl _⟩

theorem step1LayBody_evolves (cid : String) (allowed : List String)
    (x : CircuitSystem) (k : String) :
    evolves x (step1LayBody cid allowed x k) := by
  cases hf : x.conduits.find k with
  | none =>
    have h : step1LayBody cid allowed x k = x := by
      simp only [step1LayBody, hf]
    rw [h]
    exact evolves_refl x
  | some conduit =>
    cases hu : x.nodes.find conduit.start_node_id with
    | none =>
      have h : step1LayBody cid allowed x k = x := by
        simp only [step1LayBody, hf, hu]
      rw [h]
      exact evolves_refl x
    | some u =>
      cases hv : x.nodes.find conduit.end_node_id with
      | none =>
        have h : step1LayBody cid allowed x k = x := by
          simp only [step1LayBody, hf, hu, hv]
        rw [h]
        exact evolves_refl x
      | some v =>
        by_cases hsw : u.node_type = NodeType.SWITCH ∨ v.node_type = NodeType.SWITCH
        · have h : step1LayBody cid allowed x k = x := by
            simp only [step1LayBody, hf, hu, hv, if_pos hsw]
          rw [h]
          exact evolves_refl x
        · by_cases hal : (allowed.contains u.id && allowed.contains v.id) = true
          · have h : step1LayBody cid allowed x k = { x with conduits := x.conduits.insert k ((((conduit.add_wire (.ofWire ⟨conduit.id ++ "-auto-N", .N, none, some cid, Q.zero, [], ""⟩) 1 none none).state).add_wire (.ofWire ⟨conduit.id ++ "-auto-PE", .PE, none, some cid, Q.zero, [], ""⟩) 1 none none).state) } := by
              simp only [step1LayBody, hf, hu, hv, if_neg hsw, if_pos hal]
            rw [h]
            exact evolves_insert_conduit hf
              (condLe_trans (add_wire_ofWire_none_state _ _)
                (add_wire_ofWire_none_state _ _))
          · have h : step1LayBody cid allowed x k = x := by
              simp only [step1LayBody, hf, hu, hv, if_neg hsw, if_neg hal]
            rw [h]
            exact evolves_refl x

theorem step1_lay_evolves (x : CircuitSystem) (cid : String) (allowed : List String) :
    evolves x (step1_lay x cid allowed) :=
  foldl_evolves (fun x k => step1LayBody_evolves cid allowed x k)
    (PyDict.keys x.conduits) x

theorem bind_ok {r : Res CircuitSystem} {f : CircuitSystem → Res CircuitSystem}
    {x' : CircuitSystem} (h : r.bind f = .ok x') :
    ∃ s1, r = .ok s1 ∧ f s1 = .ok x' := by
  cases r with
  | ok s => exact ⟨s, rfl, h⟩
  | err e s => exact Res.noConfusion h

theorem step1AccumBody_evolves (g : Graph) (dbid cid : String)
    (allowed : List String) (x : CircuitSystem) (dev : Node) (x' : CircuitSystem)
    (h : step1AccumBody g dbid cid allowed x dev = .ok x') : evolves x x' := by
  revert h
  simp only [step1AccumBody]
  cases nearest_db g x dev.id (some allowed) with
  | raised => exact fun h => Res.noConfusion h
  | noneFound => exact fun h => evolves_of_ok_eq h
  | found db =>
    try dsimp only
    by_cases hdb : db ≠ dbid
    · rw [if_pos hdb]
      exact fun h => evolves_of_ok_eq h
    · rw [if_neg hdb]
      cases (g.subgraph (pyUnion allowed [dbid])).shortest_path dev.id dbid with
      | noPath => exact fun h => evolves_of_ok_eq h
      | nodeNotFound => exact fun h => Res.noConfusion h
      | found d p =>
        intro h
        rw [← ok_inj h]
        exact accumWires_evolves x p _ dev.rated_current

theorem step1_base_evolves (g : Graph) (x : CircuitSystem) (dbid cid : String)
    (allowed : List String) (x' : CircuitSystem)
    (h : step1_lay_base_circuit g x dbid cid allowed = .ok x') : evolves x x' := by
  revert h
  simp only [step1_lay_base_circuit]
  intro h
  exact evolves_trans (step1_lay_evolves x cid allowed)
    (foldRes_evolves (fun y a y' hb => step1AccumBody_evolves g dbid cid allowed y a y' hb)
      _ _ _ h)

theorem lay_mst_evolves {g : Graph} {x : CircuitSystem} {node_ids : List String}
    {anchor : String} {wt : WireType} {uid cid : Option String}
    {allowed : Option (List String)} {x' : CircuitSystem}
    (h : lay_mst_wires_via_conduits g x node_ids anchor wt uid cid allowed = .ok x') :
    evolves x x' := by
  revert h
  simp only [lay_mst_wires_via_conduits]
  by_cases h1 : (pyset (node_ids ++ [anchor])).length < 2
  · rw [if_pos h1]
    exact fun h => evolves_of_ok_eq h
  · rw [if_neg h1]
    cases buildK (match allowed with | none => g | some a => g.subgraph a)
        (ijPairsG (pyset (node_ids ++ [anchor]))) ⟨[], []⟩ with
    | none => exact fun h => Res.noConfusion h
    | some K =>
      try dsimp only
      by_cases h2 : K.edgeCount = 0
      · rw [if_pos h2]
        exact fun h => evolves_of_ok_eq h
      · rw [if_neg h2]
        intro h
        refine foldRes_evolves ?_ _ _ _ h
        intro y uv y' hb
        try dsimp only at hb
        cases hp : (match allowed with | none => g | some a => g.subgraph a).shortest_path
            uv.1 uv.2 with
        | found d p =>
          rw [hp] at hb
          exact addWiresToPath_evolves hb
        | noPath =>
          rw [hp] at hb
          exact evolves_of_ok_eq hb
        | nodeNotFound =>
          rw [hp] at hb
          exact Res.noConfusion hb

theorem step2_evolves {g : Graph} {x : CircuitSystem} {dbid cid : String}
    {allowed : List String} {x' : CircuitSystem}
    (h : step2_lay_uncontrolled_power g x dbid cid allowed = .ok x') :
    evolves x x' := by
  revert h
  simp only [step2_lay_uncontrolled_power]
  by_cases hd : dbid = ""
  · rw [if_pos hd]
    exact fun h => evolves_of_ok_eq h
  · rw [if_neg hd]
    intro h
    refine foldRes_evolves ?_ _ _ _ h
    intro x1 unit x2 hb
    try dsimp only at hb
    by_cases h1 : unit.unit_type ≠ "非受控"
    · rw [if_pos h1] at hb
      exact evolves_of_ok_eq hb
    · rw [if_neg h1] at hb
      by_cases h2 : unit.member_node_ids.isEmpty = true
      · rw [if_pos h2] at hb
        exact evolves_of_ok_eq hb
      · rw [if_neg h2] at hb
        by_cases h3 : ¬ unit.member_node_ids.all (fun m => allowed.contains m) = true
        · rw [if_pos h3] at hb
          exact evolves_of_ok_eq hb
        · rw [if_neg h3] at hb
          obtain ⟨s1, hl, hb2⟩ := bind_ok hb
          try dsimp only at hb2
          refine evolves_trans (lay_mst_evolves hl) ?_
          refine foldRes_evolves ?_ _ _ _ hb2
          intro y1 mid y2 hb3
          try dsimp only at hb3
          cases hp : (build_wire_graph s1 .L_POWER (some cid)).shortest_path mid dbid with
          | found d p =>
            rw [hp] at hb3
            try dsimp only at hb3
            cases hn : y1.nodes.find mid with
            | none =>
              rw [hn] at hb3
              exact evolves_of_ok_eq hb3
            | some member_node =>
              rw [hn] at hb3
              rw [← ok_inj hb3]
              exact accumWires_evolves y1 p _ member_node.rated_current
          | noPath =>
            rw [hp] at hb3
            exact evolves_of_ok_eq hb3
          | nodeNotFound =>
            rw [hp] at hb3
            exact evolves_of_ok_eq hb3

theorem step3AggBody_evolves (cid : String) (allowed : List String)
    (x : CircuitSystem) (nid : String) :
    evolves x (step3AggBody cid allowed x nid) := by
  cases hf : x.nodes.find nid with
  | none =>
    have h : step3AggBody cid allowed x nid = x := by
      simp only [step3AggBody, hf]
    rw [h]
    exact evolves_refl x
  | some switch =>
    by_cases hsw : switch.node_type = NodeType.SWITCH
    · have h : step3AggBody cid allowed x nid = { x with nodes := x.nodes.insert nid { switch with rated_current := controlSum x cid allowed nid } } := by
        simp only [step3AggBody, hf, if_pos hsw]
      rw [h]
      exact evolves_insert_node hf ⟨rfl, fun hn => absurd hsw hn⟩
    · have h : step3AggBody cid allowed x nid = x := by
        simp only [step3AggBody, hf, if_neg hsw]
      rw [h]
      exact evolves_refl x

theorem step3_aggregate_evolves (x : CircuitSystem) (cid : String)
    (allowed : List String) : evolves x (step3_aggregate x cid allowed) :=
  foldl_evolves (fun x nid => step3AggBody_evolves cid allowed x nid)
    (PyDict.keys x.nodes) x

theorem step3_evolves {g : Graph} {x : CircuitSystem} {dbid cid : String}
    {allowed : List String} {x' : CircuitSystem}
    (h : step3_lay_control_wires g x dbid cid allowed = .ok x') :
    evolves x x' := by
  revert h
  simp only [step3_lay_control_wires]
  intro h
  obtain ⟨s1, hl, h2⟩ := bind_ok h
  try dsimp only at h2
  rw [← ok_inj h2]
  refine evolves_trans ?_ (step3_aggregate_evolves s1 cid allowed)
  refine foldRes_evolves ?_ _ _ _ hl
  intro x1 unit x2 hb
  try dsimp only at hb
  by_cases h1 : unit.unit_type ≠ "受控" ∨ ¬ optTruthy unit.control_switch_id
  · rw [if_pos h1] at hb
    exact evolves_of_ok_eq hb
  · rw [if_neg h1] at hb
    by_cases hg2 : ¬ allowed.contains (unit.control_switch_id.getD "") = true
    · rw [if_pos hg2] at hb
      exact evolves_of_ok_eq hb
    · rw [if_neg hg2] at hb
      by_cases hg3 : unit.member_node_ids.isEmpty = true
      · rw [if_pos hg3] at hb
        exact evolves_of_ok_eq hb
      · rw [if_neg hg3] at hb
        by_cases hg4 : ¬ unit.member_node_ids.all (fun m => allowed.contains m) = true
        · rw [if_pos hg4] at hb
          exact evolves_of_ok_eq hb
        · rw [if_neg hg4] at hb
          obtain ⟨s2, hlm, hb2⟩ := bind_ok hb
          try dsimp only at hb2
          refine evolves_trans (lay_mst_evolves hlm) ?_
          refine foldRes_evolves ?_ _ _ _ hb2
          intro y1 mid y2 hb3
          try dsimp only at hb3
          cases hp : (build_wire_graph s2 .L_CONTROL (some cid)).shortest_path mid
              (unit.control_switch_id.getD "") with
          | found d p =>
            rw [hp] at hb3
            try dsimp only at hb3
            cases hn : y1.nodes.find mid with
            | none =>
              rw [hn] at hb3
              exact evolves_of_ok_eq hb3
            | some member_node =>
              rw [hn] at hb3
              rw [← ok_inj hb3]
              exact accumWires_evolves y1 p _ member_node.rated_current
          | noPath =>
            rw [hp] at hb3
            exact evolves_of_ok_eq hb3
          | nodeNotFound =>
            rw [hp] at hb3
            exact evolves_of_ok_eq hb3

theorem step4_loop_evolves (g : Graph) (cid : String) (allowed : List String) :
    ∀ (fuel : Nat) (sources unconnected : List String) (x : CircuitSystem)
      (x' : CircuitSystem) (ws : List String),
      step4_loop g cid allowed fuel sources unconnected x = .ok (x', ws) →
      evolves x x' := by
  intro fuel
  induction fuel with
  | zero =>
    intro sources unc x x' ws h
    have h2 : (Res.ok (x, ([] : List String)) :
        Res (CircuitSystem × List String)) = .ok (x', ws) := h
    injection h2 with h3
    injection h3 with h4 h5
    rw [← h4]
    exact evolves_refl x
  | succ fuel ih =>
    intro sources unc x x' ws h
    revert h
    simp only [step4_loop]
    by_cases he : unc.isEmpty = true
    · rw [if_pos he]
      intro h
      have h2 : (Res.ok (x, ([] : List String)) :
          Res (CircuitSystem × List String)) = .ok (x', ws) := h
      injection h2 with h3
      injection h3 with h4 h5
      rw [← h4]
      exact evolves_refl x
    · rw [if_neg he]
      cases step4_scan (g.subgraph (pyUnion allowed sources)) sources unc none with
      | raised => exact fun h => Res.noConfusion h
      | noneFound =>
        intro h
        have h2 : (Res.ok (x, unc) : Res (CircuitSystem × List String))
            = .ok (x', ws) := h
        injection h2 with h3
        injection h3 with h4 h5
        rw [← h4]
        exact evolves_refl x
      | found sw d p =>
        try dsimp only
        cases haw : (if Q.zero.lt d then addWiresToPath x p .L_POWER none (some cid)
            else .ok x) with
        | err e s2 =>
          exact fun h => Res.noConfusion h
        | ok s2 =>
          intro h
          have hstep : evolves x s2 := by
            by_cases hq : Q.zero.lt d = true
            · rw [if_pos hq] at haw
              exact addWiresToPath_evolves haw
            · rw [if_neg hq] at haw
              exact evolves_of_ok_eq haw
          exact evolves_trans hstep (ih _ _ _ _ _ h)

theorem step4_evolves {g : Graph} {x : CircuitSystem} {dbid cid : String}
    {allowed : List String} {r : CircuitSystem × List String}
    (h : step4_connect_switches_to_power g x dbid cid allowed = .ok r) :
    evolves x r.1 := by
  revert h
  simp only [step4_connect_switches_to_power]
  cases hl : step4_loop g cid allowed
      ((pyset ((x.nodes.values.filter (fun n =>
        n.node_type = NodeType.SWITCH ∧ allowed.contains n.id)).map
          (fun n => n.id))).length + 1)
      (pyset ([dbid] ++
        (x.conduits.values.filter (fun c => c.wires.any (fun w =>
          w.wire_type == WireType.L_POWER && w.circuit_id == some cid))).foldl
          (fun acc c => acc ++ [c.start_node_id, c.end_node_id]) []))
      (pyset ((x.nodes.values.filter (fun n =>
        n.node_type = NodeType.SWITCH ∧ allowed.contains n.id)).map
          (fun n => n.id))) x with
  | err e p => exact fun h => Res.noConfusion h
  | ok p =>
    obtain ⟨s2, warns⟩ := p
    intro h
    rw [← ok_inj h]
    refine evolves_trans (step4_loop_evolves g cid allowed _ _ _ _ _ _ hl) ?_
    refine foldl_evolves ?_ _ _
    intro y sw
    try dsimp only
    by_cases hrc : sw.rated_current.le Q.zero = true
    · rw [if_pos hrc]
      exact evolves_refl y
    · rw [if_neg hrc]
      cases (build_wire_graph s2 .L_POWER (some cid)).shortest_path sw.id dbid with
      | found d p => exact accumWires_evolves y p _ sw.rated_current
      | noPath => exact evolves_refl y
      | nodeNotFound => exact evolves_refl y

theorem runCircuitSteps_evolves {g : Graph} {x : CircuitSystem} {dbid cid : String}
    {allowed : List String} {x' : CircuitSystem}
    (h : runCircuitSteps g x dbid cid allowed = .ok x') : evolves x x' := by
  simp only [runCircuitSteps] at h
  obtain ⟨x1, h1, h⟩ := bind_ok h
  try dsimp only at h
  obtain ⟨x2, h2, h⟩ := bind_ok h
  try dsimp only at h
  obtain ⟨x3, h3, h⟩ := bind_ok h
  try dsimp only at h
  refine evolves_trans (step1_base_evolves g x dbid cid allowed x1 h1)
    (evolves_trans (step2_evolves h2) (evolves_trans (step3_evolves h3) ?_))
  cases h4 : step4_connect_switches_to_power g x3 dbid cid allowed with
  | err e p =>
    rw [h4] at h
    exact Res.noConfusion h
  | ok p =>
    obtain ⟨s4, warns⟩ := p
    rw [h4] at h
    try dsimp only at h
    rw [← ok_inj h]
    exact step4_evolves h4

/-! ## Claim C9: transports and congruences under the lockstep relation -/

theorem nodeSync_fields {a b : Node} (h : nodeSync a b) :
    b.id = a.id ∧ b.node_type = a.node_type ∧ b.x = a.x ∧ b.y = a.y := by
  rw [h.1]
  exact ⟨rfl, rfl, rfl, rfl⟩

theorem condSyncC_fields {tc : PyDict Conduit} {k : String} {c c' : Conduit}
    (h : condSyncC tc k c c') :
    c'.id = c.id ∧ c'.start_node_id = c.start_node_id ∧
    c'.end_node_id = c.end_node_id ∧ c'.length = c.length ∧ c'.wires = c.wires := by
  rw [h.1]
  exact ⟨rfl, rfl, rfl, rfl, rfl⟩

theorem condSyncC_bind {tc : PyDict Conduit} {k : String} {c c' : Conduit}
    (h : condSyncC tc k c c') : c'.circuit_id = bindsOf tc k := by
  rw [h.1]

theorem nodesSynced_keys {flag : Bool} {xn yn : PyDict Node}
    (h : nodesSynced flag xn yn) : PyDict.keys yn = PyDict.keys xn := by
  cases flag with
  | true =>
    have h2 : yn = xn := h
    rw [h2]
  | false =>
    have hd : dictRel (fun _ => nodeSync) xn yn := h
    exact dictRel_keys hd

theorem nodesSynced_find {flag : Bool} {xn yn : PyDict Node}
    (h : nodesSynced flag xn yn) (k : String) :
    (xn.find k = none ∧ yn.find k = none) ∨
    (∃ a b, xn.find k = some a ∧ yn.find k = some b ∧ nodeSync a b ∧
      (flag = true → b = a)) := by
  cases flag with
  | true =>
    have h2 : yn = xn := h
    rw [h2]
    cases hf : xn.find k with
    | none => exact Or.inl ⟨rfl, rfl⟩
    | some a => exact Or.inr ⟨a, a, rfl, rfl, nodeSync_refl a, fun _ => rfl⟩
  | false =>
    have hd : dictRel (fun _ => nodeSync) xn yn := h
    rcases dictRel_find hd k with ⟨h1, h2⟩ | ⟨a, b, h1, h2, hR⟩
    · exact Or.inl ⟨h1, h2⟩
    · exact Or.inr ⟨a, b, h1, h2, hR, fun hf => Bool.noConfusion hf⟩

theorem nodesSynced_values {flag : Bool} {xn yn : PyDict Node}
    (h : nodesSynced flag xn yn) :
    List.Forall₂ (fun a b => nodeSync a b) (PyDict.values xn) (PyDict.values yn) := by
  cases flag with
  | true =>
    have h2 : yn = xn := h
    rw [h2]
    refine List.forall₂_same.mpr ?_
    intro a _
    exact nodeSync_refl a
  | false =>
    have hd : dictRel (fun _ => nodeSync) xn yn := h
    refine (dictRel_values hd).imp ?_
    intro a b hab
    obtain ⟨k, hk⟩ := hab
    exact hk

theorem buildGraph_congr_CR {tc : PyDict Conduit} {flag : Bool}
    {x y : CircuitSystem} (h : CR tc flag x y) : buildGraph y = buildGraph x := by
  simp only [buildGraph]
  rw [foldl_forall2 (fun g a b hab => by rw [(nodeSync_fields hab).1])
    (nodesSynced_values h.1) (⟨[], []⟩ : Graph)]
  refine foldl_forall2 ?_ (dictRel_values h.2.1) _
  intro g c c' hcc
  obtain ⟨k, hk⟩ := hcc
  have hf := condSyncC_fields hk
  rw [hf.2.1, hf.2.2.1, hf.2.2.2.1]

theorem build_wire_graph_congr_CR {tc : PyDict Conduit} {flag : Bool}
    {x y : CircuitSystem} (h : CR tc flag x y) (wt : WireType)
    (cid0 : Option String) :
    build_wire_graph y wt cid0 = build_wire_graph x wt cid0 := by
  simp only [build_wire_graph]
  rw [nodesSynced_keys h.1]
  refine foldl_forall2 ?_ (dictRel_values h.2.1) _
  intro g c c' hcc
  obtain ⟨k, hk⟩ := hcc
  have hf := condSyncC_fields hk
  rw [hf.2.1, hf.2.2.1, hf.2.2.2.1, hf.2.2.2.2]

theorem distBoxes_congr_CR {tc : PyDict Conduit} {flag : Bool}
    {x y : CircuitSystem} (h : CR tc flag x y) : distBoxes y = distBoxes x := by
  simp only [distBoxes, h.2.2.2.2.2.1, h.2.2.2.2.2.2.1]

theorem foldl_fun_congr {α γ : Type} {f g : γ → α → γ} (h : ∀ b a, f b a = g b a) :
    ∀ (l : List α) (b : γ), l.foldl f b = l.foldl g b := by
  intro l
  induction l with
  | nil => exact fun b => rfl
  | cons a l ih =>
    intro b
    simp only [List.foldl_cons]
    rw [h b a]
    exact ih _

theorem controlSum_congr_CR {tc : PyDict Conduit} {flag : Bool}
    {x y : CircuitSystem} (h : CR tc flag x y) (cid : String)
    (allowed : List String) (sid : String) :
    controlSum y cid allowed sid = controlSum x cid allowed sid := by
  simp only [controlSum, h.2.2.2.2.1]
  refine foldl_fun_congr ?_ _ _
  intro total p
  by_cases hc : ¬ (allowed.contains sid = true ∧ allowed.contains p.1 = true)
  · rw [if_pos hc, if_pos hc]
  · rw [if_neg hc, if_neg hc]
    rcases dictRel_find h.2.1 p.2 with ⟨h1, h2⟩ | ⟨c, c', h1, h2, hR⟩
    · simp only [h1, h2]
    · simp only [h1, h2, (condSyncC_fields hR).2.2.2.2]

theorem get_conduit_entry_sync {tc : PyDict Conduit} {flag : Bool}
    {x y : CircuitSystem} (h : CR tc flag x y) (u v : String) :
    (x.get_conduit_entry u v = none ∧ y.get_conduit_entry u v = none) ∨
    ∃ k c c', x.get_conduit_entry u v = some (k, c) ∧
      y.get_conduit_entry u v = some (k, c') ∧ condSyncC tc k c c' := by
  cases hadj : PyDict.find ((x.adj.find u).getD []) v with
  | none =>
    refine Or.inl ⟨?_, ?_⟩
    · simp [CircuitSystem.get_conduit_entry, hadj]
    · simp [CircuitSystem.get_conduit_entry, h.2.2.2.2.1, hadj]
  | some cid0 =>
    rcases dictRel_find h.2.1 cid0 with ⟨h1, h2⟩ | ⟨c, c', h1, h2, hR⟩
    · refine Or.inl ⟨?_, ?_⟩
      · simp [CircuitSystem.get_conduit_entry, hadj, h1]
      · simp [CircuitSystem.get_conduit_entry, h.2.2.2.2.1, hadj, h2]
    · refine Or.inr ⟨cid0, c, c', ?_, ?_, hR⟩
      · simp [CircuitSystem.get_conduit_entry, hadj, h1]
      · simp [CircuitSystem.get_conduit_entry, h.2.2.2.2.1, hadj, h2]

theorem noSwitchMembers_evolves {x x' : CircuitSystem} (h : evolves x x')
    (hH : noSwitchMembers x) : noSwitchMembers x' := by
  intro u hu m hm n hn
  rw [h.2.2.1] at hu
  rcases dictRel_find h.2.1 m with ⟨h1, h2⟩ | ⟨a, b, h1, h2, hR⟩
  · rw [h2] at hn
    exact Option.noConfusion hn
  · rw [h2] at hn
    injection hn with h3
    rw [← h3, (nodeSync_fields hR).2.1]
    exact hH u hu m hm a h1

theorem bindsOf_of_mem {tc : PyDict Conduit} (hnd : (PyDict.keys tc).Nodup)
    {k : String} {c : Conduit} (hm : (k, c) ∈ PyDict.entries tc) :
    bindsOf tc k = c.circuit_id := by
  simp only [bindsOf, find_of_mem_nodup hm hnd]

theorem condsSynced_start_aux {tc : PyDict Conduit}
    (hnd : (PyDict.keys tc).Nodup) :
    ∀ {d e : PyDict Conduit}, dictRel (fun _ => condLe) d e →
      (∀ p, p ∈ PyDict.entries e → p ∈ PyDict.entries tc) →
      dictRel (condSyncC tc)
        (d.map (fun p => (p.1, { p.2 with wires := [] })))
        (e.map (fun p => (p.1, { p.2 with wires := [] }))) := by
  intro d e h
  induction h with
  | nil => exact fun _ => List.Forall₂.nil
  | cons hpq htail ih =>
    rename_i p q l1 l2
    intro hsub
    refine List.Forall₂.cons ⟨hpq.1, ?_⟩
      (ih (fun r hr => hsub r (List.mem_cons_of_mem q hr)))
    have hb : bindsOf tc q.1 = q.2.circuit_id :=
      bindsOf_of_mem hnd (hsub q (List.mem_cons_self q l2))
    have hb2 : bindsOf tc p.1 = q.2.circuit_id := hpq.1 ▸ hb
    obtain ⟨h1, h2, h3, h4, h5⟩ := hpq.2
    refine ⟨?_, ?_⟩
    · show ({ q.2 with wires := [] } : Conduit)
        = { { p.2 with wires := [] } with circuit_id := bindsOf tc p.1 }
      rw [hb2]
      simp only [h1, h2, h3, h4]
    · show bindLe p.2.circuit_id (bindsOf tc p.1)
      rw [hb2]
      exact h5

theorem condsSynced_start {tc : PyDict Conduit} (hnd : (PyDict.keys tc).Nodup)
    {d : PyDict Conduit} (h : dictRel (fun _ => condLe) d tc) :
    dictRel (condSyncC tc)
      (d.map (fun p => (p.1, { p.2 with wires := [] })))
      (tc.map (fun p => (p.1, { p.2 with wires := [] }))) :=
  condsSynced_start_aux hnd h (fun _ hr => hr)

theorem clear_wires_idem (t : CircuitSystem) :
    (t.clear_wires).clear_wires = t.clear_wires := by
  simp only [CircuitSystem.clear_wires, List.map_map]
  congr 1

/-! ## Claim C9: lockstep behaviour of add_wire under synced bindings -/

theorem orStr_pos {a b : Option String} (h : optTruthy a = true) : orStr a b = a := by
  simp only [orStr, h, if_true, reduceIte]

theorem appendWires_one (cid : String) (mk : Nat → Nat → Option String → Wire)
    (ws : List Wire) (cc : Option String) :
    appendWires cid mk 1 0 ws cc = ws ++ [mk ws.length 0 cc] := rfl

theorem mkWireOfType_truthy (cid : String) (n i : Nat) (wt : WireType)
    (uid : Option String) {e : Option String} (ht : optTruthy e = true)
    (cc cc' : Option String) :
    mkWireOfType cid n i wt uid e cc = mkWireOfType cid n i wt uid e cc' := by
  simp only [mkWireOfType, orStr_pos ht]

theorem mkWireOfWire_truthy (cid : String) (n i : Nat) {w : Wire}
    (hw : optTruthy w.circuit_id = true) (cc cc' : Option String) :
    mkWireOfWire cid n i w cc = mkWireOfWire cid n i w cc' := by
  simp only [mkWireOfWire, orStr_pos hw]

theorem add_wire_ofType_char {c : Conduit} {wt : WireType} {uid e : Option String}
    (ht : optTruthy e = true) {c2 : Conduit}
    (h : c.add_wire (.ofType wt) 1 uid e = .ok c2) :
    c2 = { c with circuit_id := e, wires := c.wires ++ [mkWireOfType c.id c.wires.length 0 wt uid e e] } ∧
    (c.circuit_id = none ∨ c.circuit_id = e) := by
  revert h
  simp only [Conduit.add_wire, ht, if_true, reduceIte]
  split
  · next hb =>
    intro h
    injection h with h2
    subst h2
    refine ⟨?_, Or.inl hb⟩
    exact congrArg (fun z => { c with circuit_id := e, wires := c.wires ++ [mkWireOfType c.id c.wires.length 0 wt uid e z] }) rfl
  · next bound hb =>
    split
    · next he =>
      intro h
      injection h with h2
      subst h2
      refine ⟨?_, Or.inr (hb.trans he)⟩
      rw [← he, ← hb, appendWires_one]
    · next he =>
      intro h
      exact Res.noConfusion h

theorem add_wire_ofType_apply {c : Conduit} {wt : WireType} {uid e : Option String}
    (ht : optTruthy e = true) (hb : c.circuit_id = e) :
    c.add_wire (.ofType wt) 1 uid e = .ok { c with circuit_id := e, wires := c.wires ++ [mkWireOfType c.id c.wires.length 0 wt uid e e] } := by
  cases e with
  | none => simp [optTruthy] at ht
  | some es =>
    simp only [Conduit.add_wire, ht, if_true, reduceIte, hb]
    rw [appendWires_one]

theorem add_wire_ofType_sync {tc : PyDict Conduit} {k : String} {c c' : Conduit}
    (hs : condSyncC tc k c c') {wt : WireType} {uid e : Option String}
    (ht : optTruthy e = true) {c2 : Conduit}
    (hok : c.add_wire (.ofType wt) 1 uid e = .ok c2)
    (hfin : bindLe c2.circuit_id (bindsOf tc k)) :
    c'.add_wire (.ofType wt) 1 uid e = .ok { c2 with circuit_id := bindsOf tc k } ∧
    condSyncC tc k c2 { c2 with circuit_id := bindsOf tc k } := by
  obtain ⟨hc2, hor⟩ := add_wire_ofType_char ht hok
  have hc2bind : c2.circuit_id = e := by rw [hc2]
  have hbinds : bindsOf tc k = e := by
    rw [hc2bind] at hfin
    cases e with
    | none => simp [optTruthy] at ht
    | some es => exact hfin
  have hfields := condSyncC_fields hs
  have hcb : c'.circuit_id = e := by rw [condSyncC_bind hs, hbinds]
  constructor
  · rw [add_wire_ofType_apply ht hcb]
    congr 1
    rw [hfields.1, hfields.2.2.2.2, hc2, hs.1, hbinds]
  · exact ⟨rfl, by rw [hc2bind, hbinds]; exact bindLe_refl e⟩

theorem add_wire_ofWire_sync {tc : PyDict Conduit} {k : String} {c c' : Conduit}
    (hs : condSyncC tc k c c') {w : Wire} (hw : optTruthy w.circuit_id = true) :
    (c'.add_wire (.ofWire w) 1 none none).state
      = { (c.add_wire (.ofWire w) 1 none none).state with circuit_id := bindsOf tc k } ∧
    condSyncC tc k ((c.add_wire (.ofWire w) 1 none none).state)
      ({ (c.add_wire (.ofWire w) 1 none none).state with circuit_id := bindsOf tc k }) := by
  have hx : (c.add_wire (.ofWire w) 1 none none).state
      = { c with wires := c.wires ++ [mkWireOfWire c.id c.wires.length 0 w c.circuit_id] } := rfl
  have hy : (c'.add_wire (.ofWire w) 1 none none).state
      = { c' with wires := c'.wires ++ [mkWireOfWire c'.id c'.wires.length 0 w c'.circuit_id] } := rfl
  have hfields := condSyncC_fields hs
  constructor
  · rw [hx, hy, hfields.1, hfields.2.2.2.2, condSyncC_bind hs,
      mkWireOfWire_truthy c.id c.wires.length 0 hw (bindsOf tc k) c.circuit_id,
      hs.1]
  · rw [hx]
    exact ⟨rfl, hs.2⟩

/-! ## Claim C9: lockstep behaviour of wire laying and accumulation -/

theorem wirePathBody_evolves (wt : WireType) (uid cid : Option String)
    (x : CircuitSystem) (a : String × String) (x' : CircuitSystem)
    (hb : (match x.get_conduit_entry a.1 a.2 with
           | none => Res.ok x
           | some (key, conduit) =>
             match conduit.add_wire (.ofType wt) 1 uid (orStr cid (some x.circuit_id)) with
             | .ok c2 => Res.ok { x with conduits := x.conduits.insert key c2 }
             | .err e _ => Res.err e x) = .ok x') : evolves x x' := by
  cases hg : x.get_conduit_entry a.1 a.2 with
  | none =>
    simp only [hg] at hb
    exact evolves_of_ok_eq hb
  | some kc =>
    obtain ⟨key, conduit⟩ := kc
    simp only [hg] at hb
    cases ha : conduit.add_wire (.ofType wt) 1 uid (orStr cid (some x.circuit_id)) with
    | ok c2 =>
      simp only [ha] at hb
      rw [← ok_inj hb]
      exact evolves_insert_conduit (get_conduit_entry_find hg) (add_wire_condLe ha)
    | err e c2 =>
      simp only [ha] at hb
      exact Res.noConfusion hb

theorem wirePathBody_sync {tc : PyDict Conduit} {flag : Bool} {x y : CircuitSystem}
    (hR : CR tc flag x y) (wt : WireType) (uid cid : Option String)
    (htr : optTruthy cid = true) (uv : String × String) {x1 : CircuitSystem}
    (hok : (match x.get_conduit_entry uv.1 uv.2 with
            | none => Res.ok x
            | some (key, conduit) =>
              match conduit.add_wire (.ofType wt) 1 uid (orStr cid (some x.circuit_id)) with
              | .ok c2 => Res.ok { x with conduits := x.conduits.insert key c2 }
              | .err e _ => Res.err e x) = .ok x1)
    (hfin : dictRel (fun _ => condLe) x1.conduits tc) :
    ∃ y1, (match y.get_conduit_entry uv.1 uv.2 with
           | none => Res.ok y
           | some (key, conduit) =>
             match conduit.add_wire (.ofType wt) 1 uid (orStr cid (some y.circuit_id)) with
             | .ok c2 => Res.ok { y with conduits := y.conduits.insert key c2 }
             | .err e _ => Res.err e y) = .ok y1 ∧ CR tc flag x1 y1 := by
  have horx : orStr cid (some x.circuit_id) = cid := orStr_pos htr
  have hory : orStr cid (some y.circuit_id) = cid := orStr_pos htr
  rcases get_conduit_entry_sync hR uv.1 uv.2 with ⟨hgx, hgy⟩ | ⟨k, c, c', hgx, hgy, hs⟩
  · simp only [hgx] at hok
    refine ⟨y, ?_, ?_⟩
    · simp only [hgy]
    · rw [← ok_inj hok]
      exact hR
  · simp only [hgx, horx] at hok
    cases haw : c.add_wire (.ofType wt) 1 uid cid with
    | err e c2 =>
      simp only [haw] at hok
      exact Res.noConfusion hok
    | ok c2 =>
      simp only [haw] at hok
      rw [← ok_inj hok] at hfin
      have hfinpt : bindLe c2.circuit_id (bindsOf tc k) := by
        rcases dictRel_find hfin k with ⟨h1, _⟩ | ⟨a, b, h1, h2, hRR⟩
        · rw [show ({ x with conduits := x.conduits.insert k c2 } :
              CircuitSystem).conduits = x.conduits.insert k c2 from rfl,
            find_insert_self] at h1
          exact Option.noConfusion h1
        · rw [show ({ x with conduits := x.conduits.insert k c2 } :
              CircuitSystem).conduits = x.conduits.insert k c2 from rfl,
            find_insert_self] at h1
          have hac2 : a = c2 := (Option.some.inj h1).symm
          have hbof : bindsOf tc k = b.circuit_id := by simp only [bindsOf, h2]
          rw [hbof, ← hac2]
          exact hRR.2.2.2.2
      obtain ⟨happ, hsync⟩ := add_wire_ofType_sync hs htr haw hfinpt
      refine ⟨{ y with conduits := y.conduits.insert k { c2 with circuit_id := bindsOf tc k } }, ?_, ?_⟩
      · simp only [hgy, hory, happ]
      · rw [← ok_inj hok]
        exact ⟨hR.1, dictRel_insert hR.2.1 k hsync, hR.2.2.1, hR.2.2.2.1,
          hR.2.2.2.2.1, hR.2.2.2.2.2.1, hR.2.2.2.2.2.2.1, hR.2.2.2.2.2.2.2⟩

theorem wirePathFold_sync {tc : PyDict Conduit} {flag : Bool} (wt : WireType)
    (uid cid : Option String) (htr : optTruthy cid = true) :
    ∀ (l : List (String × String)) {x y x' : CircuitSystem},
      CR tc flag x y →
      foldRes (fun s uv =>
        match s.get_conduit_entry uv.1 uv.2 with
        | none => Res.ok s
        | some (key, conduit) =>
          match conduit.add_wire (.ofType wt) 1 uid (orStr cid (some s.circuit_id)) with
          | .ok c2 => Res.ok { s with conduits := s.conduits.insert key c2 }
          | .err e _ => Res.err e s) l x = .ok x' →
      dictRel (fun _ => condLe) x'.conduits tc →
      ∃ y', foldRes (fun s uv =>
        match s.get_conduit_entry uv.1 uv.2 with
        | none => Res.ok s
        | some (key, conduit) =>
          match conduit.add_wire (.ofType wt) 1 uid (orStr cid (some s.circuit_id)) with
          | .ok c2 => Res.ok { s with conduits := s.conduits.insert key c2 }
          | .err e _ => Res.err e s) l y = .ok y' ∧ CR tc flag x' y' := by
  intro l
  induction l with
  | nil =>
    intro x y x' hR hok hfin
    refine ⟨y, rfl, ?_⟩
    rw [← ok_inj hok]
    exact hR
  | cons uv l ih =>
    intro x y x' hR hok hfin
    simp only [foldRes] at hok
    cases hbx : (match x.get_conduit_entry uv.1 uv.2 with
        | none => Res.ok x
        | some (key, conduit) =>
          match conduit.add_wire (.ofType wt) 1 uid (orStr cid (some x.circuit_id)) with
          | .ok c2 => Res.ok { x with conduits := x.conduits.insert key c2 }
          | .err e _ => Res.err e x) with
    | err e x1 =>
      rw [hbx] at hok
      exact Res.noConfusion hok
    | ok x1 =>
      rw [hbx] at hok
      have hx1fin : dictRel (fun _ => condLe) x1.conduits tc := by
        have hev : evolves x1 x' :=
          foldRes_evolves (fun z a z' hb => wirePathBody_evolves wt uid cid z a z' hb)
            l x1 x' hok
        exact dictRel_comp
          (fun _ (a b c : Conduit) (h1 : condLe a b) (h2 : condLe b c) =>
            condLe_trans h1 h2) hev.1 hfin
      obtain ⟨y1, hby, hCR1⟩ := wirePathBody_sync hR wt uid cid htr uv hbx hx1fin
      obtain ⟨y', hy, hCR'⟩ := ih hCR1 hok hfin
      refine ⟨y', ?_, hCR'⟩
      simp only [foldRes, hby]
      exact hy

theorem addWiresToPath_sync {tc : PyDict Conduit} {flag : Bool}
    {x y : CircuitSystem} (hR : CR tc flag x y) {path : List String}
    {wt : WireType} {uid cid : Option String} (htr : optTruthy cid = true)
    {x' : CircuitSystem} (hok : addWiresToPath x path wt uid cid = .ok x')
    (hfin : dictRel (fun _ => condLe) x'.conduits tc) :
    ∃ y', addWiresToPath y path wt uid cid = .ok y' ∧ CR tc flag x' y' := by
  simp only [addWiresToPath] at hok ⊢
  exact wirePathFold_sync wt uid cid htr (pathPairs path) hR hok hfin

theorem accumBody_sync {tc : PyDict Conduit} {flag : Bool} {x y : CircuitSystem}
    (hR : CR tc flag x y) (pick : Wire → Bool) (amt : Q) (uv : String × String) :
    CR tc flag (accumBody pick amt x uv) (accumBody pick amt y uv) := by
  rcases get_conduit_entry_sync hR uv.1 uv.2 with ⟨hgx, hgy⟩ | ⟨k, c, c', hgx, hgy, hs⟩
  · have hbx : accumBody pick amt x uv = x := by simp only [accumBody, hgx]
    have hby : accumBody pick amt y uv = y := by simp only [accumBody, hgy]
    rw [hbx, hby]
    exact hR
  · have hfields := condSyncC_fields hs
    have hbx : accumBody pick amt x uv = { x with conduits := x.conduits.insert k { c with wires := c.wires.map (fun w => if pick w then { w with current := w.current.add amt } else w) } } := by
      simp only [accumBody, hgx]
    have hby : accumBody pick amt y uv = { y with conduits := y.conduits.insert k { c' with wires := c'.wires.map (fun w => if pick w then { w with current := w.current.add amt } else w) } } := by
      simp only [accumBody, hgy]
    rw [hbx, hby]
    have hsync : condSyncC tc k
        { c with wires := c.wires.map (fun w => if pick w then { w with current := w.current.add amt } else w) }
        { c' with wires := c'.wires.map (fun w => if pick w then { w with current := w.current.add amt } else w) } := by
      constructor
      · rw [hfields.2.2.2.2, hs.1]
      · exact hs.2
    exact ⟨hR.1, dictRel_insert hR.2.1 k hsync, hR.2.2.1, hR.2.2.2.1,
      hR.2.2.2.2.1, hR.2.2.2.2.2.1, hR.2.2.2.2.2.2.1, hR.2.2.2.2.2.2.2⟩

theorem accumFold_sync {tc : PyDict Conduit} {flag : Bool}
    (pick : Wire → Bool) (amt : Q) :
    ∀ (l : List (String × String)) {x y : CircuitSystem}, CR tc flag x y →
      CR tc flag (l.foldl (accumBody pick amt) x) (l.foldl (accumBody pick amt) y) := by
  intro l
  induction l with
  | nil => exact fun hR => hR
  | cons uv l ih =>
    intro x y hR
    simp only [List.foldl_cons]
    exact ih (accumBody_sync hR pick amt uv)

theorem accumWires_sync {tc : PyDict Conduit} {flag : Bool} {x y : CircuitSystem}
    (hR : CR tc flag x y) (p : List String) (pick : Wire → Bool) (amt : Q) :
    CR tc flag (accumWires x p pick amt) (accumWires y p pick amt) :=
  accumFold_sync pick amt (pathPairs p) hR

/-! ## Claim C9: generic lockstep fold machinery -/

theorem dictRel_mono_mem {α β : Type} {R R2 : String → α → β → Prop} :
    ∀ {d : PyDict α} {d2 : PyDict β}, dictRel R d d2 →
      (∀ k a b, (k, a) ∈ PyDict.entries d → R k a b → R2 k a b) →
      dictRel R2 d d2 := by
  intro d d2 h
  induction h with
  | nil => exact fun _ => List.Forall₂.nil
  | cons hpq htail ih =>
    intro himp
    rename_i p q l1 l2
    refine List.Forall₂.cons ⟨hpq.1, himp p.1 p.2 q.2 (List.mem_cons_self p l1) hpq.2⟩ ?_
    exact ih (fun k a b hm hr => himp k a b (List.mem_cons_of_mem p hm) hr)

theorem dictRel_insert_step {α β : Type} {R R2 : String → α → β → Prop} :
    ∀ {d : PyDict α} {d2 : PyDict β}, dictRel R d d2 →
      ∀ {k : String}, (PyDict.keys d).Nodup →
      (∀ k2 a b, k2 ≠ k → R k2 a b → R2 k2 a b) →
      ∀ {v : α} {w : β}, R2 k v w →
      dictRel R2 (d.insert k v) (d2.insert k w) := by
  intro d d2 h
  induction h with
  | nil =>
    intro k _ _ v w hvw
    exact List.Forall₂.cons ⟨rfl, hvw⟩ List.Forall₂.nil
  | cons hpq htail ih =>
    intro k hnd hmono v w hvw
    rename_i p q l1 l2
    simp only [PyDict.keys, List.map_cons, List.nodup_cons] at hnd
    by_cases hk : p.1 = k
    · have hq : q.1 = k := hpq.1.trans hk
      have h1 : PyDict.insert (p :: l1) k v = (k, v) :: l1 := by
        simp [PyDict.insert, hk]
      have h2 : PyDict.insert (q :: l2) k w = (k, w) :: l2 := by
        simp [PyDict.insert, hq]
      rw [h1, h2]
      refine List.Forall₂.cons ⟨rfl, hvw⟩ ?_
      have hnotin : k ∉ l1.map (fun a => a.1) := by
        rw [← hk]
        exact hnd.1
      refine dictRel_mono_mem htail ?_
      intro k2 a b hm hr
      refine hmono k2 a b ?_ hr
      intro hek
      apply hnotin
      rw [← hek]
      exact List.mem_map_of_mem _ hm
    · have hq : ¬ q.1 = k := by rw [hpq.1]; exact hk
      have h1 : PyDict.insert (p :: l1) k v = p :: PyDict.insert l1 k v := by
        simp [PyDict.insert, hk]
      have h2 : PyDict.insert (q :: l2) k w = q :: PyDict.insert l2 k w := by
        simp [PyDict.insert, hq]
      rw [h1, h2]
      exact List.Forall₂.cons ⟨hpq.1, hmono p.1 p.2 q.2 hk hpq.2⟩ (ih hnd.2 hmono hvw)

theorem dictRel_eq {α : Type} {d d2 : PyDict α}
    (h : dictRel (fun _ a b => b = a) d d2) : d2 = d := by
  induction h with
  | nil => rfl
  | cons hpq htail ih =>
    rename_i p q l1 l2
    have h1 := hpq.1
    have h2 := hpq.2
    cases p
    cases q
    dsimp only at h1 h2
    rw [h1, h2, ih]

theorem forall2_filter {α β : Type} {R : α → β → Prop} {p : α → Bool} {p2 : β → Bool}
    (hp : ∀ a b, R a b → p2 b = p a) :
    ∀ {l : List α} {l2 : List β}, List.Forall₂ R l l2 →
      List.Forall₂ R (l.filter p) (l2.filter p2) := by
  intro l l2 h
  induction h with
  | nil => exact List.Forall₂.nil
  | cons hab htail ih =>
    rename_i a b l1 l3
    simp only [List.filter_cons]
    rw [hp a b hab]
    by_cases hpa : p a = true
    · rw [if_pos hpa, if_pos hpa]
      exact List.Forall₂.cons hab ih
    · rw [if_neg hpa, if_neg hpa]
      exact ih

theorem forall2_eq_of_mem {α : Type} {R : α → α → Prop} :
    ∀ {l l2 : List α}, List.Forall₂ R l l2 →
      (∀ a b, a ∈ l → R a b → b = a) → l2 = l := by
  intro l l2 h
  induction h with
  | nil => exact fun _ => rfl
  | cons hab htail ih =>
    intro he
    rename_i a b l1 l3
    rw [he a b (List.mem_cons_self a l1) hab,
      ih (fun a2 b2 hm hr => he a2 b2 (List.mem_cons_of_mem a hm) hr)]

theorem filter_values_eq {flag : Bool} {xn yn : PyDict Node}
    (h : nodesSynced flag xn yn) (p : Node → Bool)
    (hp1 : ∀ a b, nodeSync a b → p b = p a)
    (hp2 : ∀ a b, nodeSync a b → p a = true → b = a) :
    (PyDict.values yn).filter p = (PyDict.values xn).filter p := by
  have hv := nodesSynced_values h
  have h2 := forall2_filter hp1 hv
  refine forall2_eq_of_mem h2 ?_
  intro a b hm hr
  exact hp2 a b hr (List.of_mem_filter hm)

theorem keys_insert_found {α : Type} : ∀ {d : PyDict α} {k : String} {v0 : α},
    d.find k = some v0 → ∀ (v : α), PyDict.keys (d.insert k v) = PyDict.keys d := by
  intro d
  induction d with
  | nil => exact fun h _ => Option.noConfusion h
  | cons p t ih =>
    intro k v0 h v
    by_cases hk : p.1 = k
    · have h1 : PyDict.insert (p :: t) k v = (k, v) :: t := by
        simp [PyDict.insert, hk]
      rw [h1]
      simp only [PyDict.keys, List.map_cons]
      rw [hk]
    · have h1 : PyDict.insert (p :: t) k v = p :: PyDict.insert t k v := by
        simp [PyDict.insert, hk]
      have h2 : PyDict.find t k = some v0 := by
        have h3 : PyDict.find (p :: t) k = if p.1 = k then some p.2 else PyDict.find t k := by
          cases p
          simp [PyDict.find]
        rw [h3, if_neg hk] at h
        exact h
      rw [h1]
      simp only [PyDict.keys, List.map_cons]
      have h4 := ih h2 v
      simp only [PyDict.keys] at h4
      rw [h4]

theorem foldl_CR_sync {α : Type} {tc : PyDict Conduit} {flag : Bool}
    {f : CircuitSystem → α → CircuitSystem}
    (hf : ∀ {x y : CircuitSystem} (a : α), CR tc flag x y → CR tc flag (f x a) (f y a)) :
    ∀ (l : List α) {x y : CircuitSystem}, CR tc flag x y →
      CR tc flag (l.foldl f x) (l.foldl f y) := by
  intro l
  induction l with
  | nil => exact fun h => h
  | cons a l ih =>
    intro x y h
    simp only [List.foldl_cons]
    exact ih (hf a h)

theorem foldRes_sync {α : Type} {tc : PyDict Conduit} {flag : Bool}
    {body : CircuitSystem → α → Res CircuitSystem}
    (P : CircuitSystem → Prop) (Q : α → Prop)
    (hbody_ev : ∀ x a x', body x a = .ok x' → evolves x x')
    (hPev : ∀ {x x' : CircuitSystem}, evolves x x' → P x → P x')
    (hbody : ∀ {x y : CircuitSystem} {a : α} {x1 : CircuitSystem},
      CR tc flag x y → P x → Q a → body x a = .ok x1 →
      dictRel (fun _ => condLe) x1.conduits tc →
      ∃ y1, body y a = .ok y1 ∧ CR tc flag x1 y1) :
    ∀ (l : List α) {x y x' : CircuitSystem}, (∀ a ∈ l, Q a) →
      CR tc flag x y → P x → foldRes body l x = .ok x' →
      dictRel (fun _ => condLe) x'.conduits tc →
      ∃ y', foldRes body l y = .ok y' ∧ CR tc flag x' y' := by
  intro l
  induction l with
  | nil =>
    intro x y x' _ hR _ hok _
    refine ⟨y, rfl, ?_⟩
    rw [← ok_inj hok]
    exact hR
  | cons a l ih =>
    intro x y x' hq hR hP hok hfin
    simp only [foldRes] at hok
    cases hba : body x a with
    | err e s2 =>
      rw [hba] at hok
      exact Res.noConfusion hok
    | ok x1 =>
      rw [hba] at hok
      have hx1fin : dictRel (fun _ => condLe) x1.conduits tc := by
        have hev : evolves x1 x' := foldRes_evolves hbody_ev l x1 x' hok
        exact dictRel_comp
          (fun _ (a b c : Conduit) (h1 : condLe a b) (h2 : condLe b c) =>
            condLe_trans h1 h2) hev.1 hfin
      obtain ⟨y1, hby, hCR1⟩ := hbody hR hP (hq a (List.mem_cons_self a l)) hba hx1fin
      obtain ⟨y', hy, hCR'⟩ := ih (fun a2 ha2 => hq a2 (List.mem_cons_of_mem a ha2))
        hCR1 (hPev (hbody_ev x a x1 hba) hP) hok hfin
      refine ⟨y', ?_, hCR'⟩
      simp only [foldRes, hby]
      exact hy

theorem nearest_db_congr_CR {tc : PyDict Conduit} {flag : Bool}
    {x y : CircuitSystem} (h : CR tc flag x y) (g : Graph) (nid : String)
    (al : Option (List String)) :
    nearest_db g y nid al = nearest_db g x nid al := by
  simp only [nearest_db, distBoxes_congr_CR h]

/-! ## Claim C9: step-1 lockstep -/

theorem step1LayBody_sync {tc : PyDict Conduit} {flag : Bool} {x y : CircuitSystem}
    (hR : CR tc flag x y) {cid : String} (hcid : optTruthy (some cid) = true)
    (allowed : List String) (k : String) :
    CR tc flag (step1LayBody cid allowed x k) (step1LayBody cid allowed y k) := by
  rcases dictRel_find hR.2.1 k with ⟨hfx, hfy⟩ | ⟨c, c', hfx, hfy, hs⟩
  · have hbx : step1LayBody cid allowed x k = x := by
      simp only [step1LayBody, hfx]
    have hby : step1LayBody cid allowed y k = y := by
      simp only [step1LayBody, hfy]
    rw [hbx, hby]
    exact hR
  · have hfl := condSyncC_fields hs
    rcases nodesSynced_find hR.1 c.start_node_id with ⟨hux, huy⟩ | ⟨u, u', hux, huy, hsu, _⟩
    · have hbx : step1LayBody cid allowed x k = x := by
        simp only [step1LayBody, hfx, hux]
      have hby : step1LayBody cid allowed y k = y := by
        simp only [step1LayBody, hfy, hfl.2.1, huy]
      rw [hbx, hby]
      exact hR
    · rcases nodesSynced_find hR.1 c.end_node_id with ⟨hvx, hvy⟩ | ⟨v, v', hvx, hvy, hsv, _⟩
      · have hbx : step1LayBody cid allowed x k = x := by
          simp only [step1LayBody, hfx, hux, hvx]
        have hby : step1LayBody cid allowed y k = y := by
          simp only [step1LayBody, hfy, hfl.2.1, hfl.2.2.1, huy, hvy]
        rw [hbx, hby]
        exact hR
      · have hufl := nodeSync_fields hsu
        have hvfl := nodeSync_fields hsv
        by_cases hsw : u.node_type = NodeType.SWITCH ∨ v.node_type = NodeType.SWITCH
        · have hsw' : u'.node_type = NodeType.SWITCH ∨ v'.node_type = NodeType.SWITCH := by
            rw [hufl.2.1, hvfl.2.1]
            exact hsw
          have hbx : step1LayBody cid allowed x k = x := by
            simp only [step1LayBody, hfx, hux, hvx, if_pos hsw]
          have hby : step1LayBody cid allowed y k = y := by
            simp only [step1LayBody, hfy, hfl.2.1, hfl.2.2.1, huy, hvy, if_pos hsw']
          rw [hbx, hby]
          exact hR
        · have hsw' : ¬ (u'.node_type = NodeType.SWITCH ∨ v'.node_type = NodeType.SWITCH) := by
            rw [hufl.2.1, hvfl.2.1]
            exact hsw
          by_cases hal : (allowed.contains u.id && allowed.contains v.id) = true
          · have hal' : (allowed.contains u'.id && allowed.contains v'.id) = true := by
              rw [hufl.1, hvfl.1]
              exact hal
            obtain ⟨he1, hs1⟩ := @add_wire_ofWire_sync tc k c c' hs
              ⟨c.id ++ "-auto-N", WireType.N, none, some cid, Q.zero, [], ""⟩ hcid
            rw [← he1] at hs1
            obtain ⟨he2, hs2⟩ := @add_wire_ofWire_sync tc k _ _ hs1
              ⟨c.id ++ "-auto-PE", WireType.PE, none, some cid, Q.zero, [], ""⟩ hcid
            have hbx : step1LayBody cid allowed x k = { x with conduits := x.conduits.insert k (((c.add_wire (.ofWire ⟨c.id ++ "-auto-N", WireType.N, none, some cid, Q.zero, [], ""⟩) 1 none none).state).add_wire (.ofWire ⟨c.id ++ "-auto-PE", WireType.PE, none, some cid, Q.zero, [], ""⟩) 1 none none).state } := by
              simp only [step1LayBody, hfx, hux, hvx, if_neg hsw, if_pos hal]
            have hby : step1LayBody cid allowed y k = { y with conduits := y.conduits.insert k (((c'.add_wire (.ofWire ⟨c'.id ++ "-auto-N", WireType.N, none, some cid, Q.zero, [], ""⟩) 1 none none).state).add_wire (.ofWire ⟨c'.id ++ "-auto-PE", WireType.PE, none, some cid, Q.zero, [], ""⟩) 1 none none).state } := by
              simp only [step1LayBody, hfy, hfl.2.1, hfl.2.2.1, huy, hvy, if_neg hsw', if_pos hal']
            rw [hfl.1] at hby
            rw [he2] at hby
            rw [hbx, hby]
            exact ⟨hR.1, dictRel_insert hR.2.1 k hs2, hR.2.2.1, hR.2.2.2.1,
              hR.2.2.2.2.1, hR.2.2.2.2.2.1, hR.2.2.2.2.2.2.1, hR.2.2.2.2.2.2.2⟩
          · have hal' : ¬ (allowed.contains u'.id && allowed.contains v'.id) = true := by
              rw [hufl.1, hvfl.1]
              exact hal
            have hbx : step1LayBody cid allowed x k = x := by
              simp only [step1LayBody, hfx, hux, hvx, if_neg hsw, if_neg hal]
            have hby : step1LayBody cid allowed y k = y := by
              simp only [step1LayBody, hfy, hfl.2.1, hfl.2.2.1, huy, hvy, if_neg hsw', if_neg hal']
            rw [hbx, hby]
            exact hR

theorem step1_lay_sync {tc : PyDict Conduit} {flag : Bool} {x y : CircuitSystem}
    (hR : CR tc flag x y) {cid : String} (hcid : optTruthy (some cid) = true)
    (allowed : List String) :
    CR tc flag (step1_lay x cid allowed) (step1_lay y cid allowed) := by
  simp only [step1_lay]
  rw [dictRel_keys hR.2.1]
  exact foldl_CR_sync (fun k h => step1LayBody_sync h hcid allowed k)
    (PyDict.keys x.conduits) hR

theorem step1AccumBody_sync {tc : PyDict Conduit} {flag : Bool} {g : Graph}
    {x y : CircuitSystem} (hR : CR tc flag x y) (dbid cid : String)
    (allowed : List String) (dev : Node) {x1 : CircuitSystem}
    (hok : step1AccumBody g dbid cid allowed x dev = .ok x1) :
    ∃ y1, step1AccumBody g dbid cid allowed y dev = .ok y1 ∧ CR tc flag x1 y1 := by
  revert hok
  simp only [step1AccumBody]
  rw [nearest_db_congr_CR hR g dev.id (some allowed)]
  cases nearest_db g x dev.id (some allowed) with
  | raised => exact fun hok => Res.noConfusion hok
  | noneFound =>
    intro hok
    exact ⟨y, rfl, by rw [← ok_inj hok]; exact hR⟩
  | found db =>
    dsimp only
    by_cases hdb : db ≠ dbid
    · rw [if_pos hdb, if_pos hdb]
      intro hok
      exact ⟨y, rfl, by rw [← ok_inj hok]; exact hR⟩
    · rw [if_neg hdb, if_neg hdb]
      cases (g.subgraph (pyUnion allowed [dbid])).shortest_path dev.id dbid with
      | noPath =>
        intro hok
        exact ⟨y, rfl, by rw [← ok_inj hok]; exact hR⟩
      | nodeNotFound => exact fun hok => Res.noConfusion hok
      | found d p =>
        intro hok
        refine ⟨accumWires y p
          (fun w => w.wire_type == WireType.N && w.circuit_id == some cid)
          dev.rated_current, rfl, ?_⟩
        rw [← ok_inj hok]
        exact accumWires_sync hR p _ dev.rated_current

theorem step1_base_sync {tc : PyDict Conduit} {flag : Bool} {g : Graph}
    {x y : CircuitSystem} (hR : CR tc flag x y) {dbid cid : String}
    (hcid : optTruthy (some cid) = true) (allowed : List String) {x1 : CircuitSystem}
    (hok : step1_lay_base_circuit g x dbid cid allowed = .ok x1)
    (hfin : dictRel (fun _ => condLe) x1.conduits tc) :
    ∃ y1, step1_lay_base_circuit g y dbid cid allowed = .ok y1 ∧ CR tc flag x1 y1 := by
  simp only [step1_lay_base_circuit] at hok ⊢
  have hRl : CR tc flag (step1_lay x cid allowed) (step1_lay y cid allowed) :=
    step1_lay_sync hR hcid allowed
  have hdev : (PyDict.values (step1_lay y cid allowed).nodes).filter
      (fun n => n.node_type ≠ NodeType.SWITCH ∧ n.node_type ≠ NodeType.DISTRIBUTION_BOX ∧
        allowed.contains n.id)
      = (PyDict.values (step1_lay x cid allowed).nodes).filter
      (fun n => n.node_type ≠ NodeType.SWITCH ∧ n.node_type ≠ NodeType.DISTRIBUTION_BOX ∧
        allowed.contains n.id) := by
    refine filter_values_eq hRl.1 _ ?_ ?_
    · intro a b hab
      have hf := nodeSync_fields hab
      simp only [hf.1, hf.2.1]
    · intro a b hab hpa
      refine hab.2 ?_
      simp only [decide_eq_true_eq] at hpa
      exact hpa.1
  rw [hdev]
  exact foldRes_sync (fun _ => True) (fun _ => True)
    (fun z a z' hb => step1AccumBody_evolves g dbid cid allowed z a z' hb)
    (fun _ _ => trivial)
    (fun hRz _ _ hb _ => step1AccumBody_sync hRz dbid cid allowed _ hb)
    _ (fun _ _ => trivial) hRl trivial hok hfin

/-! ## Claim C9: MST laying and step-2 lockstep -/

theorem pathAccumBody_evolves (G : Graph) (target : String) (pick : Wire → Bool)
    (z : CircuitSystem) (m : String) (z' : CircuitSystem)
    (hb : (match G.shortest_path m target with
           | .found _ p =>
             match z.nodes.find m with
             | none => Res.ok z
             | some mn => Res.ok (accumWires z p pick mn.rated_current)
           | _ => Res.ok z) = .ok z') : evolves z z' := by
  cases hsp : G.shortest_path m target with
  | found d p =>
    simp only [hsp] at hb
    cases hf : z.nodes.find m with
    | none =>
      simp only [hf] at hb
      exact evolves_of_ok_eq hb
    | some mn =>
      simp only [hf] at hb
      rw [← ok_inj hb]
      exact accumWires_evolves z p pick mn.rated_current
  | noPath =>
    simp only [hsp] at hb
    exact evolves_of_ok_eq hb
  | nodeNotFound =>
    simp only [hsp] at hb
    exact evolves_of_ok_eq hb

theorem pathAccumBody_sync {tc : PyDict Conduit} {flag : Bool} (G : Graph)
    (target : String) (pick : Wire → Bool) {z w : CircuitSystem}
    (hRz : CR tc flag z w) (m : String)
    (hns : ∀ n, z.nodes.find m = some n → n.node_type ≠ NodeType.SWITCH)
    {z1 : CircuitSystem}
    (hb : (match G.shortest_path m target with
           | .found _ p =>
             match z.nodes.find m with
             | none => Res.ok z
             | some mn => Res.ok (accumWires z p pick mn.rated_current)
           | _ => Res.ok z) = .ok z1) :
    ∃ w1, (match G.shortest_path m target with
           | .found _ p =>
             match w.nodes.find m with
             | none => Res.ok w
             | some mn => Res.ok (accumWires w p pick mn.rated_current)
           | _ => Res.ok w) = .ok w1 ∧ CR tc flag z1 w1 := by
  cases hsp : G.shortest_path m target with
  | found d p =>
    simp only [hsp] at hb ⊢
    rcases nodesSynced_find hRz.1 m with ⟨hfz, hfw⟩ | ⟨n, n', hfz, hfw, hsn, _⟩
    · simp only [hfz] at hb
      simp only [hfw]
      exact ⟨w, rfl, by rw [← ok_inj hb]; exact hRz⟩
    · have hnn : n' = n := hsn.2 (hns n hfz)
      simp only [hfz] at hb
      simp only [hfw, hnn]
      refine ⟨accumWires w p pick n.rated_current, rfl, ?_⟩
      rw [← ok_inj hb]
      exact accumWires_sync hRz p pick n.rated_current
  | noPath =>
    simp only [hsp] at hb ⊢
    exact ⟨w, rfl, by rw [← ok_inj hb]; exact hRz⟩
  | nodeNotFound =>
    simp only [hsp] at hb ⊢
    exact ⟨w, rfl, by rw [← ok_inj hb]; exact hRz⟩

theorem lay_mst_sync {tc : PyDict Conduit} {flag : Bool} {g : Graph}
    {x y : CircuitSystem} (hR : CR tc flag x y) {node_ids : List String}
    {anchor : String} {wt : WireType} {uid cid : Option String}
    (htr : optTruthy cid = true) {allowed : Option (List String)} {x1 : CircuitSystem}
    (hok : lay_mst_wires_via_conduits g x node_ids anchor wt uid cid allowed = .ok x1)
    (hfin : dictRel (fun _ => condLe) x1.conduits tc) :
    ∃ y1, lay_mst_wires_via_conduits g y node_ids anchor wt uid cid allowed = .ok y1 ∧
      CR tc flag x1 y1 := by
  revert hok
  simp only [lay_mst_wires_via_conduits]
  by_cases h1 : (pyset (node_ids ++ [anchor])).length < 2
  · rw [if_pos h1, if_pos h1]
    intro hok
    exact ⟨y, rfl, by rw [← ok_inj hok]; exact hR⟩
  · rw [if_neg h1, if_neg h1]
    cases buildK (match allowed with | none => g | some a => g.subgraph a)
        (ijPairsG (pyset (node_ids ++ [anchor]))) ⟨[], []⟩ with
    | none => exact fun hok => Res.noConfusion hok
    | some K =>
      dsimp only
      by_cases h2 : K.edgeCount = 0
      · rw [if_pos h2, if_pos h2]
        intro hok
        exact ⟨y, rfl, by rw [← ok_inj hok]; exact hR⟩
      · rw [if_neg h2, if_neg h2]
        intro hok
        refine foldRes_sync (fun _ => True) (fun _ => True) ?_ (fun _ _ => trivial) ?_
          K.mstEdges (fun _ _ => trivial) hR trivial hok hfin
        · intro z a z' hb
          cases hsp : (match allowed with | none => g | some a => g.subgraph a).shortest_path a.1 a.2 with
          | found d p =>
            simp only [hsp] at hb
            exact addWiresToPath_evolves hb
          | noPath =>
            simp only [hsp] at hb
            exact evolves_of_ok_eq hb
          | nodeNotFound =>
            simp only [hsp] at hb
            exact Res.noConfusion hb
        · intro z w a z1 hRz _ _ hb hf2
          cases hsp : (match allowed with | none => g | some a => g.subgraph a).shortest_path a.1 a.2 with
          | found d p =>
            simp only [hsp] at hb ⊢
            exact addWiresToPath_sync hRz htr hb hf2
          | noPath =>
            simp only [hsp] at hb ⊢
            exact ⟨w, rfl, by rw [← ok_inj hb]; exact hRz⟩
          | nodeNotFound =>
            simp only [hsp] at hb
            exact Res.noConfusion hb

theorem step2_sync {tc : PyDict Conduit} {flag : Bool} {g : Graph}
    {x y : CircuitSystem} (hR : CR tc flag x y) {dbid cid : String}
    (hcid : optTruthy (some cid) = true) {allowed : List String}
    (hNS : noSwitchMembers x) {x1 : CircuitSystem}
    (hok : step2_lay_uncontrolled_power g x dbid cid allowed = .ok x1)
    (hfin : dictRel (fun _ => condLe) x1.conduits tc) :
    ∃ y1, step2_lay_uncontrolled_power g y dbid cid allowed = .ok y1 ∧ CR tc flag x1 y1 := by
  revert hok
  simp only [step2_lay_uncontrolled_power]
  by_cases hd : dbid = ""
  · rw [if_pos hd, if_pos hd]
    intro hok
    exact ⟨y, rfl, by rw [← ok_inj hok]; exact hR⟩
  · rw [if_neg hd, if_neg hd]
    rw [hR.2.2.1]
    intro hok
    refine foldRes_sync
      (fun z => noSwitchMembers z ∧ z.units = x.units)
      (fun u => u ∈ PyDict.values x.units) ?_ ?_ ?_
      (PyDict.values x.units) (fun _ hu => hu) hR ⟨hNS, rfl⟩ hok hfin
    · intro z a z' hb
      try dsimp only at hb
      by_cases hu1 : a.unit_type ≠ "非受控"
      · rw [if_pos hu1] at hb
        exact evolves_of_ok_eq hb
      · rw [if_neg hu1] at hb
        by_cases hu2 : a.member_node_ids.isEmpty = true
        · rw [if_pos hu2] at hb
          exact evolves_of_ok_eq hb
        · rw [if_neg hu2] at hb
          by_cases hu3 : ¬ a.member_node_ids.all (fun m => allowed.contains m) = true
          · rw [if_pos hu3] at hb
            exact evolves_of_ok_eq hb
          · rw [if_neg hu3] at hb
            obtain ⟨za, hlay, hrest⟩ := bind_ok hb
            try dsimp only at hrest
            refine evolves_trans (lay_mst_evolves hlay) ?_
            refine foldRes_evolves ?_ a.member_node_ids za z' hrest
            intro w m w' hw
            exact pathAccumBody_evolves (build_wire_graph za WireType.L_POWER (some cid))
              dbid _ w m w' hw
    · intro z z' hev hp
      exact ⟨noSwitchMembers_evolves hev hp.1, hev.2.2.1.trans hp.2⟩
    · intro z w a z1 hRz hPz hQa hb hf2
      try dsimp only at hb ⊢
      by_cases hu1 : a.unit_type ≠ "非受控"
      · rw [if_pos hu1] at hb ⊢
        exact ⟨w, rfl, by rw [← ok_inj hb]; exact hRz⟩
      · rw [if_neg hu1] at hb ⊢
        by_cases hu2 : a.member_node_ids.isEmpty = true
        · rw [if_pos hu2] at hb ⊢
          exact ⟨w, rfl, by rw [← ok_inj hb]; exact hRz⟩
        · rw [if_neg hu2] at hb ⊢
          by_cases hu3 : ¬ a.member_node_ids.all (fun m => allowed.contains m) = true
          · rw [if_pos hu3] at hb ⊢
            exact ⟨w, rfl, by rw [← ok_inj hb]; exact hRz⟩
          · rw [if_neg hu3] at hb ⊢
            obtain ⟨za, hlay, hrest⟩ := bind_ok hb
            try dsimp only at hrest
            have hza1 : evolves za z1 := by
              refine foldRes_evolves ?_ a.member_node_ids za z1 hrest
              intro w2 m w2' hw
              exact pathAccumBody_evolves (build_wire_graph za WireType.L_POWER (some cid))
                dbid _ w2 m w2' hw
            have hzafin : dictRel (fun _ => condLe) za.conduits tc :=
              dictRel_comp
                (fun _ (a b c : Conduit) (h1 : condLe a b) (h2 : condLe b c) =>
                  condLe_trans h1 h2) hza1.1 hf2
            obtain ⟨ya, hylay, hCRa⟩ := lay_mst_sync hRz hcid hlay hzafin
            rw [hylay]
            dsimp only [Res.bind]
            rw [build_wire_graph_congr_CR hCRa WireType.L_POWER (some cid)]
            have hevza := lay_mst_evolves hlay
            refine foldRes_sync
              (fun v => noSwitchMembers v ∧ a ∈ PyDict.values v.units)
              (fun m => m ∈ a.member_node_ids) ?_ ?_ ?_
              a.member_node_ids (fun _ hm => hm) hCRa
              ⟨noSwitchMembers_evolves hevza hPz.1, ?_⟩ hrest hf2
            · intro w2 m w2' hw
              exact pathAccumBody_evolves (build_wire_graph za WireType.L_POWER (some cid))
                dbid _ w2 m w2' hw
            · intro v v' hev hp
              refine ⟨noSwitchMembers_evolves hev hp.1, ?_⟩
              rw [hev.2.2.1]
              exact hp.2
            · intro z2 w2 m z2' hRz2 hPz2 hQm hb2 hf3
              exact pathAccumBody_sync (build_wire_graph za WireType.L_POWER (some cid))
                dbid _ hRz2 m (fun n hn => hPz2.1 a hPz2.2 m hQm n hn) hb2
            · rw [hevza.2.2.1, hPz.2]
              exact hQa

/-! ## Claim C9: step-3 lockstep (aggregation is the node sync point) -/

theorem step3AggBody_conduits (cid : String) (allowed : List String)
    (s : CircuitSystem) (nid : String) :
    (step3AggBody cid allowed s nid).conduits = s.conduits := by
  simp only [step3AggBody]
  cases hf : s.nodes.find nid with
  | none => rfl
  | some switch =>
    by_cases hsw : switch.node_type = NodeType.SWITCH
    · dsimp only
      rw [if_pos hsw]
    · dsimp only
      rw [if_neg hsw]

theorem step3_aggregate_conduits (s : CircuitSystem) (cid : String)
    (allowed : List String) :
    (step3_aggregate s cid allowed).conduits = s.conduits := by
  simp only [step3_aggregate]
  generalize PyDict.keys s.nodes = l
  induction l generalizing s with
  | nil => rfl
  | cons k rest ih =>
    simp only [List.foldl_cons]
    rw [ih, step3AggBody_conduits]

theorem step3AggFold_sync {tc : PyDict Conduit} (cid : String) (allowed : List String) :
    ∀ (l : List String) {x y : CircuitSystem},
      (PyDict.keys x.nodes).Nodup →
      dictRel (fun k a b => nodeSync a b ∧ (k ∉ l → b = a)) x.nodes y.nodes →
      dictRel (condSyncC tc) x.conduits y.conduits →
      y.units = x.units → y.circuits = x.circuits → y.adj = x.adj →
      y.distribution_box_id = x.distribution_box_id →
      y.distribution_box_ids = x.distribution_box_ids →
      y.circuit_id = x.circuit_id →
      CR tc true (l.foldl (step3AggBody cid allowed) x)
        (l.foldl (step3AggBody cid allowed) y) := by
  intro l
  induction l with
  | nil =>
    intro x y hnd hn hc h3 h4 h5 h6 h7 h8
    have heq : y.nodes = x.nodes :=
      dictRel_eq (dictRel_mono (fun k a b h => h.2 (List.not_mem_nil k)) hn)
    exact ⟨heq, hc, h3, h4, h5, h6, h7, h8⟩
  | cons k rest ih =>
    intro x y hnd hn hc h3 h4 h5 h6 h7 h8
    simp only [List.foldl_cons]
    rcases dictRel_find hn k with ⟨hfx, hfy⟩ | ⟨a, b, hfx, hfy, hab⟩
    · have hbx : step3AggBody cid allowed x k = x := by
        simp only [step3AggBody, hfx]
      have hby : step3AggBody cid allowed y k = y := by
        simp only [step3AggBody, hfy]
      rw [hbx, hby]
      refine ih hnd ?_ hc h3 h4 h5 h6 h7 h8
      refine dictRel_mono_mem hn ?_
      intro k2 a2 b2 hm hr
      refine ⟨hr.1, ?_⟩
      intro hk2
      refine hr.2 ?_
      intro hmem
      rcases List.mem_cons.mp hmem with he | hm2
      · have h9 : x.nodes.find k2 = some a2 := find_of_mem_nodup hm hnd
        rw [he, hfx] at h9
        exact Option.noConfusion h9
      · exact hk2 hm2
    · have hsn := hab.1
      by_cases hsw : a.node_type = NodeType.SWITCH
      · have hsw' : b.node_type = NodeType.SWITCH := by
          rw [(nodeSync_fields hsn).2.1]
          exact hsw
        have hnd0 : nodesSynced false x.nodes y.nodes := by
          have hd : dictRel (fun _ => nodeSync) x.nodes y.nodes :=
            dictRel_mono (fun k2 a2 b2 h => h.1) hn
          exact hd
        have hRmid : CR tc false x y := ⟨hnd0, hc, h3, h4, h5, h6, h7, h8⟩
        have hcs : controlSum y cid allowed k = controlSum x cid allowed k :=
          controlSum_congr_CR hRmid cid allowed k
        have hbx : step3AggBody cid allowed x k = { x with nodes := x.nodes.insert k { a with rated_current := controlSum x cid allowed k } } := by
          simp only [step3AggBody, hfx, if_pos hsw]
        have hby : step3AggBody cid allowed y k = { y with nodes := y.nodes.insert k { b with rated_current := controlSum y cid allowed k } } := by
          simp only [step3AggBody, hfy, if_pos hsw']
        have hnode : ({ b with rated_current := controlSum y cid allowed k } : Node)
            = { a with rated_current := controlSum x cid allowed k } := by
          rw [hcs, hsn.1]
        rw [hnode] at hby
        rw [hbx, hby]
        refine ih ?_ ?_ hc h3 h4 h5 h6 h7 h8
        · exact (keys_insert_found hfx _).symm ▸ hnd
        · refine dictRel_insert_step hn hnd ?_ ?_
          · intro k2 a2 b2 hne hr
            refine ⟨hr.1, ?_⟩
            intro hk2
            exact hr.2 (fun hmem => (List.mem_cons.mp hmem).elim
              (fun he => hne he) (fun hm2 => hk2 hm2))
          · exact ⟨nodeSync_refl _, fun _ => rfl⟩
      · have hba : b = a := hsn.2 hsw
        have hsw' : ¬ b.node_type = NodeType.SWITCH := by
          rw [hba]
          exact hsw
        have hbx : step3AggBody cid allowed x k = x := by
          simp only [step3AggBody, hfx, if_neg hsw]
        have hby : step3AggBody cid allowed y k = y := by
          simp only [step3AggBody, hfy, if_neg hsw']
        rw [hbx, hby]
        refine ih hnd ?_ hc h3 h4 h5 h6 h7 h8
        refine dictRel_mono_mem hn ?_
        intro k2 a2 b2 hm hr
        refine ⟨hr.1, ?_⟩
        intro hk2
        by_cases hke : k2 = k
        · have h9 : x.nodes.find k = some a2 := by
            rw [← hke]
            exact find_of_mem_nodup hm hnd
          rw [hfx] at h9
          have ha2 : a2 = a := (Option.some.inj h9).symm
          exact hr.1.2 (by rw [ha2]; exact hsw)
        · exact hr.2 (fun hmem => (List.mem_cons.mp hmem).elim
            (fun he => hke he) (fun hm2 => hk2 hm2))

theorem step3_aggregate_sync {tc : PyDict Conduit} {flag : Bool} {x y : CircuitSystem}
    (hR : CR tc flag x y) (hnd : (PyDict.keys x.nodes).Nodup)
    (cid : String) (allowed : List String) :
    CR tc true (step3_aggregate x cid allowed) (step3_aggregate y cid allowed) := by
  simp only [step3_aggregate]
  rw [nodesSynced_keys hR.1]
  cases flag with
  | true =>
    have heq : y.nodes = x.nodes := hR.1
    refine step3AggFold_sync cid allowed (PyDict.keys x.nodes) hnd ?_ hR.2.1 hR.2.2.1
      hR.2.2.2.1 hR.2.2.2.2.1 hR.2.2.2.2.2.1 hR.2.2.2.2.2.2.1 hR.2.2.2.2.2.2.2
    rw [heq]
    exact dictRel_refl (fun k a => ⟨nodeSync_refl a, fun _ => rfl⟩) x.nodes
  | false =>
    have hd : dictRel (fun _ => nodeSync) x.nodes y.nodes := hR.1
    refine step3AggFold_sync cid allowed (PyDict.keys x.nodes) hnd ?_ hR.2.1 hR.2.2.1
      hR.2.2.2.1 hR.2.2.2.2.1 hR.2.2.2.2.2.1 hR.2.2.2.2.2.2.1 hR.2.2.2.2.2.2.2
    refine dictRel_mono_mem hd ?_
    intro k a b hm hr
    refine ⟨hr, ?_⟩
    intro hk
    exact absurd (List.mem_map_of_mem _ hm) hk

theorem step3_sync {tc : PyDict Conduit} {flag : Bool} {g : Graph}
    {x y : CircuitSystem} (hR : CR tc flag x y) {dbid cid : String}
    (hcid : optTruthy (some cid) = true) {allowed : List String}
    (hNS : noSwitchMembers x) (hnd : (PyDict.keys x.nodes).Nodup) {x1 : CircuitSystem}
    (hok : step3_lay_control_wires g x dbid cid allowed = .ok x1)
    (hfin : dictRel (fun _ => condLe) x1.conduits tc) :
    ∃ y1, step3_lay_control_wires g y dbid cid allowed = .ok y1 ∧ CR tc true x1 y1 := by
  simp only [step3_lay_control_wires] at hok ⊢
  obtain ⟨xu, hufold, hagg⟩ := bind_ok hok
  try dsimp only at hagg
  have hx1 : x1 = step3_aggregate xu cid allowed := (ok_inj hagg).symm
  have hxufin : dictRel (fun _ => condLe) xu.conduits tc := by
    rw [hx1, step3_aggregate_conduits] at hfin
    exact hfin
  rw [hR.2.2.1]
  obtain ⟨yu, hyfold, hCRu⟩ := foldRes_sync
    (fun z => noSwitchMembers z ∧ z.units = x.units)
    (fun u => u ∈ PyDict.values x.units)
    (by
      intro z a z' hb
      try dsimp only at hb
      by_cases hu1 : a.unit_type ≠ "受控" ∨ ¬ optTruthy a.control_switch_id = true
      · rw [if_pos hu1] at hb
        exact evolves_of_ok_eq hb
      · rw [if_neg hu1] at hb
        try dsimp only at hb
        by_cases hu2 : ¬ allowed.contains (a.control_switch_id.getD "") = true
        · rw [if_pos hu2] at hb
          exact evolves_of_ok_eq hb
        · rw [if_neg hu2] at hb
          by_cases hu3 : a.member_node_ids.isEmpty = true
          · rw [if_pos hu3] at hb
            exact evolves_of_ok_eq hb
          · rw [if_neg hu3] at hb
            by_cases hu4 : ¬ a.member_node_ids.all (fun m => allowed.contains m) = true
            · rw [if_pos hu4] at hb
              exact evolves_of_ok_eq hb
            · rw [if_neg hu4] at hb
              obtain ⟨za, hlay, hrest⟩ := bind_ok hb
              try dsimp only at hrest
              refine evolves_trans (lay_mst_evolves hlay) ?_
              refine foldRes_evolves ?_ a.member_node_ids za z' hrest
              intro w2 m w2' hw
              exact pathAccumBody_evolves
                (build_wire_graph za WireType.L_CONTROL (some cid))
                (a.control_switch_id.getD "") _ w2 m w2' hw)
    (by
      intro z z' hev hp
      exact ⟨noSwitchMembers_evolves hev hp.1, hev.2.2.1.trans hp.2⟩)
    (by
      intro z w a z1 hRz hPz hQa hb hf2
      try dsimp only at hb ⊢
      by_cases hu1 : a.unit_type ≠ "受控" ∨ ¬ optTruthy a.control_switch_id = true
      · rw [if_pos hu1] at hb ⊢
        exact ⟨w, rfl, by rw [← ok_inj hb]; exact hRz⟩
      · rw [if_neg hu1] at hb ⊢
        try dsimp only at hb ⊢
        by_cases hu2 : ¬ allowed.contains (a.control_switch_id.getD "") = true
        · rw [if_pos hu2] at hb ⊢
          exact ⟨w, rfl, by rw [← ok_inj hb]; exact hRz⟩
        · rw [if_neg hu2] at hb ⊢
          by_cases hu3 : a.member_node_ids.isEmpty = true
          · rw [if_pos hu3] at hb ⊢
            exact ⟨w, rfl, by rw [← ok_inj hb]; exact hRz⟩
          · rw [if_neg hu3] at hb ⊢
            by_cases hu4 : ¬ a.member_node_ids.all (fun m => allowed.contains m) = true
            · rw [if_pos hu4] at hb ⊢
              exact ⟨w, rfl, by rw [← ok_inj hb]; exact hRz⟩
            · rw [if_neg hu4] at hb ⊢
              obtain ⟨za, hlay, hrest⟩ := bind_ok hb
              try dsimp only at hrest
              have hza1 : evolves za z1 := by
                refine foldRes_evolves ?_ a.member_node_ids za z1 hrest
                intro w2 m w2' hw
                exact pathAccumBody_evolves
                  (build_wire_graph za WireType.L_CONTROL (some cid))
                  (a.control_switch_id.getD "") _ w2 m w2' hw
              have hzafin : dictRel (fun _ => condLe) za.conduits tc :=
                dictRel_comp
                  (fun _ (a b c : Conduit) (h1 : condLe a b) (h2 : condLe b c) =>
                    condLe_trans h1 h2) hza1.1 hf2
              obtain ⟨ya, hylay, hCRa⟩ := lay_mst_sync hRz hcid hlay hzafin
              rw [hylay]
              dsimp only [Res.bind]
              rw [build_wire_graph_congr_CR hCRa WireType.L_CONTROL (some cid)]
              have hevza := lay_mst_evolves hlay
              refine foldRes_sync
                (fun v => noSwitchMembers v ∧ a ∈ PyDict.values v.units)
                (fun m => m ∈ a.member_node_ids) ?_ ?_ ?_
                a.member_node_ids (fun _ hm => hm) hCRa
                ⟨noSwitchMembers_evolves hevza hPz.1, ?_⟩ hrest hf2
              · intro w2 m w2' hw
                exact pathAccumBody_evolves
                  (build_wire_graph za WireType.L_CONTROL (some cid))
                  (a.control_switch_id.getD "") _ w2 m w2' hw
              · intro v v' hev hp
                refine ⟨noSwitchMembers_evolves hev hp.1, ?_⟩
                rw [hev.2.2.1]
                exact hp.2
              · intro z2 w2 m z2' hRz2 hPz2 hQm hb2 hf3
                exact pathAccumBody_sync
                  (build_wire_graph za WireType.L_CONTROL (some cid))
                  (a.control_switch_id.getD "") _ hRz2 m
                  (fun n hn => hPz2.1 a hPz2.2 m hQm n hn) hb2
              · rw [hevza.2.2.1, hPz.2]
                exact hQa)
    (PyDict.values x.units) (fun _ hu => hu) hR ⟨hNS, rfl⟩ hufold hxufin
  have hnd2 : (PyDict.keys xu.nodes).Nodup := by
    have hev : evolves x xu := by
      refine foldRes_evolves ?_ (PyDict.values x.units) x xu hufold
      intro z a z' hb
      try dsimp only at hb
      by_cases hu1 : a.unit_type ≠ "受控" ∨ ¬ optTruthy a.control_switch_id = true
      · rw [if_pos hu1] at hb
        exact evolves_of_ok_eq hb
      · rw [if_neg hu1] at hb
        try dsimp only at hb
        by_cases hu2 : ¬ allowed.contains (a.control_switch_id.getD "") = true
        · rw [if_pos hu2] at hb
          exact evolves_of_ok_eq hb
        · rw [if_neg hu2] at hb
          by_cases hu3 : a.member_node_ids.isEmpty = true
          · rw [if_pos hu3] at hb
            exact evolves_of_ok_eq hb
          · rw [if_neg hu3] at hb
            by_cases hu4 : ¬ a.member_node_ids.all (fun m => allowed.contains m) = true
            · rw [if_pos hu4] at hb
              exact evolves_of_ok_eq hb
            · rw [if_neg hu4] at hb
              obtain ⟨za, hlay, hrest⟩ := bind_ok hb
              try dsimp only at hrest
              refine evolves_trans (lay_mst_evolves hlay) ?_
              refine foldRes_evolves ?_ a.member_node_ids za z' hrest
              intro w2 m w2' hw
              exact pathAccumBody_evolves
                (build_wire_graph za WireType.L_CONTROL (some cid))
                (a.control_switch_id.getD "") _ w2 m w2' hw
    rw [dictRel_keys hev.2.1]
    exact hnd
  refine ⟨step3_aggregate yu cid allowed, ?_, ?_⟩
  · rw [hyfold]
    dsimp only [Res.bind]
  · rw [hx1]
    exact step3_aggregate_sync hCRu hnd2 cid allowed

/-! ## Claim C9: step-4 lockstep -/

theorem power_sources_congr_CR {tc : PyDict Conduit} {flag : Bool}
    {x y : CircuitSystem} (h : CR tc flag x y) (cid : String) :
    ((PyDict.values y.conduits).filter (fun c => c.wires.any (fun w =>
        w.wire_type == WireType.L_POWER && w.circuit_id == some cid))).foldl
      (fun acc c => acc ++ [c.start_node_id, c.end_node_id]) []
    = ((PyDict.values x.conduits).filter (fun c => c.wires.any (fun w =>
        w.wire_type == WireType.L_POWER && w.circuit_id == some cid))).foldl
      (fun acc c => acc ++ [c.start_node_id, c.end_node_id]) [] := by
  refine foldl_forall2 ?_ (forall2_filter ?_ (dictRel_values h.2.1)) []
  · intro acc c c' hcc
    obtain ⟨k, hk⟩ := hcc
    have hfl := condSyncC_fields hk
    rw [hfl.2.1, hfl.2.2.1]
  · intro c c' hcc
    obtain ⟨k, hk⟩ := hcc
    rw [(condSyncC_fields hk).2.2.2.2]

theorem step4_loop_sync {tc : PyDict Conduit} {g : Graph} {cid : String}
    (hcid : optTruthy (some cid) = true) (allowed : List String) :
    ∀ (fuel : Nat) (sources unconnected : List String) {x y x' : CircuitSystem}
      {ws : List String}, CR tc true x y →
      step4_loop g cid allowed fuel sources unconnected x = .ok (x', ws) →
      dictRel (fun _ => condLe) x'.conduits tc →
      ∃ y', step4_loop g cid allowed fuel sources unconnected y = .ok (y', ws) ∧
        CR tc true x' y' := by
  intro fuel
  induction fuel with
  | zero =>
    intro sources unc x y x' ws hR hok hfin
    simp only [step4_loop] at hok ⊢
    injection hok with h1
    injection h1 with h2 h3
    exact ⟨y, by rw [← h3], by rw [← h2]; exact hR⟩
  | succ fuel ih =>
    intro sources unc x y x' ws hR hok hfin
    simp only [step4_loop] at hok ⊢
    by_cases hemp : unc.isEmpty = true
    · rw [if_pos hemp] at hok ⊢
      injection hok with h1
      injection h1 with h2 h3
      exact ⟨y, by rw [← h3], by rw [← h2]; exact hR⟩
    · rw [if_neg hemp] at hok ⊢
      try dsimp only at hok ⊢
      cases hscan : step4_scan (g.subgraph (pyUnion allowed sources)) sources unc none with
      | raised =>
        simp only [hscan] at hok
        exact Res.noConfusion hok
      | noneFound =>
        simp only [hscan] at hok ⊢
        injection hok with h1
        injection h1 with h2 h3
        exact ⟨y, by rw [← h3], by rw [← h2]; exact hR⟩
      | found sw d p =>
        simp only [hscan] at hok ⊢
        cases haw : (if Q.zero.lt d then addWiresToPath x p WireType.L_POWER none (some cid)
            else Res.ok x) with
        | err e s2 =>
          rw [haw] at hok
          exact Res.noConfusion hok
        | ok x2 =>
          rw [haw] at hok
          try dsimp only at hok
          have hx2fin : dictRel (fun _ => condLe) x2.conduits tc := by
            have hev : evolves x2 x' :=
              step4_loop_evolves g cid allowed fuel _ _ x2 x' ws hok
            exact dictRel_comp
              (fun _ (a b c : Conduit) (h1 : condLe a b) (h2 : condLe b c) =>
                condLe_trans h1 h2) hev.1 hfin
          by_cases hlt : Q.zero.lt d = true
          · rw [if_pos hlt] at haw
            obtain ⟨y2, hyaw, hCR2⟩ := addWiresToPath_sync hR hcid haw hx2fin
            rw [if_pos hlt, hyaw]
            try dsimp only
            exact ih _ _ hCR2 hok hfin
          · rw [if_neg hlt] at haw
            have hR2 : CR tc true x2 y := by
              rw [(ok_inj haw).symm]
              exact hR
            rw [if_neg hlt]
            try dsimp only
            exact ih _ _ hR2 hok hfin

theorem step4_sync {tc : PyDict Conduit} {g : Graph} {x y : CircuitSystem}
    (hR : CR tc true x y) {dbid cid : String} (hcid : optTruthy (some cid) = true)
    {allowed : List String} {x4 : CircuitSystem} {warns : List String}
    (hok : step4_connect_switches_to_power g x dbid cid allowed = .ok (x4, warns))
    (hfin : dictRel (fun _ => condLe) x4.conduits tc) :
    ∃ y4, step4_connect_switches_to_power g y dbid cid allowed = .ok (y4, warns) ∧
      CR tc true x4 y4 := by
  simp only [step4_connect_switches_to_power] at hok ⊢
  rw [power_sources_congr_CR hR cid]
  have hnn : y.nodes = x.nodes := hR.1
  rw [hnn]
  cases hloop : step4_loop g cid allowed
      ((pyset (((PyDict.values x.nodes).filter (fun n =>
        n.node_type = NodeType.SWITCH ∧ allowed.contains n.id)).map (fun n => n.id))).length + 1)
      (pyset ([dbid] ++ ((PyDict.values x.conduits).filter (fun c => c.wires.any (fun w =>
        w.wire_type == WireType.L_POWER && w.circuit_id == some cid))).foldl
        (fun acc c => acc ++ [c.start_node_id, c.end_node_id]) []))
      (pyset (((PyDict.values x.nodes).filter (fun n =>
        n.node_type = NodeType.SWITCH ∧ allowed.contains n.id)).map (fun n => n.id))) x with
  | err e pr =>
    rw [hloop] at hok
    exact Res.noConfusion hok
  | ok pr =>
    obtain ⟨s2x, ws2⟩ := pr
    rw [hloop] at hok
    try dsimp only at hok
    injection hok with h1
    injection h1 with h2 h3
    have hs2fin : dictRel (fun _ => condLe) s2x.conduits tc := by
      have hev : evolves s2x x4 := by
        rw [← h2]
        refine foldl_evolves ?_ _ s2x
        intro z sw
        by_cases hle : sw.rated_current.le Q.zero = true
        · rw [if_pos hle]
          exact evolves_refl z
        · rw [if_neg hle]
          cases hsp : (build_wire_graph s2x WireType.L_POWER (some cid)).shortest_path
              sw.id dbid with
          | found d p =>
            simp only [hsp]
            exact accumWires_evolves z p _ sw.rated_current
          | noPath =>
            simp only [hsp]
            exact evolves_refl z
          | nodeNotFound =>
            simp only [hsp]
            exact evolves_refl z
      exact dictRel_comp
        (fun _ (a b c : Conduit) (h1 : condLe a b) (h2 : condLe b c) =>
          condLe_trans h1 h2) hev.1 hfin
    obtain ⟨y2, hyloop, hCR2⟩ := step4_loop_sync hcid allowed _ _ _ hR hloop hs2fin
    rw [hyloop]
    try dsimp only
    rw [build_wire_graph_congr_CR hCR2 WireType.L_POWER (some cid)]
    refine ⟨((PyDict.values x.nodes).filter (fun n =>
        n.node_type = NodeType.SWITCH ∧ allowed.contains n.id)).foldl
      (fun s3 sw => if sw.rated_current.le Q.zero then s3 else
        match (build_wire_graph s2x WireType.L_POWER (some cid)).shortest_path sw.id dbid with
        | .found _ p =>
          accumWires s3 p (fun w => w.wire_type == WireType.L_POWER &&
            w.circuit_id == some cid) sw.rated_current
        | _ => s3) y2, ?_, ?_⟩
    · rw [h3]
    · rw [← h2]
      refine foldl_CR_sync ?_ _ hCR2
      intro z w sw hRz
      by_cases hle : sw.rated_current.le Q.zero = true
      · rw [if_pos hle, if_pos hle]
        exact hRz
      · rw [if_neg hle, if_neg hle]
        cases hsp : (build_wire_graph s2x WireType.L_POWER (some cid)).shortest_path
            sw.id dbid with
        | found d p =>
          simp only [hsp]
          exact accumWires_sync hRz p _ sw.rated_current
        | noPath =>
          simp only [hsp]
          exact hRz
        | nodeNotFound =>
          simp only [hsp]
          exact hRz

theorem runCircuitSteps_sync {tc : PyDict Conduit} {flag : Bool} {g : Graph}
    {x y : CircuitSystem} (hR : CR tc flag x y) {dbid cid : String}
    (hcid : optTruthy (some cid) = true) {allowed : List String}
    (hNS : noSwitchMembers x) (hnd : (PyDict.keys x.nodes).Nodup) {x' : CircuitSystem}
    (hok : runCircuitSteps g x dbid cid allowed = .ok x')
    (hfin : dictRel (fun _ => condLe) x'.conduits tc) :
    ∃ y', runCircuitSteps g y dbid cid allowed = .ok y' ∧ CR tc true x' y' := by
  simp only [runCircuitSteps] at hok ⊢
  obtain ⟨x1, h1, hok⟩ := bind_ok hok
  try dsimp only at hok
  obtain ⟨x2, h2, hok⟩ := bind_ok hok
  try dsimp only at hok
  obtain ⟨x3, h3, hok⟩ := bind_ok hok
  try dsimp only at hok
  cases h4 : step4_connect_switches_to_power g x3 dbid cid allowed with
  | err e pr =>
    rw [h4] at hok
    exact Res.noConfusion hok
  | ok pr =>
    obtain ⟨x4, ws⟩ := pr
    rw [h4] at hok
    try dsimp only at hok
    have hx4 : x4 = x' := ok_inj hok
    have hfin4 : dictRel (fun _ => condLe) x4.conduits tc := by
      rw [hx4]
      exact hfin
    have hev4 : evolves x3 x4 := step4_evolves h4
    have hfin3 : dictRel (fun _ => condLe) x3.conduits tc :=
      dictRel_comp
        (fun _ (a b c : Conduit) (h1 : condLe a b) (h2 : condLe b c) =>
          condLe_trans h1 h2) hev4.1 hfin4
    have hev3 : evolves x2 x3 := step3_evolves h3
    have hfin2 : dictRel (fun _ => condLe) x2.conduits tc :=
      dictRel_comp
        (fun _ (a b c : Conduit) (h1 : condLe a b) (h2 : condLe b c) =>
          condLe_trans h1 h2) hev3.1 hfin3
    have hev2 : evolves x1 x2 := step2_evolves h2
    have hfin1 : dictRel (fun _ => condLe) x1.conduits tc :=
      dictRel_comp
        (fun _ (a b c : Conduit) (h1 : condLe a b) (h2 : condLe b c) =>
          condLe_trans h1 h2) hev2.1 hfin2
    have hev1 : evolves x x1 := step1_base_evolves g x dbid cid allowed x1 h1
    have hNS1 : noSwitchMembers x1 := noSwitchMembers_evolves hev1 hNS
    have hNS2 : noSwitchMembers x2 := noSwitchMembers_evolves hev2 hNS1
    have hnd2 : (PyDict.keys x2.nodes).Nodup := by
      rw [dictRel_keys (evolves_trans hev1 hev2).2.1]
      exact hnd
    obtain ⟨y1, hy1, hCR1⟩ := step1_base_sync hR hcid allowed h1 hfin1
    obtain ⟨y2, hy2, hCR2⟩ := step2_sync hCR1 hcid hNS1 h2 hfin2
    obtain ⟨y3, hy3, hCR3⟩ := step3_sync hCR2 hcid hNS2 hnd2 h3 hfin3
    obtain ⟨y4, hy4, hCR4⟩ := step4_sync hCR3 hcid h4 hfin4
    refine ⟨y4, ?_, ?_⟩
    · rw [hy1]
      dsimp only [Res.bind]
      rw [hy2]
      dsimp only [Res.bind]
      rw [hy3]
      dsimp only [Res.bind]
      rw [hy4]
    · rw [← hx4]
      exact hCR4

/-! ## Claim C9: top-level assembly -/

theorem clearRel (d : PyDict Conduit) :
    dictRel (fun _ => condLe) d (d.map (fun p => (p.1, { p.2 with wires := [] }))) := by
  induction d with
  | nil => exact List.Forall₂.nil
  | cons p t ih =>
    refine List.Forall₂.cons ⟨rfl, ?_⟩ ih
    exact ⟨rfl, rfl, rfl, rfl, bindLe_refl _⟩

theorem evolves_clear (s : CircuitSystem) : evolves s s.clear_wires :=
  ⟨clearRel s.conduits, dictRel_refl (fun _ a => nodeSync_refl a) _,
   rfl, rfl, rfl, rfl, rfl, rfl⟩

theorem clear_keys (d : PyDict Conduit) :
    PyDict.keys (d.map (fun p => (p.1, { p.2 with wires := [] }))) = PyDict.keys d := by
  simp only [PyDict.keys, List.map_map]
  rfl

theorem buildGraph_congr_evolves {x y : CircuitSystem} (h : evolves x y) :
    buildGraph y = buildGraph x := by
  simp only [buildGraph]
  rw [foldl_forall2 (fun g a b hab => by
      obtain ⟨k, hk⟩ := hab
      rw [(nodeSync_fields hk).1]) (dictRel_values h.2.1) (⟨[], []⟩ : Graph)]
  refine foldl_forall2 ?_ (dictRel_values h.1) _
  intro g c c' hcc
  obtain ⟨k, hk⟩ := hcc
  rw [hk.2.1, hk.2.2.1, hk.2.2.2.1]

theorem foldRes_sync_flag {α : Type} {tc : PyDict Conduit}
    {body : CircuitSystem → α → Res CircuitSystem}
    (P : CircuitSystem → Prop) (Q : α → Prop)
    (hbody_ev : ∀ x a x', body x a = .ok x' → evolves x x')
    (hPev : ∀ {x x' : CircuitSystem}, evolves x x' → P x → P x')
    (hbody : ∀ {flag : Bool} {x y : CircuitSystem} {a : α} {x1 : CircuitSystem},
      CR tc flag x y → P x → Q a → body x a = .ok x1 →
      dictRel (fun _ => condLe) x1.conduits tc →
      ∃ y1, body y a = .ok y1 ∧ CR tc true x1 y1) :
    ∀ (l : List α) {flag : Bool} {x y x' : CircuitSystem}, (∀ a ∈ l, Q a) →
      CR tc flag x y → P x → foldRes body l x = .ok x' →
      dictRel (fun _ => condLe) x'.conduits tc →
      ∃ y', foldRes body l y = .ok y' ∧
        CR tc (if l.isEmpty then flag else true) x' y' := by
  intro l
  induction l with
  | nil =>
    intro flag x y x' _ hR _ hok _
    refine ⟨y, rfl, ?_⟩
    rw [← ok_inj hok]
    exact hR
  | cons a l ih =>
    intro flag x y x' hq hR hP hok hfin
    simp only [foldRes] at hok
    cases hba : body x a with
    | err e s2 =>
      rw [hba] at hok
      exact Res.noConfusion hok
    | ok x1 =>
      rw [hba] at hok
      have hx1fin : dictRel (fun _ => condLe) x1.conduits tc := by
        have hev : evolves x1 x' := foldRes_evolves hbody_ev l x1 x' hok
        exact dictRel_comp
          (fun _ (a b c : Conduit) (h1 : condLe a b) (h2 : condLe b c) =>
            condLe_trans h1 h2) hev.1 hfin
      obtain ⟨y1, hby, hCR1⟩ := hbody hR hP (hq a (List.mem_cons_self a l)) hba hx1fin
      obtain ⟨y', hy, hCR'⟩ := ih (fun a2 ha2 => hq a2 (List.mem_cons_of_mem a ha2))
        hCR1 (hPev (hbody_ev x a x1 hba) hP) hok hfin
      have hCR2 : CR tc true x' y' := by
        by_cases hl : l.isEmpty = true
        · rw [if_pos hl] at hCR'
          exact hCR'
        · rw [if_neg hl] at hCR'
          exact hCR'
      refine ⟨y', ?_, hCR2⟩
      simp only [foldRes, hby]
      exact hy

theorem condsSynced_end {tc : PyDict Conduit} (hnd : (PyDict.keys tc).Nodup)
    {d e : PyDict Conduit} (hsub : ∀ p, p ∈ PyDict.entries d → p ∈ PyDict.entries tc)
    (h : dictRel (condSyncC tc) d e) : e = d := by
  refine dictRel_eq (dictRel_mono_mem h ?_)
  intro k a b hm hr
  have hbof : bindsOf tc k = a.circuit_id := bindsOf_of_mem hnd (hsub (k, a) hm)
  rw [hr.1, hbof]

theorem system_ext {a b : CircuitSystem} (h1 : a.nodes = b.nodes)
    (h2 : a.conduits = b.conduits) (h3 : a.units = b.units)
    (h4 : a.distribution_box_id = b.distribution_box_id)
    (h5 : a.distribution_box_ids = b.distribution_box_ids)
    (h6 : a.circuit_id = b.circuit_id) (h7 : a.circuits = b.circuits)
    (h8 : a.adj = b.adj) : a = b := by
  cases a
  cases b
  dsimp only at h1 h2 h3 h4 h5 h6 h7 h8
  rw [h1, h2, h3, h4, h5, h6, h7, h8]

theorem append_colon_ne (a b : String) : optTruthy (some (a ++ ":" ++ b)) = true := by
  simp only [optTruthy]
  by_cases h : a ++ ":" ++ b = ""
  · exfalso
    have hd : (a ++ ":" ++ b).data = ("" : String).data := congrArg String.data h
    rw [String.data_append, String.data_append] at hd
    have h1 := List.append_eq_nil.mp hd
    have h2 := List.append_eq_nil.mp h1.1
    have h3 : (":" : String).data = [] := h2.2
    exact absurd h3 (by decide)
  · exact bne_iff_ne.mpr h

theorem values_isEmpty {α : Type} (d : PyDict α) :
    (PyDict.values d).isEmpty = d.isEmpty := by
  cases d with
  | nil => rfl
  | cons _p _t => rfl

theorem clear_wires_circuits (s : CircuitSystem) :
    (s.clear_wires).circuits = s.circuits := rfl

theorem clear_wires_dbid (s : CircuitSystem) :
    (s.clear_wires).distribution_box_id = s.distribution_box_id := rfl

theorem clear_wires_dbids (s : CircuitSystem) :
    (s.clear_wires).distribution_box_ids = s.distribution_box_ids := rfl

theorem c9_end {t y_end : CircuitSystem} (hndtc : (PyDict.keys t.conduits).Nodup)
    (hCRend : CR t.conduits true t y_end) : y_end = t :=
  system_ext hCRend.1 (condsSynced_end hndtc (fun _p hp => hp) hCRend.2.1)
    hCRend.2.2.1 hCRend.2.2.2.2.2.1 hCRend.2.2.2.2.2.2.1 hCRend.2.2.2.2.2.2.2
    hCRend.2.2.2.1 hCRend.2.2.2.2.1

/-- C9 (amended): on a system with duplicate-free conduit and node keys,
non-empty circuit ids and no switch used as a unit member, a successful
calculate run is exactly reproducible: clearing the wires of the result and
running calculate again succeeds and returns the very same state, wire
currents included. -/
theorem c9_amended {s t : CircuitSystem}
    (hndc : (PyDict.keys s.conduits).Nodup)
    (hndn : (PyDict.keys s.nodes).Nodup)
    (hcid : ∀ c ∈ PyDict.values s.circuits, c.id ≠ "")
    (hNS : noSwitchMembers s)
    (hok : calculate s = .ok t) :
    calculate t.clear_wires = .ok t := by
  simp only [calculate] at hok ⊢
  rw [clear_wires_idem t]
  have hev1 : evolves s.clear_wires t := by
    by_cases hemp : (s.clear_wires).circuits.isEmpty = true
    · rw [if_pos hemp] at hok
      refine foldRes_evolves ?_ _ _ _ hok
      intro z a z' hb
      try dsimp only at hb
      exact runCircuitSteps_evolves hb
    · rw [if_neg hemp] at hok
      refine foldRes_evolves ?_ _ _ _ hok
      intro z a z' hb
      try dsimp only at hb
      exact runCircuitSteps_evolves hb
  have hcy : (t.clear_wires).circuits = (s.clear_wires).circuits := hev1.2.2.2.1
  have hevst : evolves s (t.clear_wires) :=
    evolves_trans (evolves_clear s) (evolves_trans hev1 (evolves_clear t))
  have hndtc : (PyDict.keys t.conduits).Nodup := by
    rw [dictRel_keys hev1.1]
    have h9 : PyDict.keys ((s.clear_wires).conduits) = PyDict.keys s.conduits :=
      clear_keys s.conduits
    rw [h9]
    exact hndc
  have hle : dictRel (fun _ => condLe) s.conduits t.conduits :=
    dictRel_comp
      (fun _ (a b c : Conduit) (h1 : condLe a b) (h2 : condLe b c) =>
        condLe_trans h1 h2) (clearRel s.conduits) hev1.1
  have hc0 : dictRel (condSyncC t.conduits) (s.clear_wires).conduits
      (t.clear_wires).conduits := condsSynced_start hndtc hle
  have hn0 : nodesSynced false (s.clear_wires).nodes (t.clear_wires).nodes := by
    have hd : dictRel (fun _ => nodeSync) (s.clear_wires).nodes
        (t.clear_wires).nodes := hev1.2.1
    exact hd
  have hCR0 : CR t.conduits false (s.clear_wires) (t.clear_wires) :=
    ⟨hn0, hc0, hev1.2.2.1, hev1.2.2.2.1, hev1.2.2.2.2.1, hev1.2.2.2.2.2.1,
     hev1.2.2.2.2.2.2.1, hev1.2.2.2.2.2.2.2⟩
  have hfint : dictRel (fun _ => condLe) t.conduits t.conduits :=
    dictRel_refl (fun _ a => condLe_refl a) t.conduits
  have hNS0 : noSwitchMembers s.clear_wires :=
    noSwitchMembers_evolves (evolves_clear s) hNS
  have hndn0 : (PyDict.keys (s.clear_wires).nodes).Nodup := hndn
  by_cases hemp : (s.clear_wires).circuits.isEmpty = true
  · rw [if_pos hemp] at hok
    rw [hcy, if_pos hemp]
    rw [buildGraph_congr_evolves hevst]
    have e1 : t.distribution_box_id = s.distribution_box_id := hevst.2.2.2.2.2.1
    have e2 : t.distribution_box_ids = s.distribution_box_ids := hevst.2.2.2.2.2.2.1
    have hdb : distBoxes (t.clear_wires) = distBoxes (s.clear_wires) := by
      simp only [distBoxes, clear_wires_dbid, clear_wires_dbids, e1, e2]
    rw [hdb]
    by_cases hdbe : (distBoxes (s.clear_wires)).isEmpty = true
    · rw [List.isEmpty_iff.mp hdbe] at hok ⊢
      have ht : s.clear_wires = t := ok_inj hok
      rw [← ht, clear_wires_idem s]
      rfl
    · obtain ⟨y_end, hyend, hCRend⟩ := foldRes_sync_flag
        (fun z => noSwitchMembers z ∧ (PyDict.keys z.nodes).Nodup)
        (fun _ => True)
        (by
          intro z a z' hb
          try dsimp only at hb
          exact runCircuitSteps_evolves hb)
        (by
          intro z z' hev hp
          refine ⟨noSwitchMembers_evolves hev hp.1, ?_⟩
          rw [dictRel_keys hev.2.1]
          exact hp.2)
        (by
          intro flag z w a z1 hRz hPz _ hb hf2
          try dsimp only at hb ⊢
          rw [hRz.2.2.2.2.2.2.2, nodesSynced_keys hRz.1]
          exact runCircuitSteps_sync hRz (append_colon_ne _ _) hPz.1 hPz.2 hb hf2)
        (distBoxes (s.clear_wires)) (fun _ _ => trivial) hCR0 ⟨hNS0, hndn0⟩ hok hfint
      rw [if_neg hdbe] at hCRend
      rw [hyend, c9_end hndtc hCRend]
  · rw [if_neg hemp] at hok
    rw [hcy, if_neg hemp]
    rw [buildGraph_congr_evolves hevst]
    obtain ⟨y_end, hyend, hCRend⟩ := foldRes_sync_flag
      (fun z => noSwitchMembers z ∧ (PyDict.keys z.nodes).Nodup)
      (fun c : Circuit => c.id ≠ "")
      (by
        intro z a z' hb
        try dsimp only at hb
        exact runCircuitSteps_evolves hb)
      (by
        intro z z' hev hp
        refine ⟨noSwitchMembers_evolves hev hp.1, ?_⟩
        rw [dictRel_keys hev.2.1]
        exact hp.2)
      (by
        intro flag z w a z1 hRz hPz hQa hb hf2
        try dsimp only at hb ⊢
        refine runCircuitSteps_sync hRz ?_ hPz.1 hPz.2 hb hf2
        simp only [optTruthy]
        exact bne_iff_ne.mpr hQa)
      (PyDict.values (s.clear_wires).circuits) (fun c hc => hcid c hc)
      hCR0 ⟨hNS0, hndn0⟩ hok hfint
    have hvne : ¬ (PyDict.values (s.clear_wires).circuits).isEmpty = true := by
      rw [values_isEmpty]
      exact hemp
    rw [if_neg hvne] at hCRend
    rw [hyend, c9_end hndtc hCRend]

theorem noSwitchMembers_of_B {s : CircuitSystem} (h : noSwitchMembersB s = true) :
    noSwitchMembers s := by
  intro u hu m hm n hn
  have h1 := List.all_eq_true.mp h u hu
  have h2 := List.all_eq_true.mp h1 m hm
  rw [hn] at h2
  exact of_decide_eq_true h2

set_option maxRecDepth 40000 in
/-- C9 (counterexample to the literal claim): on c9sys — whose uncontrolled
unit lists the switch itself as a member — the first calculate succeeds and
so does the re-run after clear_wires, but the wire currents differ: step 3
overwrote the switch's rated current (7 → 0), so the re-run lays the same
power wire with a different current. -/
theorem c9_counterexample :
    (calculate c9sys).isOk = true ∧
    (calculate ((calculate c9sys).state.clear_wires)).isOk = true ∧
    wireCurrents ((calculate c9sys).state) ≠
      wireCurrents ((calculate ((calculate c9sys).state.clear_wires)).state) :=
  ⟨by decide, by decide, by decide⟩

set_option maxRecDepth 100000 in
/-- C9 witness: the spec's demo scenario satisfies every hypothesis of the
amended claim, and re-running calculate after clear_wires returns exactly
the first result. -/
theorem c9_witness :
    calculate ((calculate specScenario).state.clear_wires)
      = .ok ((calculate specScenario).state) := by
  have hok : calculate specScenario = .ok ((calculate specScenario).state) := by decide
  exact c9_amended (by decide) (by decide) (by decide)
    (noSwitchMembers_of_B (by decide)) hok

/-! ## Claim C6: silent skipping, including units with no paths (steps 2-3) -/

theorem mem_insert_entries {α : Type} : ∀ {d : PyDict α} {k : String} {v : α}
    {p : String × α}, p ∈ PyDict.entries (d.insert k v) →
    p ∈ PyDict.entries d ∨ p = (k, v) := by
  intro d
  induction d with
  | nil =>
    intro k v p hp
    rcases List.mem_cons.mp hp with he | hm
    · exact Or.inr he
    · cases hm
  | cons q t ih =>
    intro k v p hp
    by_cases hq : q.1 = k
    · have h1 : PyDict.insert (q :: t) k v = (k, v) :: t := by
        simp [PyDict.insert, hq]
      rw [h1] at hp
      rcases List.mem_cons.mp hp with he | hm
      · exact Or.inr he
      · exact Or.inl (List.mem_cons_of_mem q hm)
    · have h1 : PyDict.insert (q :: t) k v = q :: PyDict.insert t k v := by
        simp [PyDict.insert, hq]
      rw [h1] at hp
      rcases List.mem_cons.mp hp with he | hm
      · exact Or.inl (by rw [he]; exact List.mem_cons_self q t)
      · rcases ih hm with h2 | h2
        · exact Or.inl (List.mem_cons_of_mem q h2)
        · exact Or.inr h2

theorem appendWires_mem {cid : String} {mk : Nat → Nat → Option String → Wire} :
    ∀ (count i : Nat) (ws : List Wire) (cc : Option String) {w : Wire},
      w ∈ appendWires cid mk count i ws cc →
      w ∈ ws ∨ ∃ n i2 cc2, w = mk n i2 cc2 := by
  intro count
  induction count with
  | zero =>
    intro i ws cc w h
    exact Or.inl h
  | succ k ih =>
    intro i ws cc w h
    simp only [appendWires] at h
    rcases ih (i + 1) (ws ++ [mk ws.length i cc]) cc h with h2 | h2
    · rcases List.mem_append.mp h2 with h3 | h3
      · exact Or.inl h3
      · exact Or.inr ⟨ws.length, i, cc, List.mem_singleton.mp h3⟩
    · exact Or.inr h2

theorem add_wire_ofType_mem {c : Conduit} {wt : WireType} {count : Nat}
    {uid e : Option String} {w : Wire}
    (hw : w ∈ ((c.add_wire (.ofType wt) count uid e).state).wires) :
    w ∈ c.wires ∨ w.unit_id = uid := by
  revert hw
  simp only [Conduit.add_wire]
  by_cases ht : optTruthy e = true
  · rw [if_pos ht]
    cases hb : c.circuit_id with
    | none =>
      intro hw
      rcases appendWires_mem count 0 c.wires _ hw with h | ⟨n, i2, cc2, he⟩
      · exact Or.inl h
      · right
        rw [he]
        rfl
    | some bound =>
      dsimp only
      by_cases heq : some bound = e
      · rw [if_pos heq]
        intro hw
        rcases appendWires_mem count 0 c.wires _ hw with h | ⟨n, i2, cc2, he⟩
        · exact Or.inl h
        · right
          rw [he]
          rfl
      · rw [if_neg heq]
        intro hw
        exact Or.inl hw
  · rw [if_neg ht]
    intro hw
    rcases appendWires_mem count 0 c.wires _ hw with h | ⟨n, i2, cc2, he⟩
    · exact Or.inl h
    · right
      rw [he]
      rfl

theorem mem_map_current {pick : Wire → Bool} {amt : Q} {ws : List Wire} {w : Wire}
    (hw : w ∈ ws.map (fun w => if pick w then { w with current := w.current.add amt } else w)) :
    ∃ w0 ∈ ws, w.unit_id = w0.unit_id := by
  rcases List.mem_map.mp hw with ⟨w0, hm, he⟩
  refine ⟨w0, hm, ?_⟩
  rw [← he]
  by_cases hp : pick w0 = true
  · rw [if_pos hp]
  · rw [if_neg hp]

theorem noUnitWires_insert {s : CircuitSystem} {uid : String} (h : noUnitWires s uid)
    {k : String} {c2 : Conduit} (hc : ∀ w ∈ c2.wires, w.unit_id ≠ some uid) :
    noUnitWires { s with conduits := s.conduits.insert k c2 } uid := by
  intro p hp w hw
  rcases mem_insert_entries hp with h2 | h2
  · exact h p h2 w hw
  · rw [h2] at hw
    exact hc w hw

theorem noUnitWires_accumBody {s : CircuitSystem} {uid : String}
    (h : noUnitWires s uid) (pick : Wire → Bool) (amt : Q) (uv : String × String) :
    noUnitWires (accumBody pick amt s uv) uid := by
  cases hg : s.get_conduit_entry uv.1 uv.2 with
  | none =>
    have hb : accumBody pick amt s uv = s := by
      simp only [accumBody, hg]
    rw [hb]
    exact h
  | some kc =>
    obtain ⟨k, c⟩ := kc
    have hb : accumBody pick amt s uv = { s with conduits := s.conduits.insert k { c with wires := c.wires.map (fun w => if pick w then { w with current := w.current.add amt } else w) } } := by
      simp only [accumBody, hg]
    rw [hb]
    refine noUnitWires_insert h ?_
    intro w hw
    obtain ⟨w0, hm0, he0⟩ := mem_map_current hw
    rw [he0]
    exact h (k, c) (find_mem _ _ _ (get_conduit_entry_find hg)) w0 hm0

theorem noUnitWires_accumWires {s : CircuitSystem} {uid : String}
    (h : noUnitWires s uid) (p : List String) (pick : Wire → Bool) (amt : Q) :
    noUnitWires (accumWires s p pick amt) uid := by
  simp only [accumWires]
  generalize pathPairs p = l
  induction l generalizing s with
  | nil => exact h
  | cons uv l ih =>
    simp only [List.foldl_cons]
    exact ih (noUnitWires_accumBody h pick amt uv)

theorem foldRes_pres {α : Type} {body : CircuitSystem → α → Res CircuitSystem}
    (P : CircuitSystem → Prop)
    (hbody : ∀ s a s', body s a = .ok s' → P s → P s') :
    ∀ (l : List α) (s s' : CircuitSystem), foldRes body l s = .ok s' → P s → P s' := by
  intro l
  induction l with
  | nil =>
    intro s s' h hp
    rw [← ok_inj h]
    exact hp
  | cons a l ih =>
    intro s s' h hp
    simp only [foldRes] at h
    cases hb : body s a with
    | err e s2 =>
      rw [hb] at h
      exact Res.noConfusion h
    | ok s2 =>
      rw [hb] at h
      exact ih s2 s' h (hbody s a s2 hb hp)

theorem noUnitWires_addWires {s : CircuitSystem} {uid : String} {path : List String}
    {wt : WireType} {uid0 cid0 : Option String} (hne : uid0 ≠ some uid)
    {s' : CircuitSystem} (hok : addWiresToPath s path wt uid0 cid0 = .ok s')
    (h : noUnitWires s uid) : noUnitWires s' uid := by
  simp only [addWiresToPath] at hok
  refine foldRes_pres (fun z => noUnitWires z uid) ?_ (pathPairs path) s s' hok h
  intro z uv z' hz hP
  cases hg : z.get_conduit_entry uv.1 uv.2 with
  | none =>
    simp only [hg] at hz
    rw [← ok_inj hz]
    exact hP
  | some kc =>
    obtain ⟨k, c⟩ := kc
    simp only [hg] at hz
    cases haw : c.add_wire (.ofType wt) 1 uid0 (orStr cid0 (some z.circuit_id)) with
    | err e c2 =>
      simp only [haw] at hz
      exact Res.noConfusion hz
    | ok c2 =>
      simp only [haw] at hz
      rw [← ok_inj hz]
      refine noUnitWires_insert hP ?_
      intro w hww
      have hmem : w ∈ ((c.add_wire (.ofType wt) 1 uid0 (orStr cid0 (some z.circuit_id))).state).wires := by
        rw [haw]
        exact hww
      rcases add_wire_ofType_mem hmem with h2 | h2
      · exact hP (k, c) (find_mem _ _ _ (get_conduit_entry_find hg)) w h2
      · rw [h2]
        exact hne

theorem noUnitWires_lay_mst {g : Graph} {s : CircuitSystem} {node_ids : List String}
    {anchor : String} {wt : WireType} {aid uid : String} (hne : aid ≠ uid)
    {cid0 : Option String} {allowed : Option (List String)} {s' : CircuitSystem}
    (hok : lay_mst_wires_via_conduits g s node_ids anchor wt (some aid) cid0 allowed = .ok s')
    (h : noUnitWires s uid) : noUnitWires s' uid := by
  revert hok
  simp only [lay_mst_wires_via_conduits]
  by_cases h1 : (pyset (node_ids ++ [anchor])).length < 2
  · rw [if_pos h1]
    intro hok
    rw [← ok_inj hok]
    exact h
  · rw [if_neg h1]
    cases buildK (match allowed with | none => g | some a => g.subgraph a)
        (ijPairsG (pyset (node_ids ++ [anchor]))) ⟨[], []⟩ with
    | none => exact fun hok => Res.noConfusion hok
    | some K =>
      dsimp only
      by_cases h2 : K.edgeCount = 0
      · rw [if_pos h2]
        intro hok
        rw [← ok_inj hok]
        exact h
      · rw [if_neg h2]
        intro hok
        refine foldRes_pres (fun z => noUnitWires z uid) ?_ K.mstEdges s s' hok h
        intro z uv z' hz hP
        cases hsp : (match allowed with | none => g | some a => g.subgraph a).shortest_path uv.1 uv.2 with
        | found d p =>
          simp only [hsp] at hz
          exact noUnitWires_addWires (fun he => hne (Option.some.inj he)) hz hP
        | noPath =>
          simp only [hsp] at hz
          rw [← ok_inj hz]
          exact hP
        | nodeNotFound =>
          simp only [hsp] at hz
          exact Res.noConfusion hz

theorem buildK_noPath {baseG : Graph} :
    ∀ (l : List (String × String)) (K : Graph),
      (∀ pr ∈ l, baseG.shortest_path pr.1 pr.2 = PRes.noPath) →
      buildK baseG l K = some K := by
  intro l
  induction l with
  | nil => exact fun K _ => rfl
  | cons pr l ih =>
    intro K hp
    obtain ⟨u, v⟩ := pr
    simp only [buildK]
    rw [hp (u, v) (List.mem_cons_self _ _)]
    exact ih K (fun pr2 h2 => hp pr2 (List.mem_cons_of_mem _ h2))

theorem map_pickfalse {pick : Wire → Bool} {amt : Q} :
    ∀ {ws : List Wire}, (∀ w ∈ ws, pick w = false) →
      ws.map (fun w => if pick w then { w with current := w.current.add amt } else w) = ws := by
  intro ws
  induction ws with
  | nil => exact fun _ => rfl
  | cons w ws ih =>
    intro h
    simp only [List.map_cons]
    have hw1 : ¬ pick w = true := by
      rw [h w (List.mem_cons_self w ws)]
      exact Bool.false_ne_true
    rw [if_neg hw1, ih (fun w2 h2 => h w2 (List.mem_cons_of_mem w h2))]

theorem insert_find_self_eq {α : Type} : ∀ {d : PyDict α} {k : String} {v : α},
    d.find k = some v → d.insert k v = d := by
  intro d
  induction d with
  | nil => exact fun h => Option.noConfusion h
  | cons p t ih =>
    intro k v h
    by_cases hp : p.1 = k
    · have h1 : PyDict.insert (p :: t) k v = (k, v) :: t := by
        simp [PyDict.insert, hp]
      have h2 : PyDict.find (p :: t) k = some p.2 := by
        simp [PyDict.find, hp]
      rw [h2] at h
      have hv : v = p.2 := (Option.some.inj h).symm
      rw [h1, hv, ← hp]
    · have h1 : PyDict.insert (p :: t) k v = p :: PyDict.insert t k v := by
        simp [PyDict.insert, hp]
      have h2 : PyDict.find t k = some v := by
        have h3 : PyDict.find (p :: t) k = PyDict.find t k := by
          simp [PyDict.find, hp]
        rw [← h3]
        exact h
      rw [h1, ih h2]

theorem accumWires_pick_false {s : CircuitSystem} {pick : Wire → Bool}
    (hp : ∀ q ∈ PyDict.entries s.conduits, ∀ w ∈ q.2.wires, pick w = false)
    (path : List String) (amt : Q) : accumWires s path pick amt = s := by
  simp only [accumWires]
  generalize pathPairs path = l
  induction l with
  | nil => rfl
  | cons uv l ih =>
    simp only [List.foldl_cons]
    have hb : accumBody pick amt s uv = s := by
      cases hg : s.get_conduit_entry uv.1 uv.2 with
      | none => simp only [accumBody, hg]
      | some kc =>
        obtain ⟨k, c⟩ := kc
        have hfk := get_conduit_entry_find hg
        have hbody : accumBody pick amt s uv = { s with conduits := s.conduits.insert k { c with wires := c.wires.map (fun w => if pick w then { w with current := w.current.add amt } else w) } } := by
          simp only [accumBody, hg]
        rw [hbody, map_pickfalse (fun w hww => hp (k, c) (find_mem _ _ _ hfk) w hww)]
        show { s with conduits := s.conduits.insert k c } = s
        rw [insert_find_self_eq hfk]
    rw [hb]
    exact ih

theorem foldRes_const {α : Type} {body : CircuitSystem → α → Res CircuitSystem}
    {s : CircuitSystem} (h : ∀ a, body s a = .ok s) :
    ∀ (l : List α), foldRes body l s = .ok s := by
  intro l
  induction l with
  | nil => rfl
  | cons a l ih =>
    simp only [foldRes, h a]
    exact ih

/-- Deleting an element of a foldRes list changes nothing when processing
the element is a no-op on every state satisfying an invariant P that the
other (Q-satisfying) elements preserve. -/
theorem foldRes_delete {α : Type} {body : CircuitSystem → α → Res CircuitSystem}
    (P : CircuitSystem → Prop) (Q : α → Prop)
    (hpres : ∀ s a s', Q a → body s a = .ok s' → P s → P s')
    {u : α} (hskip : ∀ s, P s → body s u = .ok s) :
    ∀ (l1 l2 : List α) (s : CircuitSystem), (∀ a ∈ l1, Q a) → P s →
      foldRes body (l1 ++ u :: l2) s = foldRes body (l1 ++ l2) s := by
  intro l1
  induction l1 with
  | nil =>
    intro l2 s _ hP
    simp only [List.nil_append, foldRes, hskip s hP]
  | cons a l1 ih =>
    intro l2 s hQ hP
    simp only [List.cons_append, foldRes]
    cases hb : body s a with
    | err e s2 => rfl
    | ok s2 =>
      exact ih l2 s2 (fun a2 h2 => hQ a2 (List.mem_cons_of_mem a h2))
        (hpres s a s2 (hQ a (List.mem_cons_self a l1)) hb hP)

theorem step2UnitSkip {g : Graph} {dbid cid : String} {allowed : List String}
    {u : Unit} {s : CircuitSystem}
    (h1 : ∀ pr ∈ ijPairsG (pyset (u.member_node_ids ++ [dbid])),
      (g.subgraph allowed).shortest_path pr.1 pr.2 = PRes.noPath)
    (hw : noUnitWires s u.id) :
    (if u.unit_type ≠ "非受控" then Res.ok s
     else if u.member_node_ids.isEmpty then Res.ok s
     else if ¬ u.member_node_ids.all (fun m => allowed.contains m) then Res.ok s
     else
       (lay_mst_wires_via_conduits g s u.member_node_ids dbid .L_POWER
         (some u.id) (some cid) (some allowed)).bind (fun s =>
         let Gp := build_wire_graph s .L_POWER (some cid)
         foldRes (fun s member_id =>
           match Gp.shortest_path member_id dbid with
           | .found _ p =>
             match s.nodes.find member_id with
             | none => Res.ok s
             | some member_node =>
               Res.ok (accumWires s p
                 (fun w => w.wire_type == WireType.L_POWER &&
                   w.unit_id == some u.id && w.circuit_id == some cid)
                 member_node.rated_current)
           | _ => Res.ok s) u.member_node_ids s)) = Res.ok s := by
  by_cases hu1 : u.unit_type ≠ "非受控"
  · rw [if_pos hu1]
  · rw [if_neg hu1]
    by_cases hu2 : u.member_node_ids.isEmpty = true
    · rw [if_pos hu2]
    · rw [if_neg hu2]
      by_cases hu3 : ¬ u.member_node_ids.all (fun m => allowed.contains m) = true
      · rw [if_pos hu3]
      · rw [if_neg hu3]
        have hlay : lay_mst_wires_via_conduits g s u.member_node_ids dbid .L_POWER
            (some u.id) (some cid) (some allowed) = .ok s := by
          simp only [lay_mst_wires_via_conduits]
          by_cases ht : (pyset (u.member_node_ids ++ [dbid])).length < 2
          · rw [if_pos ht]
          · rw [if_neg ht]
            rw [buildK_noPath _ _ h1]
            dsimp only
            rw [if_pos (show Graph.edgeCount ⟨[], []⟩ = 0 from rfl)]
        rw [hlay]
        dsimp only [Res.bind]
        refine foldRes_const ?_ u.member_node_ids
        intro m
        cases hsp : (build_wire_graph s .L_POWER (some cid)).shortest_path m dbid with
        | found d p =>
          simp only [hsp]
          cases hf : s.nodes.find m with
          | none => simp only [hf]
          | some mn =>
            simp only [hf]
            have hacc : accumWires s p
                (fun w => w.wire_type == WireType.L_POWER &&
                  w.unit_id == some u.id && w.circuit_id == some cid)
                mn.rated_current = s := by
              refine accumWires_pick_false ?_ p mn.rated_current
              intro q hq w hww
              have hbeq : (w.unit_id == some u.id) = false :=
                beq_eq_false_iff_ne.mpr (hw q hq w hww)
              simp only [hbeq, Bool.and_false, Bool.false_and]
            rw [hacc]
        | noPath => simp only [hsp]
        | nodeNotFound => simp only [hsp]

theorem step2UnitPres {g : Graph} {dbid cid : String} {allowed : List String}
    {a : Unit} {uid : String} (hne : a.id ≠ uid) {s s2 : CircuitSystem}
    (hb : (if a.unit_type ≠ "非受控" then Res.ok s
           else if a.member_node_ids.isEmpty then Res.ok s
           else if ¬ a.member_node_ids.all (fun m => allowed.contains m) then Res.ok s
           else
             (lay_mst_wires_via_conduits g s a.member_node_ids dbid .L_POWER
               (some a.id) (some cid) (some allowed)).bind (fun s =>
               let Gp := build_wire_graph s .L_POWER (some cid)
               foldRes (fun s member_id =>
                 match Gp.shortest_path member_id dbid with
                 | .found _ p =>
                   match s.nodes.find member_id with
                   | none => Res.ok s
                   | some member_node =>
                     Res.ok (accumWires s p
                       (fun w => w.wire_type == WireType.L_POWER &&
                         w.unit_id == some a.id && w.circuit_id == some cid)
                       member_node.rated_current)
                 | _ => Res.ok s) a.member_node_ids s)) = .ok s2)
    (h : noUnitWires s uid) : noUnitWires s2 uid := by
  revert hb
  by_cases hu1 : a.unit_type ≠ "非受控"
  · rw [if_pos hu1]
    intro hb
    rw [← ok_inj hb]
    exact h
  · rw [if_neg hu1]
    by_cases hu2 : a.member_node_ids.isEmpty = true
    · rw [if_pos hu2]
      intro hb
      rw [← ok_inj hb]
      exact h
    · rw [if_neg hu2]
      by_cases hu3 : ¬ a.member_node_ids.all (fun m => allowed.contains m) = true
      · rw [if_pos hu3]
        intro hb
        rw [← ok_inj hb]
        exact h
      · rw [if_neg hu3]
        intro hb
        obtain ⟨sa, hlay, hrest⟩ := bind_ok hb
        try dsimp only at hrest
        have hsa : noUnitWires sa uid := noUnitWires_lay_mst hne hlay h
        refine foldRes_pres (fun z => noUnitWires z uid) ?_ a.member_node_ids sa s2 hrest hsa
        intro z m z' hz hP
        cases hsp : (build_wire_graph sa .L_POWER (some cid)).shortest_path m dbid with
        | found d p =>
          simp only [hsp] at hz
          cases hf : z.nodes.find m with
          | none =>
            simp only [hf] at hz
            rw [← ok_inj hz]
            exact hP
          | some mn =>
            simp only [hf] at hz
            rw [← ok_inj hz]
            exact noUnitWires_accumWires hP p _ mn.rated_current
        | noPath =>
          simp only [hsp] at hz
          rw [← ok_inj hz]
          exact hP
        | nodeNotFound =>
          simp only [hsp] at hz
          rw [← ok_inj hz]
          exact hP

theorem step3UnitSkip {g : Graph} {cid : String} {allowed : List String}
    {u : Unit} {s : CircuitSystem}
    (h1 : ∀ pr ∈ ijPairsG (pyset (u.member_node_ids ++ [u.control_switch_id.getD ""])),
      (g.subgraph allowed).shortest_path pr.1 pr.2 = PRes.noPath)
    (hw : noUnitWires s u.id) :
    (if u.unit_type ≠ "受控" ∨ ¬ optTruthy u.control_switch_id then Res.ok s
     else
       let switch_id := u.control_switch_id.getD ""
       if ¬ allowed.contains switch_id then Res.ok s
       else if u.member_node_ids.isEmpty then Res.ok s
       else if ¬ u.member_node_ids.all (fun m => allowed.contains m) then Res.ok s
       else
         (lay_mst_wires_via_conduits g s u.member_node_ids switch_id .L_CONTROL
           (some u.id) (some cid) (some allowed)).bind (fun s =>
           let Gc := build_wire_graph s .L_CONTROL (some cid)
           foldRes (fun s member_id =>
             match Gc.shortest_path member_id switch_id with
             | .found _ p =>
               match s.nodes.find member_id with
               | none => Res.ok s
               | some member_node =>
                 Res.ok (accumWires s p
                   (fun w => w.wire_type == WireType.L_CONTROL &&
                     w.unit_id == some u.id && w.circuit_id == some cid)
                   member_node.rated_current)
             | _ => Res.ok s) u.member_node_ids s)) = Res.ok s := by
  by_cases hu1 : u.unit_type ≠ "受控" ∨ ¬ optTruthy u.control_switch_id = true
  · rw [if_pos hu1]
  · rw [if_neg hu1]
    try dsimp only
    by_cases hu2 : ¬ allowed.contains (u.control_switch_id.getD "") = true
    · rw [if_pos hu2]
    · rw [if_neg hu2]
      by_cases hu3 : u.member_node_ids.isEmpty = true
      · rw [if_pos hu3]
      · rw [if_neg hu3]
        by_cases hu4 : ¬ u.member_node_ids.all (fun m => allowed.contains m) = true
        · rw [if_pos hu4]
        · rw [if_neg hu4]
          have hlay : lay_mst_wires_via_conduits g s u.member_node_ids
              (u.control_switch_id.getD "") .L_CONTROL
              (some u.id) (some cid) (some allowed) = .ok s := by
            simp only [lay_mst_wires_via_conduits]
            by_cases ht : (pyset (u.member_node_ids ++ [u.control_switch_id.getD ""])).length < 2
            · rw [if_pos ht]
            · rw [if_neg ht]
              rw [buildK_noPath _ _ h1]
              dsimp only
              rw [if_pos (show Graph.edgeCount ⟨[], []⟩ = 0 from rfl)]
          rw [hlay]
          dsimp only [Res.bind]
          refine foldRes_const ?_ u.member_node_ids
          intro m
          cases hsp : (build_wire_graph s .L_CONTROL (some cid)).shortest_path m
              (u.control_switch_id.getD "") with
          | found d p =>
            simp only [hsp]
            cases hf : s.nodes.find m with
            | none => simp only [hf]
            | some mn =>
              simp only [hf]
              have hacc : accumWires s p
                  (fun w => w.wire_type == WireType.L_CONTROL &&
                    w.unit_id == some u.id && w.circuit_id == some cid)
                  mn.rated_current = s := by
                refine accumWires_pick_false ?_ p mn.rated_current
                intro q hq w hww
                have hbeq : (w.unit_id == some u.id) = false :=
                  beq_eq_false_iff_ne.mpr (hw q hq w hww)
                simp only [hbeq, Bool.and_false, Bool.false_and]
              rw [hacc]
          | noPath => simp only [hsp]
          | nodeNotFound => simp only [hsp]

theorem step3UnitPres {g : Graph} {cid : String} {allowed : List String}
    {a : Unit} {uid : String} (hne : a.id ≠ uid) {s s2 : CircuitSystem}
    (hb : (if a.unit_type ≠ "受控" ∨ ¬ optTruthy a.control_switch_id then Res.ok s
           else
             let switch_id := a.control_switch_id.getD ""
             if ¬ allowed.contains switch_id then Res.ok s
             else if a.member_node_ids.isEmpty then Res.ok s
             else if ¬ a.member_node_ids.all (fun m => allowed.contains m) then Res.ok s
             else
               (lay_mst_wires_via_conduits g s a.member_node_ids switch_id .L_CONTROL
                 (some a.id) (some cid) (some allowed)).bind (fun s =>
                 let Gc := build_wire_graph s .L_CONTROL (some cid)
                 foldRes (fun s member_id =>
                   match Gc.shortest_path member_id switch_id with
                   | .found _ p =>
                     match s.nodes.find member_id with
                     | none => Res.ok s
                     | some member_node =>
                       Res.ok (accumWires s p
                         (fun w => w.wire_type == WireType.L_CONTROL &&
                           w.unit_id == some a.id && w.circuit_id == some cid)
                         member_node.rated_current)
                   | _ => Res.ok s) a.member_node_ids s)) = .ok s2)
    (h : noUnitWires s uid) : noUnitWires s2 uid := by
  revert hb
  by_cases hu1 : a.unit_type ≠ "受控" ∨ ¬ optTruthy a.control_switch_id = true
  · rw [if_pos hu1]
    intro hb
    rw [← ok_inj hb]
    exact h
  · rw [if_neg hu1]
    try dsimp only
    by_cases hu2 : ¬ allowed.contains (a.control_switch_id.getD "") = true
    · rw [if_pos hu2]
      intro hb
      rw [← ok_inj hb]
      exact h
    · rw [if_neg hu2]
      by_cases hu3 : a.member_node_ids.isEmpty = true
      · rw [if_pos hu3]
        intro hb
        rw [← ok_inj hb]
        exact h
      · rw [if_neg hu3]
        by_cases hu4 : ¬ a.member_node_ids.all (fun m => allowed.contains m) = true
        · rw [if_pos hu4]
          intro hb
          rw [← ok_inj hb]
          exact h
        · rw [if_neg hu4]
          intro hb
          obtain ⟨sa, hlay, hrest⟩ := bind_ok hb
          try dsimp only at hrest
          have hsa : noUnitWires sa uid := noUnitWires_lay_mst hne hlay h
          refine foldRes_pres (fun z => noUnitWires z uid) ?_ a.member_node_ids sa s2 hrest hsa
          intro z m z' hz hP
          cases hsp : (build_wire_graph sa .L_CONTROL (some cid)).shortest_path m
              (a.control_switch_id.getD "") with
          | found d p =>
            simp only [hsp] at hz
            cases hf : z.nodes.find m with
            | none =>
              simp only [hf] at hz
              rw [← ok_inj hz]
              exact hP
            | some mn =>
              simp only [hf] at hz
              rw [← ok_inj hz]
              exact noUnitWires_accumWires hP p _ mn.rated_current
          | noPath =>
            simp only [hsp] at hz
            rw [← ok_inj hz]
            exact hP
          | nodeNotFound =>
            simp only [hsp] at hz
            rw [← ok_inj hz]
            exact hP

/-- Claim C6: during calculate, a missing path inside the allowed node
set is skipped silently, never raised.  (a) Step 1: a device whose
nearest_db scan finds no reachable distribution box is skipped by the
accumulation — deleting it from the device list changes nothing, and the
fold over the other devices proceeds identically; (b) Step 2: an
uncontrolled unit none of whose member/box target pairs has a path in the
allowed subgraph lays no wires and adds no current — deleting it from the
unit fold changes nothing (stated for a state carrying no wires of that
unit, with the other listed units distinct from it, which is how the fold
reaches it); (c) Step 3: the same for a controlled unit with respect to
its control switch; (d) Step 4: when no unconnected switch is reachable
from the power-source set the while loop stops without an error, leaves
the system untouched and reports exactly the remaining switches (the
warning the source prints). -/
theorem c6_theorem :
    (∀ (g : Graph) (dbid cid : String) (allowed : List String) (dev : Node)
      (l1 l2 : List Node) (s : CircuitSystem),
      nearest_db g s dev.id (some allowed) = .noneFound →
      foldRes (step1AccumBody g dbid cid allowed) (l1 ++ dev :: l2) s =
        foldRes (step1AccumBody g dbid cid allowed) (l1 ++ l2) s) ∧
    (∀ (g : Graph) (dbid cid : String) (allowed : List String) (u : Unit)
      (l1 l2 : List Unit) (s : CircuitSystem),
      (∀ pr ∈ ijPairsG (pyset (u.member_node_ids ++ [dbid])),
        (g.subgraph allowed).shortest_path pr.1 pr.2 = PRes.noPath) →
      noUnitWires s u.id →
      (∀ a ∈ l1, a.id ≠ u.id) →
      foldRes (fun s unit =>
        if unit.unit_type ≠ "非受控" then Res.ok s
        else if unit.member_node_ids.isEmpty then Res.ok s
        else if ¬ unit.member_node_ids.all (fun m => allowed.contains m) then Res.ok s
        else
          (lay_mst_wires_via_conduits g s unit.member_node_ids dbid .L_POWER
            (some unit.id) (some cid) (some allowed)).bind (fun s =>
            let Gp := build_wire_graph s .L_POWER (some cid)
            foldRes (fun s member_id =>
              match Gp.shortest_path member_id dbid with
              | .found _ p =>
                match s.nodes.find member_id with
                | none => Res.ok s
                | some member_node =>
                  Res.ok (accumWires s p
                    (fun w => w.wire_type == WireType.L_POWER &&
                      w.unit_id == some unit.id && w.circuit_id == some cid)
                    member_node.rated_current)
              | _ => Res.ok s) unit.member_node_ids s)) (l1 ++ u :: l2) s
      = foldRes (fun s unit =>
        if unit.unit_type ≠ "非受控" then Res.ok s
        else if unit.member_node_ids.isEmpty then Res.ok s
        else if ¬ unit.member_node_ids.all (fun m => allowed.contains m) then Res.ok s
        else
          (lay_mst_wires_via_conduits g s unit.member_node_ids dbid .L_POWER
            (some unit.id) (some cid) (some allowed)).bind (fun s =>
            let Gp := build_wire_graph s .L_POWER (some cid)
            foldRes (fun s member_id =>
              match Gp.shortest_path member_id dbid with
              | .found _ p =>
                match s.nodes.find member_id with
                | none => Res.ok s
                | some member_node =>
                  Res.ok (accumWires s p
                    (fun w => w.wire_type == WireType.L_POWER &&
                      w.unit_id == some unit.id && w.circuit_id == some cid)
                    member_node.rated_current)
              | _ => Res.ok s) unit.member_node_ids s)) (l1 ++ l2) s) ∧
    (∀ (g : Graph) (cid : String) (allowed : List String) (u : Unit)
      (l1 l2 : List Unit) (s : CircuitSystem),
      (∀ pr ∈ ijPairsG (pyset (u.member_node_ids ++ [u.control_switch_id.getD ""])),
        (g.subgraph allowed).shortest_path pr.1 pr.2 = PRes.noPath) →
      noUnitWires s u.id →
      (∀ a ∈ l1, a.id ≠ u.id) →
      foldRes (fun s unit =>
        if unit.unit_type ≠ "受控" ∨ ¬ optTruthy unit.control_switch_id then Res.ok s
        else
          let switch_id := unit.control_switch_id.getD ""
          if ¬ allowed.contains switch_id then Res.ok s
          else if unit.member_node_ids.isEmpty then Res.ok s
          else if ¬ unit.member_node_ids.all (fun m => allowed.contains m) then Res.ok s
          else
            (lay_mst_wires_via_conduits g s unit.member_node_ids switch_id .L_CONTROL
              (some unit.id) (some cid) (some allowed)).bind (fun s =>
              let Gc := build_wire_graph s .L_CONTROL (some cid)
              foldRes (fun s member_id =>
                match Gc.shortest_path member_id switch_id with
                | .found _ p =>
                  match s.nodes.find member_id with
                  | none => Res.ok s
                  | some member_node =>
                    Res.ok (accumWires s p
                      (fun w => w.wire_type == WireType.L_CONTROL &&
                        w.unit_id == some unit.id && w.circuit_id == some cid)
                      member_node.rated_current)
                | _ => Res.ok s) unit.member_node_ids s)) (l1 ++ u :: l2) s
      = foldRes (fun s unit =>
        if unit.unit_type ≠ "受控" ∨ ¬ optTruthy unit.control_switch_id then Res.ok s
        else
          let switch_id := unit.control_switch_id.getD ""
          if ¬ allowed.contains switch_id then Res.ok s
          else if unit.member_node_ids.isEmpty then Res.ok s
          else if ¬ unit.member_node_ids.all (fun m => allowed.contains m) then Res.ok s
          else
            (lay_mst_wires_via_conduits g s unit.member_node_ids switch_id .L_CONTROL
              (some unit.id) (some cid) (some allowed)).bind (fun s =>
              let Gc := build_wire_graph s .L_CONTROL (some cid)
              foldRes (fun s member_id =>
                match Gc.shortest_path member_id switch_id with
                | .found _ p =>
                  match s.nodes.find member_id with
                  | none => Res.ok s
                  | some member_node =>
                    Res.ok (accumWires s p
                      (fun w => w.wire_type == WireType.L_CONTROL &&
                        w.unit_id == some unit.id && w.circuit_id == some cid)
                      member_node.rated_current)
                | _ => Res.ok s) unit.member_node_ids s)) (l1 ++ l2) s) ∧
    (∀ (g : Graph) (cid : String) (allowed : List String) (fuel : Nat)
      (sources unconnected : List String) (s : CircuitSystem),
      unconnected.isEmpty = false →
      step4_scan (g.subgraph (pyUnion allowed sources)) sources unconnected none
        = .noneFound →
      step4_loop g cid allowed (fuel + 1) sources unconnected s = .ok (s, unconnected)) := by
  refine ⟨?_, ?_, ?_, ?_⟩
  · intro g dbid cid allowed dev l1 l2
    induction l1 with
    | nil =>
      intro s h
      simp only [List.nil_append, foldRes]
      have hbody : step1AccumBody g dbid cid allowed s dev = .ok s := by
        simp only [step1AccumBody, h]
      rw [hbody]
    | cons a l1 ih =>
      intro s h
      simp only [List.cons_append, foldRes]
      cases hb : step1AccumBody g dbid cid allowed s a with
      | ok s2 =>
        have hshape := step1AccumBody_shape g dbid cid allowed s a
        rw [hb] at hshape
        have hsame : sameExceptConduits s2 s := hshape.1
        refine ih s2 ?_
        rw [nearest_db_congr g s2 s dev.id (some allowed) hsame.2.2.2.1 hsame.2.2.1]
        exact h
      | err e s2 => rfl
  · intro g dbid cid allowed u l1 l2 s h1 hw hl
    refine foldRes_delete (fun z => noUnitWires z u.id) (fun a => a.id ≠ u.id)
      ?_ ?_ l1 l2 s hl hw
    · intro z a z' hQ hz hP
      have hQ2 : a.id ≠ u.id := hQ
      exact step2UnitPres hQ2 hz hP
    · intro z hP
      exact step2UnitSkip h1 hP
  · intro g cid allowed u l1 l2 s h1 hw hl
    refine foldRes_delete (fun z => noUnitWires z u.id) (fun a => a.id ≠ u.id)
      ?_ ?_ l1 l2 s hl hw
    · intro z a z' hQ hz hP
      have hQ2 : a.id ≠ u.id := hQ
      exact step3UnitPres hQ2 hz hP
    · intro z hP
      exact step3UnitSkip h1 hP
  · intro g cid allowed fuel sources unconnected s hne hscan
    simp only [step4_loop, hne, Bool.false_eq_true, if_false, reduceIte, hscan]

/-- Claim C6, witness: in c6sys the lone device "dev" has no conduit at
all.  (a) nearest_db finds nothing for it and removing it from the device
list does not change Step 1's result; (b) an uncontrolled unit with "dev"
as its only member lays nothing in Step 2 and removing it from the unit
fold changes nothing; (c) likewise in Step 3 for a controlled unit
anchored at "db"; (d) a Step 4 scan that reaches no switch ends the loop
with the remaining switch reported and the state unchanged. -/
theorem c6_witness :
    (foldRes (step1AccumBody (buildGraph c6sys) "db" "C-C1" (pyUnion ["dev"] ["db"]))
        ([] ++ mkNode "dev" .LIGHT ⟨5, 1⟩ Q.zero ⟨1, 1⟩ :: []) c6sys =
      foldRes (step1AccumBody (buildGraph c6sys) "db" "C-C1" (pyUnion ["dev"] ["db"]))
        ([] ++ []) c6sys) ∧
    (foldRes (fun (s : CircuitSystem) (unit : Unit) =>
        if unit.unit_type ≠ "非受控" then Res.ok s
        else if unit.member_node_ids.isEmpty then Res.ok s
        else if ¬ unit.member_node_ids.all (fun m => (pyUnion ["dev"] ["db"]).contains m) then Res.ok s
        else
          (lay_mst_wires_via_conduits (buildGraph c6sys) s unit.member_node_ids "db" .L_POWER
            (some unit.id) (some "C-C1") (some (pyUnion ["dev"] ["db"]))).bind (fun s =>
            let Gp := build_wire_graph s .L_POWER (some "C-C1")
            foldRes (fun s member_id =>
              match Gp.shortest_path member_id "db" with
              | .found _ p =>
                match s.nodes.find member_id with
                | none => Res.ok s
                | some member_node =>
                  Res.ok (accumWires s p
                    (fun w => w.wire_type == WireType.L_POWER &&
                      w.unit_id == some unit.id && w.circuit_id == some "C-C1")
                    member_node.rated_current)
              | _ => Res.ok s) unit.member_node_ids s)) ([] ++ c6unit2 :: []) c6sys
      = foldRes (fun (s : CircuitSystem) (unit : Unit) =>
        if unit.unit_type ≠ "非受控" then Res.ok s
        else if unit.member_node_ids.isEmpty then Res.ok s
        else if ¬ unit.member_node_ids.all (fun m => (pyUnion ["dev"] ["db"]).contains m) then Res.ok s
        else
          (lay_mst_wires_via_conduits (buildGraph c6sys) s unit.member_node_ids "db" .L_POWER
            (some unit.id) (some "C-C1") (some (pyUnion ["dev"] ["db"]))).bind (fun s =>
            let Gp := build_wire_graph s .L_POWER (some "C-C1")
            foldRes (fun s member_id =>
              match Gp.shortest_path member_id "db" with
              | .found _ p =>
                match s.nodes.find member_id with
                | none => Res.ok s
                | some member_node =>
                  Res.ok (accumWires s p
                    (fun w => w.wire_type == WireType.L_POWER &&
                      w.unit_id == some unit.id && w.circuit_id == some "C-C1")
                    member_node.rated_current)
              | _ => Res.ok s) unit.member_node_ids s)) ([] ++ []) c6sys) ∧
    (foldRes (fun (s : CircuitSystem) (unit : Unit) =>
        if unit.unit_type ≠ "受控" ∨ ¬ optTruthy unit.control_switch_id then Res.ok s
        else
          let switch_id := unit.control_switch_id.getD ""
          if ¬ (pyUnion ["dev"] ["db"]).contains switch_id then Res.ok s
          else if unit.member_node_ids.isEmpty then Res.ok s
          else if ¬ unit.member_node_ids.all (fun m => (pyUnion ["dev"] ["db"]).contains m) then Res.ok s
          else
            (lay_mst_wires_via_conduits (buildGraph c6sys) s unit.member_node_ids switch_id .L_CONTROL
              (some unit.id) (some "C-C1") (some (pyUnion ["dev"] ["db"]))).bind (fun s =>
              let Gc := build_wire_graph s .L_CONTROL (some "C-C1")
              foldRes (fun s member_id =>
                match Gc.shortest_path member_id switch_id with
                | .found _ p =>
                  match s.nodes.find member_id with
                  | none => Res.ok s
                  | some member_node =>
                    Res.ok (accumWires s p
                      (fun w => w.wire_type == WireType.L_CONTROL &&
                        w.unit_id == some unit.id && w.circuit_id == some "C-C1")
                      member_node.rated_current)
                | _ => Res.ok s) unit.member_node_ids s)) ([] ++ c6unit3 :: []) c6sys
      = foldRes (fun (s : CircuitSystem) (unit : Unit) =>
        if unit.unit_type ≠ "受控" ∨ ¬ optTruthy unit.control_switch_id then Res.ok s
        else
          let switch_id := unit.control_switch_id.getD ""
          if ¬ (pyUnion ["dev"] ["db"]).contains switch_id then Res.ok s
          else if unit.member_node_ids.isEmpty then Res.ok s
          else if ¬ unit.member_node_ids.all (fun m => (pyUnion ["dev"] ["db"]).contains m) then Res.ok s
          else
            (lay_mst_wires_via_conduits (buildGraph c6sys) s unit.member_node_ids switch_id .L_CONTROL
              (some unit.id) (some "C-C1") (some (pyUnion ["dev"] ["db"]))).bind (fun s =>
              let Gc := build_wire_graph s .L_CONTROL (some "C-C1")
              foldRes (fun s member_id =>
                match Gc.shortest_path member_id switch_id with
                | .found _ p =>
                  match s.nodes.find member_id with
                  | none => Res.ok s
                  | some member_node =>
                    Res.ok (accumWires s p
                      (fun w => w.wire_type == WireType.L_CONTROL &&
                        w.unit_id == some unit.id && w.circuit_id == some "C-C1")
                      member_node.rated_current)
                | _ => Res.ok s) unit.member_node_ids s)) ([] ++ []) c6sys) ∧
    (step4_loop (buildGraph c6sys) "C-C1" ["dev", "db"] 1 ["db"] ["dev"] c6sys =
      .ok (c6sys, ["dev"])) :=
  ⟨c6_theorem.1 (buildGraph c6sys) "db" "C-C1" (pyUnion ["dev"] ["db"])
      (mkNode "dev" .LIGHT ⟨5, 1⟩ Q.zero ⟨1, 1⟩) [] [] c6sys (by decide),
   c6_theorem.2.1 (buildGraph c6sys) "db" "C-C1" (pyUnion ["dev"] ["db"])
      c6unit2 [] [] c6sys (by decide)
      (by simp only [noUnitWires]; decide)
      (fun a ha => absurd ha (List.not_mem_nil a)),
   c6_theorem.2.2.1 (buildGraph c6sys) "C-C1" (pyUnion ["dev"] ["db"])
      c6unit3 [] [] c6sys (by decide)
      (by simp only [noUnitWires]; decide)
      (fun a ha => absurd ha (List.not_mem_nil a)),
   c6_theorem.2.2.2 (buildGraph c6sys) "C-C1" ["dev", "db"] 0 ["db"] ["dev"] c6sys
      (by decide) (by decide)⟩

end AutoRouting
